import Mathlib

/-!
# LIVE555 proxy server: configuration resolution, stream registry, bootstrap

A shallow embedding of `proxyServer/live555ProxyServer.cpp`.

* A `std::string` is a list of characters (`Str`) and may hold NUL characters; a `char*`
  that may be `NULL` is an `Option Str`.  Where the source passes `s.c_str()` to the
  engine, the embedding passes `c_str s`, the characters before the first NUL.  The arguments
  `argv[i]` are NUL-terminated arrays and are passed as they are.
* `usage()` prints a usage line and calls `exit(1)`.  Code that may call it returns an
  `Except Failure _`; the `Failure` says which diagnostic line preceded the usage text.
* The external engine (RTSP listener, proxied media sessions, HTTP tunnelling) is an oracle
  `Engine`; every call made to it is recorded, in order, in the trace of a `Run`.
* `portNumBits` is an unsigned 16-bit integer: values are natural numbers below `2^16`.
-/

namespace ProxyServer

/-- A `std::string` or a NUL-terminated `char` array. -/
abbrev Str := List Char

/-! ## Failures -/

/-- The ways in which the program terminates with `exit(1)`, told apart by the diagnostic
line that is printed before the process exits. -/
inductive Failure where
  /-- Only `usage()`, with no diagnostic line before it (a rejected command line). -/
  | Usage
  /-- Diagnostic "invalid format string : ..." followed by `usage()`. -/
  | MalformedDefinition
  /-- Diagnostic "\"proxyStream\" is reserved keyword : ..." followed by `usage()`. -/
  | ReservedName
  /-- Diagnostic "invalid rtsp url : ..." followed by `usage()`. -/
  | InvalidSourceURL
  /-- Diagnostic "invalid file : ..." followed by `usage()`. -/
  | FileNotFound
  /-- Diagnostic "repeated stream name : ..." followed by `usage()`. -/
  | DuplicateStreamName
  /-- Diagnostic "The '-U <username> <password>' option can be used only with -R",
  followed by `usage()`. -/
  | RegisterAuthWithoutRegister
  /-- Diagnostic "The -t and -T options cannot both be used!" followed by `usage()`. -/
  | BothTcpAndHttp
  /-- Diagnostic "Failed to create RTSP server: ..." followed by `exit(1)`. -/
  | ServerUnavailable
  deriving DecidableEq, Repr

deriving instance DecidableEq for Except

/-! ## Text: whitespace, tokens, lines -/

/-- The function `isspace` of the classic "C" locale. -/
def isspace (c : Char) : Bool :=
  c == ' ' || c == '\t' || c == '\n' || c == '\x0b' || c == '\x0c' || c == '\r'

/-- The function `isdigit` of the classic "C" locale. -/
def isdigit (c : Char) : Bool :=
  decide ('0' ≤ c) && decide (c ≤ '9')

/-- The stream extraction `iss >> token` on the unread input `s`: leading whitespace is
skipped, then characters are taken up to the next whitespace character or the end of the
input.  It fails (`none`) when only whitespace is left.  The result is the token
and the input that is still unread. -/
def extract (s : Str) : Option (Str × Str) :=
  match s.dropWhile isspace with
  | [] => none
  | c :: cs =>
    some ((c :: cs).takeWhile (fun d => !isspace d), (c :: cs).dropWhile (fun d => !isspace d))

/-- The loop of `std::copy` over `std::istream_iterator<std::string>`: extraction is
repeated until it fails.  The first argument bounds the number of iterations. -/
def copy_tokens : Nat → Str → List Str
  | 0, _ => []
  | n + 1, s =>
    match extract s with
    | none => []
    | some (t, rest) => t :: copy_tokens n rest

/-- The vector `tokens` built at the start of `stream_info::operator=`.  Every
extraction consumes at least one character, so `s.length` iterations reach the end. -/
def tokenize (s : Str) : List Str :=
  copy_tokens s.length s

/-- One call `std::getline(infile, line)` on the unread input `s`: it fails at end of
input; otherwise the line is what precedes the next newline (or the end of input) and the
newline is consumed. -/
def getline (s : List Char) : Option (Str × List Char) :=
  match s with
  | [] => none
  | c :: cs => some ((c :: cs).takeWhile (fun d => d != '\n'),
      ((c :: cs).dropWhile (fun d => d != '\n')).drop 1)

/-- The loop `while (std::getline(infile, line))`, bounded by the first argument. -/
def read_lines : Nat → List Char → List Str
  | 0, _ => []
  | n + 1, s =>
    match getline s with
    | none => []
    | some (line, rest) => line :: read_lines n rest

/-- All the lines that the loop of `load_streams_from_file` reads from a file with the
given contents.  Every call consumes at least one character. -/
def file_lines (content : List Char) : List Str :=
  read_lines content.length content

/-! ## `stream_info` -/

/-- The struct `stream_info`.  A default-constructed `std::string` is empty: an empty
`username` or `password` stands for an absent one. -/
structure stream_info where
  name : Str
  url : Str
  username : Str
  password : Str
  deriving DecidableEq, Repr

/-- The value `std::string::operator<` on names (lexicographic on characters; a proper
initial segment is smaller). -/
def str_lt : Str → Str → Bool
  | [], [] => false
  | [], _ :: _ => true
  | _ :: _, [] => false
  | a :: as, b :: bs =>
    if a < b then true else if b < a then false else str_lt as bs

/-- The member `stream_info::operator<`: compares names only. -/
def stream_info.lt (a b : stream_info) : Bool :=
  str_lt a.name b.name

/-- The member `stream_info::operator=(const std::string&)`, with the checks in the order
of the source. -/
def stream_info.assign (self : stream_info) (str : Str) : Except Failure stream_info :=
  let tokens := tokenize str
  if tokens.length < 2 then .error .MalformedDefinition
  else if "proxyStream".toList.isPrefixOf (tokens.getD 0 []) then .error .ReservedName
  else if !("rtsp://".toList.isPrefixOf (tokens.getD 1 [])) then .error .InvalidSourceURL
  else
    .ok { name := tokens.getD 0 []
          url := tokens.getD 1 []
          username := if tokens.length ≥ 3 then tokens.getD 2 [] else self.username
          password := if tokens.length ≥ 4 then tokens.getD 3 [] else self.password }

/-- The converting constructor `stream_info(const std::string&)`: the four strings are
default-constructed (empty), then `*this = str`. -/
def stream_info.construct (str : Str) : Except Failure stream_info :=
  stream_info.assign { name := [], url := [], username := [], password := [] } str

/-! ## The stream registry: `std::set<stream_info>` -/

/-- The call `std::set<stream_info>::insert` on a set represented by its elements in
iteration order (ascending by `operator<`).  The Boolean is the `.second` of the
result: `false` when an equivalent element (same name) is already present, in which
case the set is unchanged. -/
def set_insert (si : stream_info) : List stream_info → List stream_info × Bool
  | [] => ([si], true)
  | x :: xs =>
    if si.lt x then (si :: x :: xs, true)
    else if x.lt si then (x :: (set_insert si xs).1, (set_insert si xs).2)
    else (x :: xs, false)

/-- The body of the `while` loop of `load_streams_from_file`, over the lines read. -/
def insert_lines : List stream_info → List Str → Except Failure (List stream_info)
  | streams, [] => .ok streams
  | streams, line :: rest =>
    match stream_info.construct line with
    | .error e => .error e
    | .ok si =>
      if (set_insert si streams).2 then insert_lines (set_insert si streams).1 rest
      else .error .DuplicateStreamName

/-- The function `load_streams_from_file`.  The file system is the function `open_file`
(`none`: the `std::ifstream` is not open). -/
def load_streams_from_file (open_file : Str → Option (List Char)) (path : Str) :
    Except Failure (List stream_info) :=
  match open_file path with
  | none => .error .FileNotFound
  | some content => insert_lines [] (file_lines content)

/-! ## Command-line options -/

/-- The global variables that hold the command-line parameters, together with the local
`streams_file_path` of `main`. -/
structure Globals where
  verbosityLevel : Nat
  streamRTPOverTCP : Bool
  tunnelOverHTTPPortNum : Nat
  rtspServerPortNum : Nat
  username : Option Str
  password : Option Str
  proxyREGISTERRequests : Bool
  usernameForREGISTER : Option Str
  passwordForREGISTER : Option Str
  authDBForREGISTER : Option (List (Str × Str))
  streams_file_path : Option Str
  deriving DecidableEq, Repr

/-- Default values of command-line parameters. -/
def Globals.default : Globals :=
  { verbosityLevel := 0
    streamRTPOverTCP := false
    tunnelOverHTTPPortNum := 0
    rtspServerPortNum := 554
    username := none
    password := none
    proxyREGISTERRequests := false
    usernameForREGISTER := none
    passwordForREGISTER := none
    authDBForREGISTER := none
    streams_file_path := none }

/-- The number read by the conversion `%hu`, from its decimal digits. -/
def digits_value (ds : List Char) : Nat :=
  ds.foldl (fun acc d => 10 * acc + (d.toNat - '0'.toNat)) 0

/-- The `unsigned long` computed by `strtoul` (64 bits) from a sign and a run of decimal
digits: a number that does not fit is replaced by `ULONG_MAX`, and after a minus sign the
number is negated modulo `2^64`. -/
def strtoul_value (negative : Bool) (ds : List Char) : Nat :=
  if digits_value ds ≥ 2 ^ 64 then 2 ^ 64 - 1
  else if negative then (2 ^ 64 - digits_value ds) % 2 ^ 64
  else digits_value ds

/-- The call `sscanf(s, "%hu", &v) == 1` and the value stored in `v`, as done by the GNU C
library: leading whitespace is skipped, an optional sign is read, then the longest run of
decimal digits; the conversion fails (`none`) when there is no digit.  What follows the
digits is left unread.  The digits are converted by `strtoul` and the result is stored in an
`unsigned short`, that is modulo `2^16`. -/
def sscanf_hu (s : Str) : Option Nat :=
  match s.dropWhile isspace with
  | '-' :: r =>
    if r.takeWhile isdigit = [] then none
    else some (strtoul_value true (r.takeWhile isdigit) % 2 ^ 16)
  | '+' :: r =>
    if r.takeWhile isdigit = [] then none
    else some (strtoul_value false (r.takeWhile isdigit) % 2 ^ 16)
  | r =>
    if r.takeWhile isdigit = [] then none
    else some (strtoul_value false (r.takeWhile isdigit) % 2 ^ 16)

/-- The character `opt[1]` of an option; the terminating NUL when `opt` is "-". -/
def option_letter (opt : Str) : Char :=
  opt.getD 1 (Char.ofNat 0)

/-- What one iteration of the `while (argc > 1)` loop of `main` does. -/
inductive Step where
  /-- The statement `break`: the argument does not begin with `-`. -/
  | stop
  /-- The call `usage()`. -/
  | fail
  /-- The next iteration, with the globals and the arguments that are left. -/
  | next (g : Globals) (rest : List Str)

/-- The block `case 'T'` of the `switch`, on the arguments that follow the option. -/
def case_T (g : Globals) (rest : List Str) : Step :=
  match rest with
  | [] => .fail
  | a :: rest2 =>
    if a.head? ≠ some '-' then
      match sscanf_hu a with
      | none => .fail
      | some v => if v > 0 then .next { g with tunnelOverHTTPPortNum := v } rest2 else .fail
    else .fail

/-- The block `case 'p'` of the `switch`, on the arguments that follow the option. -/
def case_p (g : Globals) (rest : List Str) : Step :=
  match rest with
  | [] => .fail
  | a :: rest2 =>
    if a.head? ≠ some '-' then
      match sscanf_hu a with
      | none => .fail
      | some v => if v > 0 then .next { g with rtspServerPortNum := v } rest2 else .fail
    else .fail

/-- The block `case 'u'` of the `switch`, on the arguments that follow the option. -/
def case_u (g : Globals) (rest : List Str) : Step :=
  match rest with
  | a :: b :: rest3 => .next { g with username := some a, password := some b } rest3
  | _ => .fail

/-- The block `case 'U'` of the `switch`, on the arguments that follow the option.  The
authentication database is the list of the records added to it. -/
def case_U (g : Globals) (rest : List Str) : Step :=
  match rest with
  | a :: b :: rest3 =>
    .next
      { g with
        usernameForREGISTER := some a
        passwordForREGISTER := some b
        authDBForREGISTER := some ((g.authDBForREGISTER.getD []) ++ [(a, b)]) } rest3
  | _ => .fail

/-- The block `case 'f'` of the `switch`, on the arguments that follow the option. -/
def case_f (g : Globals) (rest : List Str) : Step :=
  match rest with
  | [] => .fail
  | a :: rest2 => .next { g with streams_file_path := some a } rest2

/-- One iteration of the `while (argc > 1)` loop of `main` on `argv[1] = opt`, the other
arguments being `rest`: the `switch (opt[1])` and the advance of `argv`. -/
def scan_step (g : Globals) (opt : Str) (rest : List Str) : Step :=
  if opt.head? ≠ some '-' then .stop
  else if option_letter opt = 'v' then .next { g with verbosityLevel := 1 } rest
  else if option_letter opt = 'V' then .next { g with verbosityLevel := 2 } rest
  else if option_letter opt = 't' then .next { g with streamRTPOverTCP := true } rest
  else if option_letter opt = 'T' then case_T g rest
  else if option_letter opt = 'p' then case_p g rest
  else if option_letter opt = 'u' then case_u g rest
  else if option_letter opt = 'U' then case_U g rest
  else if option_letter opt = 'R' then .next { g with proxyREGISTERRequests := true } rest
  else if option_letter opt = 'f' then case_f g rest
  else .fail

/-- The `while (argc > 1)` loop of `main`, bounded by the first argument.  The list is
`argv[1] .. argv[argc-1]`; the result is the globals after the loop together with the
arguments that are left when the loop is left. -/
def scan_loop : Nat → Globals → List Str → Except Failure (Globals × List Str)
  | 0, g, args => .ok (g, args)
  | _ + 1, g, [] => .ok (g, [])
  | n + 1, g, opt :: rest =>
    match scan_step g opt rest with
    | .stop => .ok (g, opt :: rest)
    | .fail => .error .Usage
    | .next g1 rest1 => scan_loop n g1 rest1

/-- The `while (argc > 1)` loop of `main`.  Every iteration consumes at least one argument,
so `args.length` iterations reach the end of the loop. -/
def scan_options (g : Globals) (args : List Str) : Except Failure (Globals × List Str) :=
  scan_loop args.length g args

/-- The checking of the command line in `main`, from `if (argc < 2) usage();` down
to the setting of the "stream over TCP" hack value: the globals as they are when the RTSP
server is created, and the remaining arguments (the "rtsp://" URLs). -/
def check_arguments (args : List Str) : Except Failure (Globals × List Str) :=
  if args = [] then .error .Usage
  else
    match scan_options Globals.default args with
    | .error e => .error e
    | .ok (g, urls) =>
      if urls = [] ∧ g.proxyREGISTERRequests = false ∧ g.streams_file_path = none then
        .error .Usage
      else if urls.all (fun u => "rtsp://".toList.isPrefixOf u) = false then .error .Usage
      else if g.authDBForREGISTER ≠ none ∧ g.proxyREGISTERRequests = false then
        .error .RegisterAuthWithoutRegister
      else if g.streamRTPOverTCP then
        if g.tunnelOverHTTPPortNum > 0 then .error .BothTcpAndHttp
        else .ok ({ g with tunnelOverHTTPPortNum := 2 ^ 16 - 1 }, urls)
      else .ok (g, urls)

/-! ## The external engine and the bootstrap -/

/-- A call made to the external engine. -/
inductive Event where
  /-- A call `createRTSPServer(port)`, that is `RTSPServer::createNew` or
  `RTSPServerWithREGISTERProxying::createNew` (second field: with REGISTER proxying). -/
  | CreateListener (port : Nat) (withREGISTER : Bool)
  /-- A call `ProxyServerMediaSession::createNew(env, rtspServer, url, name, username,
  password, tunnelOverHTTPPortNum, verbosityLevel)` followed by
  `addServerMediaSession`. -/
  | PublishSession (url name : Str) (username password : Option Str)
      (tunnelOverHTTPPortNum verbosityLevel : Nat)
  /-- A call `rtspServer->setUpTunnelingOverHTTP(port)`. -/
  | SetUpTunneling (port : Nat)
  deriving DecidableEq, Repr

/-- The answers of the external engine and of the file system. -/
structure Engine where
  /-- Whether the `n`-th call (from 0) of `createRTSPServer`, made on `port`, returns a
  server (not `NULL`). -/
  listen : (n : Nat) → (port : Nat) → Bool
  /-- Whether `setUpTunnelingOverHTTP(port)` succeeds. -/
  tunnel : (port : Nat) → Bool
  /-- The contents of the file at a path, when it can be opened. -/
  open_file : Str → Option (List Char)

/-- How a run of `main` ends. -/
inductive Outcome where
  /-- The call `exit(code)`, after the diagnostic of the failure. -/
  | exited (code : Nat) (failure : Failure)
  /-- The event loop `doEventLoop()` was entered (it does not return). -/
  | serving
  deriving DecidableEq, Repr

/-- A run of the program: the calls made to the engine, in order, and how it ends. -/
structure Run where
  trace : List Event
  outcome : Outcome
  deriving DecidableEq, Repr

/-- The state of the creation of the RTSP server: the calls made so far, the global
`rtspServerPortNum` and whether `rtspServer` is not `NULL`. -/
structure Boot where
  trace : List Event
  rtspServerPortNum : Nat
  rtspServer : Bool
  deriving DecidableEq, Repr

/-- One statement `rtspServer = createRTSPServer(rtspServerPortNum);`. -/
def createRTSPServer (e : Engine) (g : Globals) (b : Boot) : Boot :=
  { b with
    trace := b.trace ++ [Event.CreateListener b.rtspServerPortNum g.proxyREGISTERRequests]
    rtspServer := e.listen b.trace.length b.rtspServerPortNum }

/-- The creation of the RTSP server in `main`: first with the configured port number, then
with 554 if different, then with 8554. -/
def create_server (e : Engine) (g : Globals) : Boot :=
  let b0 := createRTSPServer e g { trace := [], rtspServerPortNum := g.rtspServerPortNum,
                                   rtspServer := false }
  let b1 :=
    if b0.rtspServer = false then
      if b0.rtspServerPortNum ≠ 554 then createRTSPServer e g { b0 with rtspServerPortNum := 554 }
      else b0
    else b0
  let b2 :=
    if b1.rtspServer = false then createRTSPServer e g { b1 with rtspServerPortNum := 8554 }
    else b1
  b2

/-- The text written by `sprintf` for the conversion `%d` of a non-negative `int`. -/
def sprintf_d (i : Nat) : Str :=
  Nat.toDigits 10 i

/-- The loop `for (i = 1; i < argc; ++i)` that creates a proxy for each "rtsp://" URL of the
command line, from index `i` on; `argc - 1` is the number of URLs. -/
def proxy_urls (g : Globals) (argc : Nat) : Nat → List Str → List Event
  | _, [] => []
  | i, proxiedStreamURL :: rest =>
    Event.PublishSession proxiedStreamURL
      (if argc = 2 then "proxyStream".toList else "proxyStream-".toList ++ sprintf_d i)
      g.username g.password g.tunnelOverHTTPPortNum g.verbosityLevel
    :: proxy_urls g argc (i + 1) rest

/-- The array returned by `std::string::c_str()` as the engine reads it: the characters
before the first NUL character. -/
def c_str (s : Str) : Str :=
  s.takeWhile (fun c => c != Char.ofNat 0)

/-- The body of the loop over the set returned by `load_streams_from_file`: the URL, the
name and the own credentials of the entry are passed as `c_str()`. -/
def proxy_stream (g : Globals) (si : stream_info) : Event :=
  Event.PublishSession (c_str si.url) (c_str si.name)
    (if si.username.isEmpty then g.username else some (c_str si.username))
    (if si.password.isEmpty then g.password else some (c_str si.password))
    g.tunnelOverHTTPPortNum g.verbosityLevel

/-- The attempts `setUpTunnelingOverHTTP(80) || setUpTunnelingOverHTTP(8000) ||
setUpTunnelingOverHTTP(8080)`. -/
def set_up_tunneling (e : Engine) : List Event :=
  if e.tunnel 80 then [Event.SetUpTunneling 80]
  else if e.tunnel 8000 then [Event.SetUpTunneling 80, Event.SetUpTunneling 8000]
  else [Event.SetUpTunneling 80, Event.SetUpTunneling 8000, Event.SetUpTunneling 8080]

/-- The function `main`, on the arguments `argv[1] .. argv[argc-1]`. -/
def main (e : Engine) (args : List Str) : Run :=
  match check_arguments args with
  | .error f => { trace := [], outcome := .exited 1 f }
  | .ok (g, urls) =>
    let b := create_server e g
    if b.rtspServer = false then { trace := b.trace, outcome := .exited 1 .ServerUnavailable }
    else
      let t1 := b.trace ++ proxy_urls g (urls.length + 1) 1 urls
      match g.streams_file_path with
      | none => { trace := t1 ++ set_up_tunneling e, outcome := .serving }
      | some path =>
        match load_streams_from_file e.open_file path with
        | .error f => { trace := t1, outcome := .exited 1 f }
        | .ok streams =>
          { trace := t1 ++ streams.map (proxy_stream g) ++ set_up_tunneling e
            outcome := .serving }

/-! ## Notions of the specification -/

/-- A token: not empty and free of whitespace. -/
def IsToken (t : Str) : Prop :=
  t ≠ [] ∧ ∀ c ∈ t, isspace c = false

/-- Fields joined by single spaces. -/
def join_tokens : List Str → Str
  | [] => []
  | [t] => t
  | t :: u :: ts => t ++ ' ' :: join_tokens (u :: ts)

/-- The record `StreamDefinition` of the specification: `username` and `password` are
optional. -/
structure StreamDefinition where
  name : Str
  sourceURL : Str
  username : Option Str
  password : Option Str
  deriving DecidableEq, Repr

/-- The `StreamDefinition` held by a `stream_info`: an empty string is an absent field. -/
def stream_info.toDefinition (si : stream_info) : StreamDefinition :=
  { name := si.name
    sourceURL := si.url
    username := if si.username.isEmpty then none else some si.username
    password := if si.password.isEmpty then none else some si.password }

/-- The reference definition of parsing, on the list of whitespace-delimited tokens of a
line: it succeeds if and only if there are at least 2 tokens, the first does not start
with "proxyStream" and the second starts with "rtsp://"; then name and source URL are the
first two tokens, username the third if present, password the fourth if present. -/
def parse_reference : List Str → Option StreamDefinition
  | name :: url :: more =>
    if "proxyStream".toList.isPrefixOf name = false ∧ "rtsp://".toList.isPrefixOf url = true then
      some { name := name, sourceURL := url, username := more.head?, password := more.tail.head? }
    else none
  | _ => none

/-- The text `name url [user [pass]]` of a record: fields joined by single spaces,
optional fields omitted when absent. -/
def serialize (d : StreamDefinition) : Str :=
  match d.username, d.password with
  | none, _ => join_tokens [d.name, d.sourceURL]
  | some user, none => join_tokens [d.name, d.sourceURL, user]
  | some user, some pass => join_tokens [d.name, d.sourceURL, user, pass]

/-- The elements are in strictly ascending order of name, for `stream_info::operator<`. -/
def Ascending (reg : List stream_info) : Prop :=
  reg.Pairwise (fun a b => a.lt b = true)

/-- The list `sis` holds the parse of each line of `lines`, in the same order. -/
def ParsedAs (lines : List Str) (sis : List stream_info) : Prop :=
  List.Forall₂ (fun line si => stream_info.construct line = .ok si) lines sis

/-- The flag scan of `main` processes `opt` as an option of `args`: the scan of the
arguments `before` it consumes them all and ends with globals `g`, `opt` begins with
`-`, and the arguments `after` follow it. -/
def Processes (args before : List Str) (g : Globals) (opt : Str) (after : List Str) : Prop :=
  args = before ++ opt :: after ∧ scan_options Globals.default before = .ok (g, []) ∧
    opt.head? = some '-'

/-! ## Example inputs -/

/-- An engine on which every creation of a listener succeeds, no tunnelling port can be set
up, and every path opens a file with the given contents (`none`: no file can be opened). -/
def example_engine (content : Option (List Char)) : Engine :=
  { listen := fun _ _ => true, tunnel := fun _ => false, open_file := fun _ => content }

/-- The definitions file of the credentials example of the specification. -/
def example_file : List Char :=
  "foo rtsp://x/y\nbar rtsp://x/z carol caroLpass\n".toList

/-- The command line `-u alice secret -f file` of the credentials example. -/
def example_args : List Str :=
  ["-u".toList, "alice".toList, "secret".toList, "-f".toList, "file".toList]

/-- The globals after the checking of `example_args`. -/
def example_globals : Globals :=
  { Globals.default with
    username := some "alice".toList
    password := some "secret".toList
    streams_file_path := some "file".toList }

/-- A definitions file whose second line has a reserved name and a URL without `rtsp://`. -/
def example_bad_file : List Char :=
  "foo rtsp://x/y\nproxyStream-custom http://x\n".toList

/-! ## Flag groups -/

/-- One setting of the configuration, as written by one flag of the interface table. -/
inductive Setting where
  /-- Flags `-v` (level 1) and `-V` (level 2). -/
  | verbosity (level : Nat)
  /-- Flag `-t`. -/
  | forceTCP
  /-- Flag `-T <port>`. -/
  | tunnel (port : Nat)
  /-- Flag `-p <port>`. -/
  | rtspPort (port : Nat)
  /-- Flag `-u <user> <pass>`. -/
  | credentials (user pass : Str)
  /-- Flag `-U <user> <pass>`. -/
  | registerCredentials (user pass : Str)
  /-- Flag `-R`. -/
  | registerProxying
  /-- Flag `-f <path>`. -/
  | definitionsFile (path : Str)
  deriving DecidableEq, Repr

/-- The globals after a setting is written. -/
def Setting.apply : Setting → Globals → Globals
  | .verbosity level, g => { g with verbosityLevel := level }
  | .forceTCP, g => { g with streamRTPOverTCP := true }
  | .tunnel port, g => { g with tunnelOverHTTPPortNum := port }
  | .rtspPort port, g => { g with rtspServerPortNum := port }
  | .credentials user pass, g => { g with username := some user, password := some pass }
  | .registerCredentials user pass, g =>
    { g with
      usernameForREGISTER := some user
      passwordForREGISTER := some pass
      authDBForREGISTER := some ((g.authDBForREGISTER.getD []) ++ [(user, pass)]) }
  | .registerProxying, g => { g with proxyREGISTERRequests := true }
  | .definitionsFile path, g => { g with streams_file_path := some path }

/-- Which part of the configuration a setting writes, named by the letter of its flag
(`-v` and `-V` write the same part). -/
def Setting.key : Setting → Char
  | .verbosity _ => 'v'
  | .forceTCP => 't'
  | .tunnel _ => 'T'
  | .rtspPort _ => 'p'
  | .credentials _ _ => 'u'
  | .registerCredentials _ _ => 'U'
  | .registerProxying => 'R'
  | .definitionsFile _ => 'f'

/-- The number of value tokens that a flag consumes. -/
def flag_arity (opt : Str) : Nat :=
  if option_letter opt = 'T' ∨ option_letter opt = 'p' ∨ option_letter opt = 'f' then 1
  else if option_letter opt = 'u' ∨ option_letter opt = 'U' then 2
  else 0

/-- The port given by a value token of `-p` or `-T`, when it is accepted. -/
def port_value (a : Str) : Option Nat :=
  if a.head? ≠ some '-' then
    match sscanf_hu a with
    | none => none
    | some v => if v > 0 then some v else none
  else none

/-- The setting written by a flag with its value tokens, following the interface table;
`none` when the flag is rejected. -/
def flag_setting (opt : Str) (vals : List Str) : Option Setting :=
  if option_letter opt = 'v' then some (.verbosity 1)
  else if option_letter opt = 'V' then some (.verbosity 2)
  else if option_letter opt = 't' then some .forceTCP
  else if option_letter opt = 'T' then
    match vals with
    | a :: _ => (port_value a).map .tunnel
    | [] => none
  else if option_letter opt = 'p' then
    match vals with
    | a :: _ => (port_value a).map .rtspPort
    | [] => none
  else if option_letter opt = 'u' then
    match vals with
    | a :: b :: _ => some (.credentials a b)
    | _ => none
  else if option_letter opt = 'U' then
    match vals with
    | a :: b :: _ => some (.registerCredentials a b)
    | _ => none
  else if option_letter opt = 'R' then some .registerProxying
  else if option_letter opt = 'f' then
    match vals with
    | a :: _ => some (.definitionsFile a)
    | [] => none
  else none

/-- A flag group: a token that begins with `-` together with the value tokens that it
consumes. -/
def IsFlagGroup (grp : List Str) : Prop :=
  ∃ opt vals, grp = opt :: vals ∧ opt.head? = some '-' ∧ vals.length = flag_arity opt

/-- The setting written by a flag group. -/
def group_setting : List Str → Option Setting
  | [] => none
  | opt :: vals => flag_setting opt vals

/-- The part of the configuration that a flag group writes: the letter of its flag, `-V`
counting as `-v`. -/
def group_key : List Str → Char
  | [] => Char.ofNat 0
  | opt :: _ => if option_letter opt = 'V' then 'v' else option_letter opt

/-- The globals after the settings of a list of flag groups are written in order; `none`
when one of the groups is rejected. -/
def apply_groups : List (List Str) → Globals → Option Globals
  | [], g => some g
  | grp :: more, g =>
    match group_setting grp with
    | none => none
    | some s => apply_groups more (s.apply g)

/-- The arguments left by the flag scan: none, or a first one that does not begin with
`-`. -/
def StopsScan (urls : List Str) : Prop :=
  ∀ u, urls.head? = some u → u.head? ≠ some '-'

/-- The checks of `main` that follow the flag scan, on its result. -/
def check_scanned (r : Except Failure (Globals × List Str)) :
    Except Failure (Globals × List Str) :=
  match r with
  | .error e => .error e
  | .ok (g, urls) =>
    if urls = [] ∧ g.proxyREGISTERRequests = false ∧ g.streams_file_path = none then
      .error .Usage
    else if urls.all (fun u => "rtsp://".toList.isPrefixOf u) = false then .error .Usage
    else if g.authDBForREGISTER ≠ none ∧ g.proxyREGISTERRequests = false then
      .error .RegisterAuthWithoutRegister
    else if g.streamRTPOverTCP then
      if g.tunnelOverHTTPPortNum > 0 then .error .BothTcpAndHttp
      else .ok ({ g with tunnelOverHTTPPortNum := 2 ^ 16 - 1 }, urls)
    else .ok (g, urls)

/-- The ports on which the creation of the RTSP listener may be attempted, in order, for
the requested port `p`. -/
def probe_list (p : Nat) : List Nat :=
  if p = 554 then [554, 8554] else [p, 554, 8554]

/-- The attempts made on a list of ports, the first one being attempt number `n`: the
ports up to and including the first one on which the listener is created, and that port
(`none` when every attempt fails). -/
def probe (listen : Nat → Nat → Bool) : Nat → List Nat → List Nat × Option Nat
  | _, [] => ([], none)
  | n, port :: more =>
    if listen n port then ([port], some port)
    else (port :: (probe listen (n + 1) more).1, (probe listen (n + 1) more).2)

/-- The stream name passed by a call that publishes a session. -/
def Event.published_name : Event → Option Str
  | .PublishSession _ name _ _ _ _ => some name
  | _ => none

/-- The stream names passed to the calls that publish a session, in the order of the
calls. -/
def published_names (trace : List Event) : List Str :=
  trace.filterMap Event.published_name

/-- The names synthesized for `n` URLs of the command line, in position order:
`proxyStream` for a single URL, otherwise `proxyStream-1` to `proxyStream-n`. -/
def cli_names (n : Nat) : List Str :=
  (List.range' 1 n).map (fun i =>
    if n = 1 then "proxyStream".toList else "proxyStream-".toList ++ Nat.toDigits 10 i)

/-- An engine on which no listener can be created. -/
def example_engine_closed : Engine :=
  { listen := fun _ _ => false, tunnel := fun _ => false, open_file := fun _ => none }

/-- An engine on which a listener can be created on port 8554 only. -/
def example_engine_8554 : Engine :=
  { listen := fun _ port => port == 8554, tunnel := fun _ => false, open_file := fun _ => none }

/-- A definitions file with the single line `bar rtsp://x/z`. -/
def example_small_file : List Char :=
  "bar rtsp://x/z\n".toList

/-- The flag scan started with globals `g0` processes `opt` as an option of `args`. -/
def ProcessesFrom (g0 : Globals) (args before : List Str) (g : Globals) (opt : Str)
    (after : List Str) : Prop :=
  args = before ++ opt :: after ∧ scan_options g0 before = .ok (g, []) ∧
    opt.head? = some '-'

/-- The text of a file that consists of the given lines, each followed by a newline. -/
def unlines : List Str → List Char
  | [] => []
  | line :: rest => line ++ '\n' :: unlines rest

/-- A definitions file in which a blank line separates two lines with the name `foo`. -/
def example_blank_file : List Char :=
  "foo rtsp://x/y\n\nfoo rtsp://x/z\n".toList

/-- The port of a call that creates a listener. -/
def Event.listener_port : Event → Option Nat
  | .CreateListener port _ => some port
  | _ => none

/-- The ports on which the creation of a listener is attempted, in the order of the
attempts. -/
def attempted_ports (trace : List Event) : List Nat :=
  trace.filterMap Event.listener_port

/-- Two flag groups do not conflict: they write different parts of the configuration, or they
write the same setting. -/
def Compatible (x y : List Str) : Prop :=
  group_key x ≠ group_key y ∨ group_setting x = group_setting y

instance (x y : List Str) : Decidable (Compatible x y) := by
  unfold Compatible
  exact inferInstance

end ProxyServer

/-! ## Proofs -/

namespace ProxyServer

theorem takeWhile_append_stop {α : Type} (p : α → Bool) (l r : List α)
    (hl : ∀ c ∈ l, p c = true) (hr : r.head?.all (fun c => !p c) = true) :
    (l ++ r).takeWhile p = l ∧ (l ++ r).dropWhile p = r := by
  induction l with
  | nil =>
    cases r with
    | nil => simp
    | cons c cs =>
      have : p c = false := by simpa using hr
      simp [List.takeWhile, List.dropWhile, this]
  | cons a l ih =>
    have ha : p a = true := hl a (by simp)
    have := ih (fun c hc => hl c (by simp [hc]))
    simp [List.takeWhile, List.dropWhile, ha, this]

theorem extract_length {s t rest : Str} (h : extract s = some (t, rest)) :
    rest.length < s.length := by
  unfold extract at h
  split at h
  · simp at h
  · rename_i c cs hd
    simp only [Option.some.injEq, Prod.mk.injEq] at h
    have h1 : (c :: cs).length ≤ s.length := by
      rw [← hd]; exact (List.dropWhile_sublist _).length_le
    have hc : isspace c = false := by
      have := List.head_dropWhile_not isspace s (by rw [hd]; simp)
      simpa [hd] using this
    have h2 : rest.length ≤ cs.length := by
      rw [← h.2]
      simp only [List.dropWhile, hc, Bool.not_false]
      exact (List.dropWhile_sublist _).length_le
    simp at h1; omega

theorem copy_tokens_fuel : ∀ (n m : Nat) (s : Str), s.length ≤ n → s.length ≤ m →
    copy_tokens n s = copy_tokens m s := by
  intro n
  induction n with
  | zero =>
    intro m s hn _
    have : s = [] := by simpa using hn
    subst this
    cases m <;> simp [copy_tokens, extract]
  | succ n ih =>
    intro m s hn hm
    cases m with
    | zero =>
      have : s = [] := by simpa using hm
      subst this
      simp [copy_tokens, extract]
    | succ m =>
      simp only [copy_tokens]
      cases h : extract s with
      | none => rfl
      | some p =>
        obtain ⟨t, rest⟩ := p
        have := extract_length h
        simp only
        rw [ih m rest (by omega) (by omega)]

theorem extract_token (t rest : Str) (ht : IsToken t)
    (hr : rest.head?.all isspace = true) : extract (t ++ rest) = some (t, rest) := by
  obtain ⟨hne, hall⟩ := ht
  cases t with
  | nil => exact absurd rfl hne
  | cons c cs =>
    have hc : isspace c = false := hall c (by simp)
    have h := takeWhile_append_stop (fun d => !isspace d) (c :: cs) rest
      (by intro d hd; simp [hall d hd]) (by cases rest <;> simp_all)
    have hd : (c :: cs ++ rest).dropWhile isspace = c :: (cs ++ rest) := by
      simp [List.dropWhile, hc]
    simp only [List.cons_append] at h
    unfold extract
    rw [hd]
    simp only [h.1, h.2]

theorem tokenize_token_append (t rest : Str) (ht : IsToken t)
    (hr : rest.head?.all isspace = true) : tokenize (t ++ rest) = t :: tokenize rest := by
  have hlen : 0 < t.length := List.length_pos.2 ht.1
  unfold tokenize
  obtain ⟨k, hk⟩ : ∃ k, (t ++ rest).length = k + 1 := ⟨t.length + rest.length - 1, by simp; omega⟩
  rw [hk]
  simp only [copy_tokens, extract_token t rest ht hr]
  rw [copy_tokens_fuel k rest.length rest (by simp at hk; omega) (le_refl _)]

theorem tokenize_space {c : Char} (hc : isspace c = true) (s : Str) :
    tokenize (c :: s) = tokenize s := by
  have hx : extract (c :: s) = extract s := by simp [extract, List.dropWhile, hc]
  have h1 : copy_tokens (s.length + 1) (c :: s) = copy_tokens (s.length + 1) s := by
    simp only [copy_tokens, hx]
  unfold tokenize
  rw [List.length_cons, h1]
  exact copy_tokens_fuel _ _ s (by omega) (le_refl _)

theorem extract_isToken {s t rest : Str} (h : extract s = some (t, rest)) : IsToken t := by
  unfold extract at h
  split at h
  · simp at h
  · rename_i c cs hd
    simp only [Option.some.injEq, Prod.mk.injEq] at h
    have hc : isspace c = false := by
      have := List.head_dropWhile_not isspace s (by rw [hd]; simp)
      simpa [hd] using this
    rw [← h.1]
    constructor
    · simp [List.takeWhile, hc]
    · intro d hd2
      have := List.mem_takeWhile_imp hd2
      simpa using this

theorem copy_tokens_isToken : ∀ (n : Nat) (s t : Str), t ∈ copy_tokens n s → IsToken t := by
  intro n
  induction n with
  | zero => intro s t h; simp [copy_tokens] at h
  | succ n ih =>
    intro s t h
    simp only [copy_tokens] at h
    cases hx : extract s with
    | none => simp [hx] at h
    | some p =>
      obtain ⟨u, rest⟩ := p
      simp only [hx, List.mem_cons] at h
      rcases h with h | h
      · subst h; exact extract_isToken hx
      · exact ih rest t h

theorem tokenize_isToken {s t : Str} (h : t ∈ tokenize s) : IsToken t :=
  copy_tokens_isToken _ _ _ h

theorem tokenize_nil : tokenize [] = [] := rfl

theorem tokenize_join_tokens : ∀ (ts : List Str), (∀ t ∈ ts, IsToken t) →
    tokenize (join_tokens ts) = ts
  | [], _ => rfl
  | [t], h => by
    have := tokenize_token_append t [] (h t (by simp)) (by simp)
    simpa [join_tokens, tokenize_nil] using this
  | t :: u :: ts, h => by
    have ih := tokenize_join_tokens (u :: ts) (fun x hx => h x (by simp [hx]))
    have h1 := tokenize_token_append t (' ' :: join_tokens (u :: ts))
      (h t (by simp)) (by simp [isspace])
    have h2 := tokenize_space (c := ' ') (by decide) (join_tokens (u :: ts))
    simp only [join_tokens]
    rw [h1, h2, ih]

theorem getline_length {s rest : List Char} {line : Str} (h : getline s = some (line, rest)) :
    rest.length < s.length := by
  unfold getline at h
  rcases s with _ | ⟨c, cs⟩
  · cases h
  · simp only [Option.some.injEq, Prod.mk.injEq] at h
    rw [← h.2]
    have h1 : ((c :: cs).dropWhile (fun d => d != '\n')).length ≤ (c :: cs).length :=
      (List.dropWhile_sublist _).length_le
    rcases hd : (c :: cs).dropWhile (fun d => d != '\n') with _ | ⟨x, xs⟩
    · simp
    · rw [hd] at h1
      simp only [List.drop_succ_cons, List.drop_zero, List.length_cons] at h1 ⊢
      omega

theorem read_lines_fuel : ∀ (n m : Nat) (s : List Char), s.length ≤ n → s.length ≤ m →
    read_lines n s = read_lines m s := by
  intro n
  induction n with
  | zero =>
    intro m s hn _
    have : s = [] := by simpa using hn
    subst this
    cases m <;> rfl
  | succ n ih =>
    intro m s hn hm
    cases m with
    | zero =>
      have : s = [] := by simpa using hm
      subst this
      rfl
    | succ m =>
      simp only [read_lines]
      cases h : getline s with
      | none => rfl
      | some p =>
        obtain ⟨line, rest⟩ := p
        have := getline_length h
        simp only
        rw [ih m rest (by omega) (by omega)]

/-! ### Parsing a definition line -/

theorem construct_eq (line : Str) :
    stream_info.construct line =
      match tokenize line with
      | name :: url :: more =>
        if "proxyStream".toList.isPrefixOf name then .error .ReservedName
        else if !("rtsp://".toList.isPrefixOf url) then .error .InvalidSourceURL
        else .ok { name := name, url := url, username := more.headD [],
                   password := more.tail.headD [] }
      | _ => .error .MalformedDefinition := by
  unfold stream_info.construct stream_info.assign
  rcases h : tokenize line with _ | ⟨name, _ | ⟨url, _ | ⟨user, _ | ⟨pass, more⟩⟩⟩⟩ <;>
    simp

theorem construct_toDefinition (line : Str) :
    (stream_info.construct line).toOption.map stream_info.toDefinition =
      parse_reference (tokenize line) := by
  rw [construct_eq]
  rcases h : tokenize line with _ | ⟨name, _ | ⟨url, more⟩⟩
  · rfl
  · rfl
  · have hmem : ∀ t ∈ more, IsToken t := fun t ht =>
      tokenize_isToken (s := line) (by rw [h]; simp [ht])
    simp only [parse_reference]
    cases h1 : "proxyStream".toList.isPrefixOf name
    · cases h2 : "rtsp://".toList.isPrefixOf url
      · simp only [Bool.false_eq_true, if_false, Bool.not_false, if_true, and_false]
        rfl
      · simp only [Bool.false_eq_true, if_false, Bool.not_true, and_self, if_true,
          Except.toOption, Option.map_some', stream_info.toDefinition]
        rcases more with _ | ⟨user, _ | ⟨pass, more⟩⟩
        · simp
        · have := (hmem user (by simp)).1
          simp [this]
        · have h3 := (hmem user (by simp)).1
          have h4 := (hmem pass (by simp)).1
          simp [h3, h4]
    · simp only [if_true, Bool.true_eq_false, false_and, if_false]
      rfl

theorem construct_join_take (line : Str) :
    stream_info.construct (join_tokens ((tokenize line).take 4)) = stream_info.construct line := by
  have hall : ∀ t ∈ (tokenize line).take 4, IsToken t := fun t ht =>
    tokenize_isToken (List.mem_of_mem_take ht)
  rw [construct_eq, construct_eq line, tokenize_join_tokens _ hall]
  rcases tokenize line with _ | ⟨name, _ | ⟨url, _ | ⟨user, _ | ⟨pass, more⟩⟩⟩⟩ <;> rfl

/-- C2: parsing a line is the reference definition applied to the whitespace-delimited tokens
of the line (success exactly when there are at least 2 tokens, the first not starting with
"proxyStream", the second starting with "rtsp://"; name, URL, optional username and
password are tokens 0 to 3), and parsing the line is the same as parsing its first four
tokens joined by single spaces. -/
theorem C2_parse_equals_reference (line : Str) :
    (stream_info.construct line).toOption.map stream_info.toDefinition =
        parse_reference (tokenize line) ∧
      stream_info.construct line =
        stream_info.construct (join_tokens ((tokenize line).take 4)) :=
  ⟨construct_toDefinition line, (construct_join_take line).symm⟩

theorem construct_serialize {line : Str} {r : stream_info}
    (h : stream_info.construct line = .ok r) :
    stream_info.construct (serialize r.toDefinition) = .ok r ∧
      r.name = (tokenize line).getD 0 [] ∧ r.url = (tokenize line).getD 1 [] := by
  rw [construct_eq] at h
  rcases ht : tokenize line with _ | ⟨name, _ | ⟨url, more⟩⟩
  · simp [ht] at h
  · simp [ht] at h
  · have hmem : ∀ t ∈ tokenize line, IsToken t := fun t hx => tokenize_isToken hx
    rw [ht] at hmem
    simp only [ht] at h
    cases h1 : "proxyStream".toList.isPrefixOf name
    · cases h2 : "rtsp://".toList.isPrefixOf url
      · simp only [h1, h2, Bool.false_eq_true, if_false, Bool.not_false, if_true] at h
        cases h
      · simp only [h1, h2, Bool.false_eq_true, if_false, Bool.not_true, Except.ok.injEq] at h
        subst h
        refine ⟨?_, rfl, rfl⟩
        rcases more with _ | ⟨user, _ | ⟨pass, more⟩⟩
        · have e : serialize (stream_info.toDefinition
              { name := name, url := url, username := ([] : List Str).headD [],
                password := ([] : List Str).tail.headD [] }) = join_tokens [name, url] := rfl
          rw [e, construct_eq, tokenize_join_tokens _ (fun t hx => hmem t (by simpa using hx))]
          simp only [h1, h2, Bool.false_eq_true, if_false, Bool.not_true]
        · have hu := (hmem user (by simp)).1
          have e : serialize (stream_info.toDefinition
              { name := name, url := url, username := [user].headD [],
                password := [user].tail.headD [] }) = join_tokens [name, url, user] := by
            cases user with
            | nil => exact absurd rfl hu
            | cons c cs => rfl
          rw [e, construct_eq, tokenize_join_tokens _ (fun t hx => hmem t (by simpa using hx))]
          simp only [h1, h2, Bool.false_eq_true, if_false, Bool.not_true]
        · have hu := (hmem user (by simp)).1
          have hp := (hmem pass (by simp)).1
          have e : serialize (stream_info.toDefinition
              { name := name, url := url, username := (user :: pass :: more).headD [],
                password := (user :: pass :: more).tail.headD [] }) =
              join_tokens [name, url, user, pass] := by
            cases user with
            | nil => exact absurd rfl hu
            | cons c cs =>
              cases pass with
              | nil => exact absurd rfl hp
              | cons d ds => rfl
          rw [e, construct_eq, tokenize_join_tokens _
            (fun t hx => hmem t (by
              simp only [List.mem_cons, List.mem_singleton, List.not_mem_nil, or_false] at hx
              simp only [List.mem_cons]; tauto))]
          simp only [h1, h2, Bool.false_eq_true, if_false, Bool.not_true]
          rfl
    · simp only [h1, if_true] at h
      cases h

/-- C5: for every line that parses, serializing the record as `name url [user [pass]]` and
parsing that text succeeds and gives the same record, whose name and source URL are the
first two tokens of the original line. -/
theorem C5_parse_serialize_round_trip (line : Str) (r : stream_info)
    (h : stream_info.construct line = .ok r) :
    stream_info.construct (serialize r.toDefinition) = .ok r ∧
      r.name = (tokenize line).getD 0 [] ∧ r.url = (tokenize line).getD 1 [] :=
  construct_serialize h

/-- Witness for C5 on the line "bar  rtsp://x/z carol caroLpass extra". -/
theorem C5_parse_serialize_round_trip_witness :
    stream_info.construct "bar  rtsp://x/z carol caroLpass extra".toList =
        .ok ⟨"bar".toList, "rtsp://x/z".toList, "carol".toList, "caroLpass".toList⟩ ∧
      serialize (stream_info.toDefinition
        ⟨"bar".toList, "rtsp://x/z".toList, "carol".toList, "caroLpass".toList⟩) =
        "bar rtsp://x/z carol caroLpass".toList ∧
      (stream_info.construct (serialize (stream_info.toDefinition
          ⟨"bar".toList, "rtsp://x/z".toList, "carol".toList, "caroLpass".toList⟩)) =
          .ok ⟨"bar".toList, "rtsp://x/z".toList, "carol".toList, "caroLpass".toList⟩ ∧
        "bar".toList = (tokenize "bar  rtsp://x/z carol caroLpass extra".toList).getD 0 [] ∧
        "rtsp://x/z".toList =
          (tokenize "bar  rtsp://x/z carol caroLpass extra".toList).getD 1 []) :=
  ⟨by decide, by decide,
    C5_parse_serialize_round_trip "bar  rtsp://x/z carol caroLpass extra".toList
      ⟨"bar".toList, "rtsp://x/z".toList, "carol".toList, "caroLpass".toList⟩ (by decide)⟩

/-! ### The order on names and the registry -/

theorem str_lt_irrefl : ∀ (a : Str), str_lt a a = false
  | [] => rfl
  | c :: cs => by simp [str_lt, str_lt_irrefl cs]

theorem str_lt_trans : ∀ (a b c : Str), str_lt a b = true → str_lt b c = true →
    str_lt a c = true
  | [], [], _, h, _ => by simp [str_lt] at h
  | [], _ :: _, [], _, h => by simp [str_lt] at h
  | [], _ :: _, _ :: _, _, _ => by simp [str_lt]
  | _ :: _, [], _, h, _ => by simp [str_lt] at h
  | _ :: _, _ :: _, [], _, h => by simp [str_lt] at h
  | x :: xs, y :: ys, z :: zs, h1, h2 => by
    simp only [str_lt] at h1 h2 ⊢
    have ih := str_lt_trans xs ys zs
    rcases lt_trichotomy x y with hxy | hxy | hxy
    · rcases lt_trichotomy y z with hyz | hyz | hyz
      · simp [lt_trans hxy hyz]
      · subst hyz; simp [hxy]
      · simp [hyz, lt_asymm hyz] at h2
    · subst hxy
      rcases lt_trichotomy x z with hyz | hyz | hyz
      · simp [hyz]
      · subst hyz
        simp only [lt_self_iff_false, if_false] at h1 h2 ⊢
        exact ih h1 h2
      · simp [hyz, lt_asymm hyz] at h2
    · simp [hxy, lt_asymm hxy] at h1

theorem str_lt_total : ∀ (a b : Str), str_lt a b = false → str_lt b a = false → a = b
  | [], [], _, _ => rfl
  | [], _ :: _, h, _ => by simp [str_lt] at h
  | _ :: _, [], _, h => by simp [str_lt] at h
  | x :: xs, y :: ys, h1, h2 => by
    simp only [str_lt] at h1 h2
    rcases lt_trichotomy x y with hxy | hxy | hxy
    · simp [hxy] at h1
    · subst hxy
      simp only [lt_self_iff_false, if_false] at h1 h2
      rw [str_lt_total xs ys h1 h2]
    · simp [hxy] at h2

theorem str_lt_ne {a b : Str} (h : str_lt a b = true) : a ≠ b := by
  intro e; subst e; rw [str_lt_irrefl] at h; cases h

theorem set_insert_spec (si : stream_info) : ∀ (reg : List stream_info), Ascending reg →
    (((set_insert si reg).2 = true ↔ ∀ x ∈ reg, x.name ≠ si.name) ∧
      ((set_insert si reg).2 = true →
        Ascending (set_insert si reg).1 ∧ (set_insert si reg).1.Perm (si :: reg)))
  | [], _ => by simp [set_insert, Ascending]
  | x :: xs, h => by
    have hx : ∀ y ∈ xs, str_lt x.name y.name = true := fun y hy => (List.pairwise_cons.1 h).1 y hy
    have hxs : Ascending xs := (List.pairwise_cons.1 h).2
    have ih := set_insert_spec si xs hxs
    unfold set_insert
    cases h1 : si.lt x
    · cases h2 : x.lt si
      · have e : x.name = si.name := (str_lt_total _ _ h1 h2).symm
        simp [e]
      · simp only [Bool.false_eq_true, if_false, if_true, List.mem_cons, forall_eq_or_imp]
        refine ⟨?_, ?_⟩
        · rw [ih.1]
          exact ⟨fun h3 => ⟨str_lt_ne h2, h3⟩, fun h3 => h3.2⟩
        · intro h3
          obtain ⟨h4, h5⟩ := ih.2 h3
          refine ⟨?_, ?_⟩
          · refine List.pairwise_cons.2 ⟨?_, h4⟩
            intro y hy
            rcases List.mem_cons.1 (h5.mem_iff.1 hy) with hy | hy
            · subst hy; exact h2
            · exact hx y hy
          · exact (List.Perm.cons x h5).trans (List.Perm.swap si x xs)
    · simp only [if_true, List.mem_cons, forall_eq_or_imp, true_iff, forall_true_left,
        List.Perm.refl, and_true]
      have h3 : ∀ y ∈ xs, str_lt si.name y.name = true := fun y hy =>
        str_lt_trans _ _ _ h1 (hx y hy)
      refine ⟨⟨(str_lt_ne h1).symm, fun y hy => (str_lt_ne (h3 y hy)).symm⟩, ?_⟩
      refine List.pairwise_cons.2 ⟨?_, h⟩
      intro y hy
      rcases List.mem_cons.1 hy with hy | hy
      · subst hy; exact h1
      · exact h3 y hy

theorem ascending_nodup {reg : List stream_info} (h : Ascending reg) :
    (reg.map stream_info.name).Nodup := by
  unfold Ascending at h
  rw [List.Nodup, List.pairwise_map]
  exact h.imp (fun hab => str_lt_ne hab)

theorem insert_lines_spec : ∀ (lines : List Str) (sis reg : List stream_info),
    ParsedAs lines sis → Ascending reg →
    (((reg ++ sis).map stream_info.name).Nodup →
        ∃ out, insert_lines reg lines = .ok out ∧ Ascending out ∧ out.Perm (reg ++ sis)) ∧
      (¬ ((reg ++ sis).map stream_info.name).Nodup →
        insert_lines reg lines = .error .DuplicateStreamName)
  | [], sis, reg, hp, hr => by
    cases hp
    simp only [List.append_nil, insert_lines]
    exact ⟨fun _ => ⟨reg, rfl, hr, List.Perm.refl _⟩, fun h => absurd (ascending_nodup hr) h⟩
  | line :: rest, sis, reg, hp, hr => by
    cases hp with
    | cons h1 h2 =>
      rename_i si sis2
      have hs := set_insert_spec si reg hr
      simp only [insert_lines, h1]
      cases hb : (set_insert si reg).2
      · have : ¬ ∀ x ∈ reg, x.name ≠ si.name := by
          rw [← hs.1, hb]; simp
        have hdup : ¬ ((reg ++ si :: sis2).map stream_info.name).Nodup := by
          intro hn
          apply this
          intro x hx e
          rw [List.map_append, List.map_cons] at hn
          have := (List.nodup_append.1 hn).2.2
          exact this (List.mem_map_of_mem _ hx) (by rw [e]; simp)
        simp only [Bool.false_eq_true, if_false]
        exact ⟨fun h => absurd h hdup, fun _ => trivial⟩
      · obtain ⟨ha, hperm⟩ := hs.2 hb
        have ih := insert_lines_spec rest sis2 (set_insert si reg).1 h2 ha
        have hp2 : ((set_insert si reg).1 ++ sis2).Perm (reg ++ si :: sis2) :=
          (hperm.append_right sis2).trans (List.perm_middle.symm)
        have hn : (((set_insert si reg).1 ++ sis2).map stream_info.name).Nodup ↔
            ((reg ++ si :: sis2).map stream_info.name).Nodup := (hp2.map _).nodup_iff
        simp only [if_true]
        refine ⟨fun h => ?_, fun h => ih.2 (fun h3 => h (hn.1 h3))⟩
        obtain ⟨out, h3, h4, h5⟩ := ih.1 (hn.2 h)
        exact ⟨out, h3, h4, h5.trans hp2⟩

theorem insert_lines_parsed : ∀ (lines : List Str) (reg out : List stream_info),
    insert_lines reg lines = .ok out → ∃ sis, ParsedAs lines sis
  | [], _, _, _ => ⟨[], List.Forall₂.nil⟩
  | line :: rest, reg, out, h => by
    simp only [insert_lines] at h
    cases hc : stream_info.construct line with
    | error e => simp [hc] at h
    | ok si =>
      simp only [hc] at h
      cases hb : (set_insert si reg).2
      · simp [hb] at h
      · simp only [hb, if_true] at h
        obtain ⟨sis, hs⟩ := insert_lines_parsed rest _ out h
        exact ⟨si :: sis, List.Forall₂.cons hc hs⟩

theorem parsedAs_unique {lines : List Str} {a b : List stream_info}
    (ha : ParsedAs lines a) (hb : ParsedAs lines b) : a = b := by
  induction ha generalizing b with
  | nil => cases hb; rfl
  | cons h1 _ ih =>
    cases hb with
    | cons h3 h4 =>
      rw [h1] at h3
      cases h3
      rw [ih h4]

theorem insert_lines_append_error : ∀ (before : List Str) (reg : List stream_info)
    (after : List Str) (f : Failure), insert_lines reg before = .error f →
    insert_lines reg (before ++ after) = .error f
  | [], reg, after, f, h => by
    simp only [insert_lines] at h
    cases h
  | line :: rest, reg, after, f, h => by
    simp only [insert_lines, List.cons_append] at h ⊢
    cases hc : stream_info.construct line with
    | error e =>
      simp only [hc] at h ⊢
      exact h
    | ok si =>
      simp only [hc] at h ⊢
      cases hb : (set_insert si reg).2
      · simp only [hb, Bool.false_eq_true, if_false] at h ⊢
        exact h
      · simp only [hb, if_true] at h ⊢
        exact insert_lines_append_error rest _ after f h

/-! ### The lines of a file and the load -/

theorem insert_lines_append : ∀ (before : List Str) (reg out : List stream_info)
    (more : List Str), insert_lines reg before = .ok out →
    insert_lines reg (before ++ more) = insert_lines out more
  | [], reg, out, more, h => by
    simp only [insert_lines, Except.ok.injEq] at h
    rw [h]; rfl
  | line :: rest, reg, out, more, h => by
    simp only [insert_lines, List.cons_append] at h ⊢
    cases hc : stream_info.construct line with
    | error e => simp [hc] at h
    | ok si =>
      simp only [hc] at h ⊢
      cases hb : (set_insert si reg).2
      · simp [hb] at h
      · simp only [hb, if_true] at h ⊢
        exact insert_lines_append rest _ out more h

theorem read_lines_nil (n : Nat) : read_lines n [] = [] := by
  cases n <;> rfl

theorem getline_spec (c : Char) (cs : List Char) :
    ∃ l : List Char, (∀ x ∈ l, x ≠ '\n') ∧
      ((c :: cs = l ∧ getline (c :: cs) = some (l, [])) ∨
        ∃ r, c :: cs = l ++ '\n' :: r ∧ getline (c :: cs) = some (l, r)) := by
  have hsplit : (c :: cs).takeWhile (fun d => d != '\n') ++
      (c :: cs).dropWhile (fun d => d != '\n') = c :: cs := List.takeWhile_append_dropWhile _ _
  have hl : ∀ x ∈ (c :: cs).takeWhile (fun d => d != '\n'), x ≠ '\n' := by
    intro x hx
    have := List.mem_takeWhile_imp hx
    simpa using this
  have hg : getline (c :: cs) = some ((c :: cs).takeWhile (fun d => d != '\n'),
      ((c :: cs).dropWhile (fun d => d != '\n')).drop 1) := rfl
  refine ⟨_, hl, ?_⟩
  rcases hd : (c :: cs).dropWhile (fun d => d != '\n') with _ | ⟨x, r⟩
  · left
    rw [hd, List.append_nil] at hsplit
    rw [hg, hd]
    exact ⟨hsplit.symm, rfl⟩
  · right
    have hx : x = '\n' := by
      have := List.head_dropWhile_not (fun d => d != '\n') (c :: cs) (by rw [hd]; simp)
      simp only [hd, List.head_cons] at this
      simpa using this
    subst hx
    rw [hd] at hsplit
    rw [hg, hd]
    exact ⟨r, hsplit.symm, rfl⟩

theorem read_lines_spec : ∀ (n : Nat) (s : List Char), s.length ≤ n →
    (∀ line ∈ read_lines n s, '\n' ∉ line) ∧
      unlines (read_lines n s) =
        if s = [] ∨ s.getLast? = some '\n' then s else s ++ ['\n'] := by
  intro n
  induction n with
  | zero =>
    intro s hs
    have : s = [] := by simpa using hs
    subst this
    simp [read_lines, unlines]
  | succ n ih =>
    intro s hs
    rcases s with _ | ⟨c, cs⟩
    · simp [read_lines, getline, unlines]
    · obtain ⟨l, hl, ⟨h1, h2⟩ | ⟨r, h1, h2⟩⟩ := getline_spec c cs
      · have hr : read_lines (n + 1) (c :: cs) = [l] := by
          rw [read_lines, h2]
          simp only [read_lines_nil]
        rw [hr, h1]
        simp only [unlines]
        refine ⟨?_, ?_⟩
        · intro line hline
          simp only [List.mem_singleton] at hline
          subst hline
          intro hmem
          exact hl _ hmem rfl
        · have hlast : l.getLast? ≠ some '\n' := by
            intro h
            exact hl _ (List.mem_of_mem_getLast? h) rfl
          have hne : l ≠ [] := by rw [← h1]; simp
          rw [if_neg (by simp [hlast, hne])]
      · have hlen : r.length ≤ n := by
          have := congrArg List.length h1
          simp only [List.length_append, List.length_cons] at this hs
          omega
        obtain ⟨ih1, ih2⟩ := ih r hlen
        have hr : read_lines (n + 1) (c :: cs) = l :: read_lines n r := by
          rw [read_lines, h2]
        rw [hr, h1]
        simp only [unlines]
        refine ⟨?_, ?_⟩
        · intro line hline
          rcases List.mem_cons.1 hline with hline | hline
          · subst hline
            intro hmem
            exact hl _ hmem rfl
          · exact ih1 line hline
        · rw [ih2]
          rcases r with _ | ⟨y, ys⟩
          · simp
          · have : (l ++ '\n' :: y :: ys).getLast? = (y :: ys).getLast? := by
              rw [show l ++ '\n' :: y :: ys = (l ++ ['\n']) ++ (y :: ys) by simp,
                List.getLast?_append_of_ne_nil _ (by simp)]
            rw [this]
            by_cases hy : (y :: ys).getLast? = some '\n'
            · rw [if_pos (Or.inr hy), if_pos (Or.inr hy)]
            · rw [if_neg (by simp [hy]), if_neg (by simp [hy])]
              simp

theorem tokenize_blank {line : Str} (h : ∀ c ∈ line, isspace c = true) : tokenize line = [] := by
  unfold tokenize
  rcases hl : line.length with _ | n
  · rfl
  · have hd : line.dropWhile isspace = [] := by
      rw [List.dropWhile_eq_nil_iff]
      exact h
    simp only [copy_tokens, extract, hd]

theorem construct_blank {line : Str} (h : ∀ c ∈ line, isspace c = true) :
    stream_info.construct line = .error .MalformedDefinition := by
  unfold stream_info.construct stream_info.assign
  simp only [tokenize_blank h]
  rfl

theorem parsedAs_line {lines : List Str} {sis : List stream_info} (hs : ParsedAs lines sis)
    {line : Str} (hmem : line ∈ lines) : ∃ si ∈ sis, stream_info.construct line = .ok si := by
  induction hs with
  | nil => simp at hmem
  | cons h5 _ ih =>
    rcases List.mem_cons.1 hmem with h6 | h6
    · subst h6
      exact ⟨_, by simp, h5⟩
    · obtain ⟨si, hl, hc⟩ := ih h6
      exact ⟨si, by simp [hl], hc⟩

theorem insert_lines_first_error {before after : List Str} {line : Str}
    {sis : List stream_info} {f : Failure} (hs : ParsedAs before sis)
    (hn : (sis.map stream_info.name).Nodup) (hc : stream_info.construct line = .error f) :
    insert_lines [] (before ++ line :: after) = .error f := by
  obtain ⟨out, h, _⟩ :=
    (insert_lines_spec _ sis [] hs List.Pairwise.nil).1 (by simpa using hn)
  rw [insert_lines_append before [] out _ h]
  simp only [insert_lines, hc]

/-- C4 (as amended): for every readable file, the lines read from it hold no newline and,
each followed by a newline, make up the contents of the file (with a newline added at the end
when the contents are not empty and do not end with one): no line is skipped.  The load
succeeds if and only if every line parses and the names are pairwise distinct; when the lines
up to some point of the file parse and two of them share a name (in either order) the load
fails with `DuplicateStreamName`; when the lines before some line parse with pairwise distinct
names and that line does not parse, the load fails with the failure of that line; a line of
whitespace only (a blank line) does not parse (`MalformedDefinition`), so that a file with
such a line does not load; on success the registry is a rearrangement of the parses of the
lines (one entry per line), in strictly ascending order of name. -/
theorem C4_load_no_skip_no_overwrite (content : List Char) (path : Str) :
    ((∀ line ∈ file_lines content, '\n' ∉ line) ∧
      unlines (file_lines content) =
        if content = [] ∨ content.getLast? = some '\n' then content else content ++ ['\n']) ∧
    ((∃ reg, load_streams_from_file (fun _ => some content) path = .ok reg) ↔
        ∃ sis, ParsedAs (file_lines content) sis ∧ (sis.map stream_info.name).Nodup) ∧
      (∀ before after sis, file_lines content = before ++ after → ParsedAs before sis →
        ¬ (sis.map stream_info.name).Nodup →
        load_streams_from_file (fun _ => some content) path = .error .DuplicateStreamName) ∧
      (∀ before line after sis f, file_lines content = before ++ line :: after →
        ParsedAs before sis → (sis.map stream_info.name).Nodup →
        stream_info.construct line = .error f →
        load_streams_from_file (fun _ => some content) path = .error f) ∧
      (∀ line ∈ file_lines content, (∀ c ∈ line, isspace c = true) →
        stream_info.construct line = .error .MalformedDefinition ∧
          ∀ reg, load_streams_from_file (fun _ => some content) path ≠ .ok reg) ∧
      (∀ reg sis, load_streams_from_file (fun _ => some content) path = .ok reg →
        ParsedAs (file_lines content) sis →
        reg.Perm sis ∧ reg.length = (file_lines content).length ∧ Ascending reg) := by
  have hload : load_streams_from_file (fun _ => some content) path =
      insert_lines [] (file_lines content) := rfl
  rw [hload]
  refine ⟨read_lines_spec content.length content (Nat.le_refl _), ⟨?_, ?_⟩, ?_, ?_, ?_, ?_⟩
  · rintro ⟨reg, h⟩
    obtain ⟨sis, hs⟩ := insert_lines_parsed _ _ _ h
    refine ⟨sis, hs, ?_⟩
    by_contra hn
    have := (insert_lines_spec _ sis [] hs List.Pairwise.nil).2 (by simpa using hn)
    rw [h] at this
    cases this
  · rintro ⟨sis, hs, hn⟩
    obtain ⟨out, h, _⟩ := (insert_lines_spec _ sis [] hs List.Pairwise.nil).1 (by simpa using hn)
    exact ⟨out, h⟩
  · intro before after sis hl hs hn
    rw [hl]
    exact insert_lines_append_error before [] after _
      ((insert_lines_spec _ sis [] hs List.Pairwise.nil).2 (by simpa using hn))
  · intro before line after sis f hl hs hn hc
    rw [hl]
    exact insert_lines_first_error hs hn hc
  · intro line hline hblank
    refine ⟨construct_blank hblank, ?_⟩
    intro reg h
    obtain ⟨sis, hs⟩ := insert_lines_parsed _ _ _ h
    obtain ⟨si, _, hsi⟩ := parsedAs_line hs hline
    rw [construct_blank hblank] at hsi
    cases hsi
  · intro reg sis h hs
    have hn : (sis.map stream_info.name).Nodup := by
      by_contra hn
      have := (insert_lines_spec _ sis [] hs List.Pairwise.nil).2 (by simpa using hn)
      rw [h] at this
      cases this
    obtain ⟨out, h2, h3, h4⟩ :=
      (insert_lines_spec _ sis [] hs List.Pairwise.nil).1 (by simpa using hn)
    rw [h] at h2
    cases h2
    refine ⟨by simpa using h4, ?_, h3⟩
    have h5 : reg.length = sis.length := by simpa using h4.length_eq
    rw [h5, hs.length_eq]

/-! ### The run of `main` -/

theorem main_load_error {e : Engine} {args urls : List Str} {g : Globals} {path : Str}
    {f : Failure} (h1 : check_arguments args = .ok (g, urls))
    (h2 : g.streams_file_path = some path)
    (h3 : load_streams_from_file e.open_file path = .error f) :
    main e args =
      if (create_server e g).rtspServer = true then
        { trace := (create_server e g).trace ++ proxy_urls g (urls.length + 1) 1 urls
          outcome := .exited 1 f }
      else { trace := (create_server e g).trace, outcome := .exited 1 .ServerUnavailable } := by
  unfold main
  simp only [h1, h2, h3]
  cases (create_server e g).rtspServer <;> simp

theorem main_load_ok {e : Engine} {args urls : List Str} {g : Globals} {path : Str}
    {reg : List stream_info} (h1 : check_arguments args = .ok (g, urls))
    (h0 : (create_server e g).rtspServer = true)
    (h2 : g.streams_file_path = some path)
    (h3 : load_streams_from_file e.open_file path = .ok reg) :
    main e args =
      { trace := (create_server e g).trace ++ proxy_urls g (urls.length + 1) 1 urls ++
          reg.map (proxy_stream g) ++ set_up_tunneling e
        outcome := .serving } := by
  unfold main
  simp only [h1, h2, h3, h0]
  simp

theorem main_no_file {e : Engine} {args urls : List Str} {g : Globals}
    (h1 : check_arguments args = .ok (g, urls))
    (h0 : (create_server e g).rtspServer = true)
    (h2 : g.streams_file_path = none) :
    main e args =
      { trace := (create_server e g).trace ++ proxy_urls g (urls.length + 1) 1 urls ++
          set_up_tunneling e
        outcome := .serving } := by
  unfold main
  simp only [h1, h2, h0]
  simp

theorem create_server_trace (e : Engine) (g : Globals) :
    (create_server e g).trace ≠ [] ∧
      ∀ ev ∈ (create_server e g).trace, ∃ port, ev = .CreateListener port g.proxyREGISTERRequests := by
  unfold create_server createRTSPServer
  constructor
  · simp only []
    split_ifs <;> simp
  · simp only []
    split_ifs <;> simp

/-- C1 (as amended): when the command line is accepted and the loading of the definitions
file fails, the run ends with `exit(1)`; its calls to the engine are the attempts to create
the RTSP listener (at least one) followed, when one of them succeeded, by the publication of
the URLs of the command line and nothing else: no stream of the file is published, and
when no listener could be created nothing at all is published. -/
theorem C1_load_failure_after_listener (e : Engine) (args urls : List Str) (g : Globals)
    (path : Str) (f : Failure) (h1 : check_arguments args = .ok (g, urls))
    (h2 : g.streams_file_path = some path)
    (h3 : load_streams_from_file e.open_file path = .error f) :
    main e args =
        (if (create_server e g).rtspServer = true then
          { trace := (create_server e g).trace ++ proxy_urls g (urls.length + 1) 1 urls
            outcome := .exited 1 f }
        else { trace := (create_server e g).trace, outcome := .exited 1 .ServerUnavailable }) ∧
      (create_server e g).trace ≠ [] ∧
      ∀ ev ∈ (create_server e g).trace,
        ∃ port, ev = .CreateListener port g.proxyREGISTERRequests :=
  ⟨main_load_error h1 h2 h3, create_server_trace e g⟩

theorem construct_reserved {line name url : Str} {more : List Str}
    (h : tokenize line = name :: url :: more) (hn : "proxyStream".toList.isPrefixOf name = true) :
    stream_info.construct line = .error .ReservedName := by
  rw [construct_eq, h]
  simp only [hn, if_true]

theorem load_reserved {open_file : Str → Option (List Char)} {path : Str}
    {content : List Char} {before after : List Str} {line name url : Str} {more : List Str}
    {sis : List stream_info} (h3 : open_file path = some content)
    (h4 : file_lines content = before ++ line :: after) (h5 : ParsedAs before sis)
    (h6 : (sis.map stream_info.name).Nodup) (h7 : tokenize line = name :: url :: more)
    (hn : "proxyStream".toList.isPrefixOf name = true) :
    load_streams_from_file open_file path = .error .ReservedName := by
  unfold load_streams_from_file
  simp only [h3, h4]
  obtain ⟨out, h, _⟩ := (insert_lines_spec _ sis [] h5 List.Pairwise.nil).1 (by simpa using h6)
  rw [insert_lines_append before [] out _ h]
  simp only [insert_lines, construct_reserved h7 hn]

/-- C3 (as amended): when a line of the definitions file has the name token
`proxyStream-custom` and a URL token that does not begin with `rtsp://`, and all earlier
lines parse with pairwise distinct names, loading the file fails with `ReservedName` (the
check of the reserved name comes before the check of the URL) and the run of `main` ends
with `exit(1)` having published no stream of the file. -/
theorem C3_reserved_name_checked_first (e : Engine) (args urls : List Str) (g : Globals)
    (path : Str) (content : List Char) (before after : List Str) (line url : Str)
    (more : List Str) (sis : List stream_info)
    (h1 : check_arguments args = .ok (g, urls)) (h2 : g.streams_file_path = some path)
    (h3 : e.open_file path = some content)
    (h4 : file_lines content = before ++ line :: after) (h5 : ParsedAs before sis)
    (h6 : (sis.map stream_info.name).Nodup)
    (h7 : tokenize line = "proxyStream-custom".toList :: url :: more)
    (_h8 : "rtsp://".toList.isPrefixOf url = false) :
    load_streams_from_file e.open_file path = .error .ReservedName ∧
      main e args =
        (if (create_server e g).rtspServer = true then
          { trace := (create_server e g).trace ++ proxy_urls g (urls.length + 1) 1 urls
            outcome := .exited 1 .ReservedName }
        else { trace := (create_server e g).trace, outcome := .exited 1 .ServerUnavailable }) :=
  have h := load_reserved h3 h4 h5 h6 h7 (by decide)
  ⟨h, main_load_error h1 h2 h⟩

theorem proxy_urls_eq (g : Globals) (argc : Nat) : ∀ (i : Nat) (urls : List Str),
    proxy_urls g argc i urls =
      (urls.enumFrom i).map (fun p => Event.PublishSession p.2
        (if argc = 2 then "proxyStream".toList else "proxyStream-".toList ++ Nat.toDigits 10 p.1)
        g.username g.password g.tunnelOverHTTPPortNum g.verbosityLevel)
  | _, [] => rfl
  | i, u :: us => by
    simp only [proxy_urls, List.enumFrom, List.map_cons, proxy_urls_eq g argc (i + 1) us]
    rfl

theorem main_trace_accepted {e : Engine} {args urls : List Str} {g : Globals}
    (h1 : check_arguments args = .ok (g, urls))
    (h0 : (create_server e g).rtspServer = true) :
    ((create_server e g).trace ++ proxy_urls g (urls.length + 1) 1 urls) <+:
      (main e args).trace := by
  cases h2 : g.streams_file_path with
  | none =>
    rw [main_no_file h1 h0 h2]
    exact List.prefix_append _ _
  | some path =>
    cases h3 : load_streams_from_file e.open_file path with
    | error f =>
      rw [main_load_error h1 h2 h3, if_pos h0]
    | ok reg =>
      rw [main_load_ok h1 h0 h2 h3]
      simp only [List.append_assoc]
      rw [← List.append_assoc]
      exact List.prefix_append _ _

/-- C6: in every accepted invocation (command line accepted, RTSP listener created) the calls
that follow the creation of the listener publish the URLs of the command line in order: a
single URL under the name `proxyStream`, and with two or more URLs the URL at 1-based
position `i` under the name `proxyStream-` followed by the decimal text of `i`; each
call is bound to its own URL. -/
theorem C6_cli_stream_names (e : Engine) (args urls : List Str) (g : Globals)
    (h1 : check_arguments args = .ok (g, urls))
    (h0 : (create_server e g).rtspServer = true) :
    ((create_server e g).trace ++
      (urls.enumFrom 1).map (fun p => Event.PublishSession p.2
        (if urls.length = 1 then "proxyStream".toList
          else "proxyStream-".toList ++ Nat.toDigits 10 p.1)
        g.username g.password g.tunnelOverHTTPPortNum g.verbosityLevel)) <+:
      (main e args).trace := by
  have h := main_trace_accepted h1 h0
  rw [proxy_urls_eq] at h
  simpa using h

theorem proxy_stream_of_line {line : Str} {si : stream_info} (g : Globals)
    (h : stream_info.construct line = .ok si) :
    proxy_stream g si =
      Event.PublishSession (c_str si.url) (c_str si.name)
        (if 3 ≤ (tokenize line).length then some (c_str ((tokenize line).getD 2 []))
          else g.username)
        (if 4 ≤ (tokenize line).length then some (c_str ((tokenize line).getD 3 []))
          else g.password)
        g.tunnelOverHTTPPortNum g.verbosityLevel := by
  have hmem : ∀ t ∈ tokenize line, IsToken t := fun t hx => tokenize_isToken hx
  rw [construct_eq] at h
  rcases ht : tokenize line with _ | ⟨name, _ | ⟨url, more⟩⟩
  · simp only [ht] at h; cases h
  · simp only [ht] at h; cases h
  · rw [ht] at hmem
    simp only [ht] at h
    cases h1 : "proxyStream".toList.isPrefixOf name
    · cases h2 : "rtsp://".toList.isPrefixOf url
      · simp only [h1, h2, Bool.false_eq_true, if_false, Bool.not_false, if_true] at h
        cases h
      · simp only [h1, h2, Bool.false_eq_true, if_false, Bool.not_true, Except.ok.injEq] at h
        subst h
        rcases more with _ | ⟨user, _ | ⟨pass, more⟩⟩
        · simp [proxy_stream]
        · have hu := (hmem user (by simp)).1
          simp [proxy_stream, hu]
        · have hu := (hmem user (by simp)).1
          have hp := (hmem pass (by simp)).1
          simp [proxy_stream, hu, hp]
    · simp only [h1, if_true] at h
      cases h

theorem parsedAs_mem {lines : List Str} {sis : List stream_info} (hs : ParsedAs lines sis)
    {si : stream_info} (hmem : si ∈ sis) :
    ∃ line ∈ lines, stream_info.construct line = .ok si := by
  induction hs with
  | nil => simp at hmem
  | cons h5 _ ih =>
    rcases List.mem_cons.1 hmem with h6 | h6
    · subst h6
      exact ⟨_, by simp, h5⟩
    · obtain ⟨line, hl, hc⟩ := ih h6
      exact ⟨line, by simp [hl], hc⟩

theorem load_mem_line {open_file : Str → Option (List Char)} {path : Str}
    {content : List Char} {reg : List stream_info} (h3 : open_file path = some content)
    (h : load_streams_from_file open_file path = .ok reg) {si : stream_info} (hsi : si ∈ reg) :
    ∃ line ∈ file_lines content, stream_info.construct line = .ok si := by
  unfold load_streams_from_file at h
  simp only [h3] at h
  obtain ⟨sis, hs⟩ := insert_lines_parsed _ _ _ h
  have hn : (sis.map stream_info.name).Nodup := by
    by_contra hn
    have := (insert_lines_spec _ sis [] hs List.Pairwise.nil).2 (by simpa using hn)
    rw [h] at this
    cases this
  obtain ⟨out, h2, _, h4⟩ :=
    (insert_lines_spec _ sis [] hs List.Pairwise.nil).1 (by simpa using hn)
  rw [h] at h2
  cases h2
  have hmem : si ∈ sis := by simpa using h4.mem_iff.1 hsi
  exact parsedAs_mem hs hmem

/-- C7: in every accepted invocation the streams of the command line are published with
the global username and password; and when the definitions file loads, the run publishes
exactly one session per registry entry, each entry being the parse of a line of the file and
published with its own username when the line has a third token and the global username
otherwise, and with its own password when the line has a fourth token and the global
password otherwise; the strings of an entry are passed as C strings. -/
theorem C7_effective_credentials (e : Engine) (args urls : List Str) (g : Globals)
    (h1 : check_arguments args = .ok (g, urls))
    (h0 : (create_server e g).rtspServer = true) :
    (((create_server e g).trace ++ proxy_urls g (urls.length + 1) 1 urls) <+:
        (main e args).trace ∧
      ∀ ev ∈ proxy_urls g (urls.length + 1) 1 urls, ∃ url name,
        ev = Event.PublishSession url name g.username g.password
          g.tunnelOverHTTPPortNum g.verbosityLevel) ∧
    ∀ path content reg, g.streams_file_path = some path → e.open_file path = some content →
      load_streams_from_file e.open_file path = .ok reg →
      (main e args).trace =
          (create_server e g).trace ++ proxy_urls g (urls.length + 1) 1 urls ++
            reg.map (proxy_stream g) ++ set_up_tunneling e ∧
        ∀ si ∈ reg, ∃ line ∈ file_lines content, stream_info.construct line = .ok si ∧
          proxy_stream g si =
            Event.PublishSession (c_str si.url) (c_str si.name)
              (if 3 ≤ (tokenize line).length then some (c_str ((tokenize line).getD 2 []))
                else g.username)
              (if 4 ≤ (tokenize line).length then some (c_str ((tokenize line).getD 3 []))
                else g.password)
              g.tunnelOverHTTPPortNum g.verbosityLevel := by
  refine ⟨⟨main_trace_accepted h1 h0, ?_⟩, ?_⟩
  · intro ev hev
    rw [proxy_urls_eq] at hev
    obtain ⟨p, _, hp⟩ := List.mem_map.1 hev
    exact ⟨_, _, hp.symm⟩
  · intro path content reg h2 h3 h4
    refine ⟨by rw [main_load_ok h1 h0 h2 h4], ?_⟩
    intro si hsi
    obtain ⟨line, hl, hc⟩ := load_mem_line h3 h4 hsi
    exact ⟨line, hl, hc, proxy_stream_of_line g hc⟩

/-! ### The scan of the options -/

theorem case_T_next {g g1 : Globals} {rest rest1 : List Str}
    (h : case_T g rest = .next g1 rest1) :
    ∃ a v, rest = a :: rest1 ∧ a.head? ≠ some '-' ∧ sscanf_hu a = some v ∧ 0 < v ∧
      g1 = { g with tunnelOverHTTPPortNum := v } := by
  unfold case_T at h
  rcases rest with _ | ⟨a, rest2⟩
  · cases h
  · simp only at h
    by_cases h1 : a.head? ≠ some '-'
    · rw [if_pos h1] at h
      cases hs : sscanf_hu a with
      | none => simp only [hs] at h; cases h
      | some v =>
        simp only [hs] at h
        by_cases h2 : v > 0
        · rw [if_pos h2] at h
          simp only [Step.next.injEq] at h
          exact ⟨a, v, by rw [h.2], h1, hs, h2, h.1.symm⟩
        · rw [if_neg h2] at h
          cases h
    · rw [if_neg h1] at h
      cases h

theorem case_p_next {g g1 : Globals} {rest rest1 : List Str}
    (h : case_p g rest = .next g1 rest1) :
    ∃ a v, rest = a :: rest1 ∧ a.head? ≠ some '-' ∧ sscanf_hu a = some v ∧ 0 < v ∧
      g1 = { g with rtspServerPortNum := v } := by
  unfold case_p at h
  rcases rest with _ | ⟨a, rest2⟩
  · cases h
  · simp only at h
    by_cases h1 : a.head? ≠ some '-'
    · rw [if_pos h1] at h
      cases hs : sscanf_hu a with
      | none => simp only [hs] at h; cases h
      | some v =>
        simp only [hs] at h
        by_cases h2 : v > 0
        · rw [if_pos h2] at h
          simp only [Step.next.injEq] at h
          exact ⟨a, v, by rw [h.2], h1, hs, h2, h.1.symm⟩
        · rw [if_neg h2] at h
          cases h
    · rw [if_neg h1] at h
      cases h

theorem case_u_next {g g1 : Globals} {rest rest1 : List Str}
    (h : case_u g rest = .next g1 rest1) :
    ∃ a b, rest = a :: b :: rest1 ∧ g1 = { g with username := some a, password := some b } := by
  unfold case_u at h
  rcases rest with _ | ⟨a, _ | ⟨b, rest3⟩⟩
  · cases h
  · cases h
  · simp only [Step.next.injEq] at h
    exact ⟨a, b, by rw [h.2], h.1.symm⟩

theorem case_U_next {g g1 : Globals} {rest rest1 : List Str}
    (h : case_U g rest = .next g1 rest1) :
    ∃ a b, rest = a :: b :: rest1 ∧
      g1 = { g with
             usernameForREGISTER := some a
             passwordForREGISTER := some b
             authDBForREGISTER := some ((g.authDBForREGISTER.getD []) ++ [(a, b)]) } := by
  unfold case_U at h
  rcases rest with _ | ⟨a, _ | ⟨b, rest3⟩⟩
  · cases h
  · cases h
  · simp only [Step.next.injEq] at h
    exact ⟨a, b, by rw [h.2], h.1.symm⟩

theorem case_f_next {g g1 : Globals} {rest rest1 : List Str}
    (h : case_f g rest = .next g1 rest1) :
    ∃ a, rest = a :: rest1 ∧ g1 = { g with streams_file_path := some a } := by
  unfold case_f at h
  rcases rest with _ | ⟨a, rest2⟩
  · cases h
  · simp only [Step.next.injEq] at h
    exact ⟨a, by rw [h.2], h.1.symm⟩

theorem scan_step_next {g g1 : Globals} {opt : Str} {rest rest1 : List Str}
    (h : scan_step g opt rest = .next g1 rest1) :
    opt.head? = some '-' ∧
      ((option_letter opt = 'v' ∧ g1 = { g with verbosityLevel := 1 } ∧ rest1 = rest) ∨
        (option_letter opt = 'V' ∧ g1 = { g with verbosityLevel := 2 } ∧ rest1 = rest) ∨
        (option_letter opt = 't' ∧ g1 = { g with streamRTPOverTCP := true } ∧ rest1 = rest) ∨
        (option_letter opt = 'T' ∧ case_T g rest = .next g1 rest1) ∨
        (option_letter opt = 'p' ∧ case_p g rest = .next g1 rest1) ∨
        (option_letter opt = 'u' ∧ case_u g rest = .next g1 rest1) ∨
        (option_letter opt = 'U' ∧ case_U g rest = .next g1 rest1) ∨
        (option_letter opt = 'R' ∧ g1 = { g with proxyREGISTERRequests := true } ∧
          rest1 = rest) ∨
        (option_letter opt = 'f' ∧ case_f g rest = .next g1 rest1)) := by
  unfold scan_step at h
  by_cases h0 : opt.head? ≠ some '-'
  · rw [if_pos h0] at h; cases h
  rw [if_neg h0] at h
  refine ⟨not_not.1 h0, ?_⟩
  by_cases h1 : option_letter opt = 'v'
  · rw [if_pos h1] at h
    simp only [Step.next.injEq] at h
    exact Or.inl ⟨h1, h.1.symm, h.2.symm⟩
  rw [if_neg h1] at h
  by_cases h2 : option_letter opt = 'V'
  · rw [if_pos h2] at h
    simp only [Step.next.injEq] at h
    exact Or.inr (Or.inl ⟨h2, h.1.symm, h.2.symm⟩)
  rw [if_neg h2] at h
  by_cases h3 : option_letter opt = 't'
  · rw [if_pos h3] at h
    simp only [Step.next.injEq] at h
    exact Or.inr (Or.inr (Or.inl ⟨h3, h.1.symm, h.2.symm⟩))
  rw [if_neg h3] at h
  by_cases h4 : option_letter opt = 'T'
  · rw [if_pos h4] at h
    exact Or.inr (Or.inr (Or.inr (Or.inl ⟨h4, h⟩)))
  rw [if_neg h4] at h
  by_cases h5 : option_letter opt = 'p'
  · rw [if_pos h5] at h
    exact Or.inr (Or.inr (Or.inr (Or.inr (Or.inl ⟨h5, h⟩))))
  rw [if_neg h5] at h
  by_cases h6 : option_letter opt = 'u'
  · rw [if_pos h6] at h
    exact Or.inr (Or.inr (Or.inr (Or.inr (Or.inr (Or.inl ⟨h6, h⟩)))))
  rw [if_neg h6] at h
  by_cases h7 : option_letter opt = 'U'
  · rw [if_pos h7] at h
    exact Or.inr (Or.inr (Or.inr (Or.inr (Or.inr (Or.inr (Or.inl ⟨h7, h⟩))))))
  rw [if_neg h7] at h
  by_cases h8 : option_letter opt = 'R'
  · rw [if_pos h8] at h
    simp only [Step.next.injEq] at h
    exact Or.inr (Or.inr (Or.inr (Or.inr (Or.inr (Or.inr (Or.inr (Or.inl ⟨h8, h.1.symm, h.2.symm⟩)))))))
  rw [if_neg h8] at h
  by_cases h9 : option_letter opt = 'f'
  · rw [if_pos h9] at h
    exact Or.inr (Or.inr (Or.inr (Or.inr (Or.inr (Or.inr (Or.inr (Or.inr (⟨h9, h⟩))))))))
  rw [if_neg h9] at h
  cases h

theorem scan_step_length {g g1 : Globals} {opt : Str} {rest rest1 : List Str}
    (h : scan_step g opt rest = .next g1 rest1) : rest1.length ≤ rest.length := by
  rcases (scan_step_next h).2 with h | h | h | h | h | h | h | h | h
  · rw [h.2.2]
  · rw [h.2.2]
  · rw [h.2.2]
  · obtain ⟨a, v, h1, _⟩ := case_T_next h.2
    rw [h1]; simp
  · obtain ⟨a, v, h1, _⟩ := case_p_next h.2
    rw [h1]; simp
  · obtain ⟨a, b, h1, _⟩ := case_u_next h.2
    rw [h1]; simp only [List.length_cons]; omega
  · obtain ⟨a, b, h1, _⟩ := case_U_next h.2
    rw [h1]; simp only [List.length_cons]; omega
  · rw [h.2.2]
  · obtain ⟨a, h1, _⟩ := case_f_next h.2
    rw [h1]; simp

theorem scan_loop_fuel : ∀ (n m : Nat) (g : Globals) (args : List Str),
    args.length ≤ n → args.length ≤ m → scan_loop n g args = scan_loop m g args := by
  intro n
  induction n with
  | zero =>
    intro m g args hn _
    have : args = [] := by simpa using hn
    subst this
    cases m <;> rfl
  | succ n ih =>
    intro m g args hn hm
    rcases args with _ | ⟨opt, rest⟩
    · cases m <;> rfl
    · cases m with
      | zero => simp at hm
      | succ m =>
        simp only [scan_loop]
        cases hs : scan_step g opt rest with
        | stop => rfl
        | fail => rfl
        | next g1 rest1 =>
          have := scan_step_length hs
          simp only [List.length_cons] at hn hm
          exact ih m g1 rest1 (by omega) (by omega)

theorem scan_options_nil (g : Globals) : scan_options g [] = .ok (g, []) := rfl

theorem scan_options_cons (g : Globals) (opt : Str) (rest : List Str) :
    scan_options g (opt :: rest) =
      match scan_step g opt rest with
      | .stop => .ok (g, opt :: rest)
      | .fail => .error .Usage
      | .next g1 rest1 => scan_options g1 rest1 := by
  unfold scan_options
  simp only [List.length_cons, scan_loop]
  cases hs : scan_step g opt rest with
  | stop => rfl
  | fail => rfl
  | next g1 rest1 =>
    exact scan_loop_fuel _ _ g1 rest1 (scan_step_length hs) (le_refl _)

theorem case_T_cons (g : Globals) {a : Str} {v : Nat} (rest : List Str)
    (h1 : a.head? ≠ some '-') (h2 : sscanf_hu a = some v) (h3 : 0 < v) :
    case_T g (a :: rest) = .next { g with tunnelOverHTTPPortNum := v } rest := by
  unfold case_T
  simp only [h2]
  rw [if_pos h1, if_pos h3]

theorem case_p_cons (g : Globals) {a : Str} {v : Nat} (rest : List Str)
    (h1 : a.head? ≠ some '-') (h2 : sscanf_hu a = some v) (h3 : 0 < v) :
    case_p g (a :: rest) = .next { g with rtspServerPortNum := v } rest := by
  unfold case_p
  simp only [h2]
  rw [if_pos h1, if_pos h3]

theorem case_T_append {g g1 : Globals} {rest rest1 : List Str} (after : List Str)
    (h : case_T g rest = .next g1 rest1) : case_T g (rest ++ after) = .next g1 (rest1 ++ after) := by
  obtain ⟨a, v, h1, h2, h3, h4, h5⟩ := case_T_next h
  rw [h1, h5, List.cons_append]
  exact case_T_cons g _ h2 h3 h4

theorem case_p_append {g g1 : Globals} {rest rest1 : List Str} (after : List Str)
    (h : case_p g rest = .next g1 rest1) : case_p g (rest ++ after) = .next g1 (rest1 ++ after) := by
  obtain ⟨a, v, h1, h2, h3, h4, h5⟩ := case_p_next h
  rw [h1, h5, List.cons_append]
  exact case_p_cons g _ h2 h3 h4

theorem case_u_append {g g1 : Globals} {rest rest1 : List Str} (after : List Str)
    (h : case_u g rest = .next g1 rest1) : case_u g (rest ++ after) = .next g1 (rest1 ++ after) := by
  obtain ⟨a, b, h1, h2⟩ := case_u_next h
  rw [h1, h2]
  rfl

theorem case_U_append {g g1 : Globals} {rest rest1 : List Str} (after : List Str)
    (h : case_U g rest = .next g1 rest1) : case_U g (rest ++ after) = .next g1 (rest1 ++ after) := by
  obtain ⟨a, b, h1, h2⟩ := case_U_next h
  rw [h1, h2]
  rfl

theorem case_f_append {g g1 : Globals} {rest rest1 : List Str} (after : List Str)
    (h : case_f g rest = .next g1 rest1) : case_f g (rest ++ after) = .next g1 (rest1 ++ after) := by
  obtain ⟨a, h1, h2⟩ := case_f_next h
  rw [h1, h2]
  rfl

theorem scan_step_append {g g1 : Globals} {opt : Str} {rest rest1 : List Str}
    (after : List Str) (h : scan_step g opt rest = .next g1 rest1) :
    scan_step g opt (rest ++ after) = .next g1 (rest1 ++ after) := by
  unfold scan_step at h ⊢
  by_cases h0 : opt.head? ≠ some '-'
  · rw [if_pos h0] at h; cases h
  rw [if_neg h0] at h ⊢
  by_cases h1 : option_letter opt = 'v'
  · rw [if_pos h1] at h ⊢
    simp only [Step.next.injEq] at h ⊢
    exact ⟨h.1, by rw [h.2]⟩
  rw [if_neg h1] at h ⊢
  by_cases h2 : option_letter opt = 'V'
  · rw [if_pos h2] at h ⊢
    simp only [Step.next.injEq] at h ⊢
    exact ⟨h.1, by rw [h.2]⟩
  rw [if_neg h2] at h ⊢
  by_cases h3 : option_letter opt = 't'
  · rw [if_pos h3] at h ⊢
    simp only [Step.next.injEq] at h ⊢
    exact ⟨h.1, by rw [h.2]⟩
  rw [if_neg h3] at h ⊢
  by_cases h4 : option_letter opt = 'T'
  · rw [if_pos h4] at h ⊢
    exact case_T_append after h
  rw [if_neg h4] at h ⊢
  by_cases h5 : option_letter opt = 'p'
  · rw [if_pos h5] at h ⊢
    exact case_p_append after h
  rw [if_neg h5] at h ⊢
  by_cases h6 : option_letter opt = 'u'
  · rw [if_pos h6] at h ⊢
    exact case_u_append after h
  rw [if_neg h6] at h ⊢
  by_cases h7 : option_letter opt = 'U'
  · rw [if_pos h7] at h ⊢
    exact case_U_append after h
  rw [if_neg h7] at h ⊢
  by_cases h8 : option_letter opt = 'R'
  · rw [if_pos h8] at h ⊢
    simp only [Step.next.injEq] at h ⊢
    exact ⟨h.1, by rw [h.2]⟩
  rw [if_neg h8] at h ⊢
  by_cases h9 : option_letter opt = 'f'
  · rw [if_pos h9] at h ⊢
    exact case_f_append after h
  rw [if_neg h9] at h ⊢
  cases h

theorem scan_options_append : ∀ (n : Nat) (before : List Str), before.length ≤ n →
    ∀ (g g1 : Globals) (after : List Str), scan_options g before = .ok (g1, []) →
    scan_options g (before ++ after) = scan_options g1 after := by
  intro n
  induction n with
  | zero =>
    intro before hlen g g1 after h
    have : before = [] := by simpa using hlen
    subst this
    rw [scan_options_nil] at h
    simp only [Except.ok.injEq, Prod.mk.injEq, and_true] at h
    rw [h]; rfl
  | succ n ih =>
    intro before hlen g g1 after h
    rcases before with _ | ⟨opt, rest⟩
    · rw [scan_options_nil] at h
      simp only [Except.ok.injEq, Prod.mk.injEq, and_true] at h
      rw [h]; rfl
    · rw [scan_options_cons] at h
      rw [List.cons_append, scan_options_cons]
      cases hs : scan_step g opt rest with
      | stop => simp only [hs] at h; cases h
      | fail => simp only [hs] at h; cases h
      | next g2 rest2 =>
        simp only [hs] at h
        simp only [scan_step_append after hs]
        have := scan_step_length hs
        simp only [List.length_cons] at hlen
        exact ih rest2 (by omega) g2 g1 after h

theorem scan_step_of_letter (g : Globals) {opt : Str} (rest : List Str)
    (hd : opt.head? = some '-') :
    (option_letter opt = 't' → scan_step g opt rest = .next { g with streamRTPOverTCP := true } rest) ∧
      (option_letter opt = 'T' → scan_step g opt rest = case_T g rest) ∧
      (option_letter opt = 'p' → scan_step g opt rest = case_p g rest) ∧
      (option_letter opt = 'u' → scan_step g opt rest = case_u g rest) ∧
      (option_letter opt = 'U' → scan_step g opt rest = case_U g rest) := by
  unfold scan_step
  rw [if_neg (not_not.2 hd)]
  refine ⟨?_, ?_, ?_, ?_, ?_⟩ <;> intro hl <;> rw [hl] <;> rfl

theorem scan_options_mono : ∀ (n : Nat) (args : List Str), args.length ≤ n →
    ∀ (g g1 : Globals) (left : List Str), scan_options g args = .ok (g1, left) →
    (g.streamRTPOverTCP = true → g1.streamRTPOverTCP = true) ∧
      (0 < g.tunnelOverHTTPPortNum → 0 < g1.tunnelOverHTTPPortNum) := by
  intro n
  induction n with
  | zero =>
    intro args hlen g g1 left h
    have : args = [] := by simpa using hlen
    subst this
    rw [scan_options_nil] at h
    simp only [Except.ok.injEq, Prod.mk.injEq] at h
    rw [← h.1]
    exact ⟨id, id⟩
  | succ n ih =>
    intro args hlen g g1 left h
    rcases args with _ | ⟨opt, rest⟩
    · rw [scan_options_nil] at h
      simp only [Except.ok.injEq, Prod.mk.injEq] at h
      rw [← h.1]
      exact ⟨id, id⟩
    · rw [scan_options_cons] at h
      cases hs : scan_step g opt rest with
      | stop =>
        simp only [hs, Except.ok.injEq, Prod.mk.injEq] at h
        rw [← h.1]
        exact ⟨id, id⟩
      | fail => simp only [hs] at h; cases h
      | next g2 rest2 =>
        simp only [hs] at h
        have hl := scan_step_length hs
        simp only [List.length_cons] at hlen
        have h2 := ih rest2 (by omega) g2 g1 left h
        have h3 : (g.streamRTPOverTCP = true → g2.streamRTPOverTCP = true) ∧
            (0 < g.tunnelOverHTTPPortNum → 0 < g2.tunnelOverHTTPPortNum) := by
          rcases (scan_step_next hs).2 with c | c | c | c | c | c | c | c | c
          · rw [c.2.1]; exact ⟨id, id⟩
          · rw [c.2.1]; exact ⟨id, id⟩
          · rw [c.2.1]; exact ⟨fun _ => rfl, id⟩
          · obtain ⟨a, v, _, _, _, hv, e⟩ := case_T_next c.2
            rw [e]; exact ⟨id, fun _ => hv⟩
          · obtain ⟨a, v, _, _, _, _, e⟩ := case_p_next c.2
            rw [e]; exact ⟨id, id⟩
          · obtain ⟨a, b, _, e⟩ := case_u_next c.2
            rw [e]; exact ⟨id, id⟩
          · obtain ⟨a, b, _, e⟩ := case_U_next c.2
            rw [e]; exact ⟨id, id⟩
          · rw [c.2.1]; exact ⟨id, id⟩
          · obtain ⟨a, _, e⟩ := case_f_next c.2
            rw [e]; exact ⟨id, id⟩
        exact ⟨fun x => h2.1 (h3.1 x), fun x => h2.2 (h3.2 x)⟩

theorem scan_options_error : ∀ (n : Nat) (args : List Str), args.length ≤ n →
    ∀ (g : Globals) (f : Failure), scan_options g args = .error f → f = .Usage := by
  intro n
  induction n with
  | zero =>
    intro args hlen g f h
    have : args = [] := by simpa using hlen
    subst this
    rw [scan_options_nil] at h
    cases h
  | succ n ih =>
    intro args hlen g f h
    rcases args with _ | ⟨opt, rest⟩
    · rw [scan_options_nil] at h
      cases h
    · rw [scan_options_cons] at h
      cases hs : scan_step g opt rest with
      | stop => simp only [hs] at h; cases h
      | fail => simp only [hs] at h; cases h; rfl
      | next g2 rest2 =>
        simp only [hs] at h
        have hl := scan_step_length hs
        simp only [List.length_cons] at hlen
        exact ih rest2 (by omega) g2 f h

theorem scan_processes {args before after : List Str} {g : Globals} {opt : Str}
    (hp : Processes args before g opt after) :
    scan_options Globals.default args = scan_options g (opt :: after) := by
  obtain ⟨h1, h2, _⟩ := hp
  rw [h1]
  exact scan_options_append _ before (le_refl _) _ _ _ h2

theorem main_rejected {e : Engine} {args : List Str} {f : Failure}
    (h : check_arguments args = .error f) :
    main e args = { trace := [], outcome := .exited 1 f } := by
  unfold main
  simp only [h]

theorem check_arguments_scan_error {args : List Str} {f : Failure}
    (h : scan_options Globals.default args = .error f) :
    check_arguments args = .error .Usage := by
  have hf := scan_options_error _ args (le_refl _) _ f h
  subst hf
  unfold check_arguments
  split_ifs
  · rfl
  · simp only [h]

theorem check_arguments_tcp_and_http {args left : List Str} {g : Globals}
    (h : scan_options Globals.default args = .ok (g, left))
    (h1 : g.streamRTPOverTCP = true) (h2 : 0 < g.tunnelOverHTTPPortNum) :
    ∃ f, check_arguments args = .error f ∧
      (f = .Usage ∨ f = .RegisterAuthWithoutRegister ∨ f = .BothTcpAndHttp) := by
  unfold check_arguments
  split_ifs
  · exact ⟨_, rfl, Or.inl rfl⟩
  · simp only [h]
    split_ifs
    · exact ⟨_, rfl, Or.inl rfl⟩
    · exact ⟨_, rfl, Or.inl rfl⟩
    · exact ⟨_, rfl, Or.inr (Or.inl rfl)⟩
    · exact ⟨_, rfl, Or.inr (Or.inr rfl)⟩

theorem case_T_ne_stop (g : Globals) (rest : List Str) : case_T g rest ≠ .stop := by
  unfold case_T
  rcases rest with _ | ⟨a, r⟩
  · intro h; cases h
  · simp only
    by_cases h1 : a.head? ≠ some '-'
    · rw [if_pos h1]
      cases hv : sscanf_hu a with
      | none => intro h; cases h
      | some v =>
        simp only
        by_cases h2 : v > 0
        · rw [if_pos h2]; intro h; cases h
        · rw [if_neg h2]; intro h; cases h
    · rw [if_neg h1]; intro h; cases h

/-- C8: when the flag scan processes both an option `-t` and an option `-T` (in either
order, whatever the other arguments are), the command line is rejected: `main` ends with
`usage()` and `exit(1)`, having made no call to the engine (no server is created). -/
theorem C8_tcp_and_http_exclusive (e : Engine) (args before1 after1 before2 after2 : List Str)
    (g1 g2 : Globals) (opt1 opt2 : Str)
    (ht : Processes args before1 g1 opt1 after1) (hlt : option_letter opt1 = 't')
    (hT : Processes args before2 g2 opt2 after2) (hlT : option_letter opt2 = 'T') :
    ∃ f, main e args = { trace := [], outcome := .exited 1 f } ∧
      (f = .Usage ∨ f = .RegisterAuthWithoutRegister ∨ f = .BothTcpAndHttp) := by
  have e1 := scan_processes ht
  have e2 := scan_processes hT
  rw [scan_options_cons, (scan_step_of_letter g1 after1 ht.2.2).1 hlt] at e1
  rw [scan_options_cons, (scan_step_of_letter g2 after2 hT.2.2).2.1 hlT] at e2
  simp only at e1
  cases hs : scan_options Globals.default args with
  | error f =>
    exact ⟨.Usage, main_rejected (check_arguments_scan_error hs), Or.inl rfl⟩
  | ok p =>
    obtain ⟨g, left⟩ := p
    have h1 : g.streamRTPOverTCP = true := by
      rw [hs] at e1
      exact (scan_options_mono _ after1 (le_refl _) _ g left e1.symm).1 rfl
    have h2 : 0 < g.tunnelOverHTTPPortNum := by
      rw [hs] at e2
      cases hc : case_T g2 after2 with
      | stop => exact absurd hc (case_T_ne_stop g2 after2)
      | fail => simp only [hc] at e2; cases e2
      | next g3 rest3 =>
        simp only [hc] at e2
        obtain ⟨a, v, _, _, _, hv, hg⟩ := case_T_next hc
        refine (scan_options_mono _ rest3 (le_refl _) g3 g left e2.symm).2 ?_
        rw [hg]; exact hv
    obtain ⟨f, hf, hk⟩ := check_arguments_tcp_and_http hs h1 h2
    exact ⟨f, main_rejected hf, hk⟩

theorem main_scan_fail {e : Engine} {args before after : List Str} {g : Globals} {opt : Str}
    (hp : Processes args before g opt after) (hs : scan_step g opt after = .fail) :
    main e args = { trace := [], outcome := .exited 1 .Usage } := by
  have h := scan_processes hp
  rw [scan_options_cons, hs] at h
  exact main_rejected (check_arguments_scan_error h)

theorem scan_processes_next {args before after rest : List Str} {g g1 : Globals} {opt : Str}
    (hp : Processes args before g opt after) (hs : scan_step g opt after = .next g1 rest) :
    scan_options Globals.default args = scan_options g1 rest := by
  have h := scan_processes hp
  rw [scan_options_cons, hs] at h
  exact h

theorem case_u_short (g : Globals) {rest : List Str} (h : rest.length < 2) :
    case_u g rest = .fail ∧ case_U g rest = .fail := by
  rcases rest with _ | ⟨a, _ | ⟨b, r⟩⟩
  · exact ⟨rfl, rfl⟩
  · exact ⟨rfl, rfl⟩
  · simp only [List.length_cons] at h
    omega

/-- C9 (as amended): when the flag scan processes an option `-u` or `-U` that is followed
by fewer than two arguments, the command line is rejected (`usage()`, `exit(1)`, no call to
the engine); when it is followed by two arguments, whatever their first characters are, the
scan goes on after them with these two as username and password (for `-U`: as the
REGISTER username and password, added as a record to the REGISTER database). -/
theorem C9_credentials_arity (e : Engine) (args before after : List Str) (g : Globals)
    (opt : Str) (hp : Processes args before g opt after) :
    (option_letter opt = 'u' ∨ option_letter opt = 'U' → after.length < 2 →
        main e args = { trace := [], outcome := .exited 1 .Usage }) ∧
      (option_letter opt = 'u' → ∀ a b rest, after = a :: b :: rest →
        scan_options Globals.default args =
          scan_options { g with username := some a, password := some b } rest) ∧
      (option_letter opt = 'U' → ∀ a b rest, after = a :: b :: rest →
        scan_options Globals.default args =
          scan_options
            { g with
              usernameForREGISTER := some a
              passwordForREGISTER := some b
              authDBForREGISTER := some ((g.authDBForREGISTER.getD []) ++ [(a, b)]) } rest) := by
  have hl := scan_step_of_letter g after hp.2.2
  refine ⟨?_, ?_, ?_⟩
  · intro h hlen
    rcases h with h | h
    · exact main_scan_fail hp (by rw [hl.2.2.2.1 h]; exact (case_u_short g hlen).1)
    · exact main_scan_fail hp (by rw [hl.2.2.2.2 h]; exact (case_u_short g hlen).2)
  · intro h a b rest hr
    exact scan_processes_next hp (by rw [hl.2.2.2.1 h, hr]; rfl)
  · intro h a b rest hr
    exact scan_processes_next hp (by rw [hl.2.2.2.2 h, hr]; rfl)

/-! ### The conversion `%hu` -/

theorem isdigit_not_space {c : Char} (h : isdigit c = true) :
    isspace c = false ∧ c ≠ '-' ∧ c ≠ '+' := by
  refine ⟨?_, ?_, ?_⟩
  · cases hs : isspace c with
    | false => rfl
    | true =>
      simp only [isspace, Bool.or_eq_true, beq_iff_eq] at hs
      rcases hs with ((((hs | hs) | hs) | hs) | hs) | hs <;> subst hs <;> revert h <;> decide
  · intro hc; subst hc; revert h; decide
  · intro hc; subst hc; revert h; decide

theorem strtoul_value_nonneg (ds : List Char) :
    strtoul_value false ds = min (digits_value ds) (2 ^ 64 - 1) := by
  unfold strtoul_value
  by_cases h : digits_value ds ≥ 2 ^ 64
  · rw [if_pos h]
    omega
  · rw [if_neg h]
    simp only [Bool.false_eq_true, if_false]
    omega

theorem sscanf_hu_digits {ds tail : List Char} (hne : ds ≠ [])
    (hd : ∀ c ∈ ds, isdigit c = true) (ht : ∀ c, tail.head? = some c → isdigit c = false) :
    (ds ++ tail).head? ≠ some '-' ∧
      sscanf_hu (ds ++ tail) = some (min (digits_value ds) (2 ^ 64 - 1) % 2 ^ 16) := by
  rcases ds with _ | ⟨c, cs⟩
  · exact absurd rfl hne
  · obtain ⟨h1, h2, h3⟩ := isdigit_not_space (hd c (by simp))
    have hw : ((c :: cs) ++ tail).takeWhile isdigit = c :: cs :=
      (takeWhile_append_stop isdigit (c :: cs) tail hd
        (by
          rcases tail with _ | ⟨x, xs⟩
          · rfl
          · simp [ht x rfl])).1
    refine ⟨by simpa using h2, ?_⟩
    unfold sscanf_hu
    have hdrop : ((c :: cs) ++ tail).dropWhile isspace = c :: (cs ++ tail) := by
      simp [List.dropWhile, h1]
    rw [hdrop]
    simp only [List.cons_append] at hw
    split
    · rename_i r heq
      simp only [List.cons.injEq] at heq
      exact absurd heq.1 h2
    · rename_i r heq
      simp only [List.cons.injEq] at heq
      exact absurd heq.1 h3
    · rw [hw, strtoul_value_nonneg]
      simp

theorem digitChar_spec (k : Nat) (h : k < 10) :
    isdigit (Nat.digitChar k) = true ∧ (Nat.digitChar k).toNat - '0'.toNat = k := by
  interval_cases k <;> decide

theorem digits_value_append (l : List Char) (d : Char) :
    digits_value (l ++ [d]) = 10 * digits_value l + (d.toNat - '0'.toNat) := by
  simp [digits_value, List.foldl_append]

theorem toDigitsCore_spec : ∀ (fuel n : Nat), n < fuel →
    ∃ l : List Char, l ≠ [] ∧ (∀ c ∈ l, isdigit c = true) ∧ digits_value l = n ∧
      ∀ ds, Nat.toDigitsCore 10 fuel n ds = l ++ ds := by
  intro fuel
  induction fuel with
  | zero => intro n h; omega
  | succ fuel ih =>
    intro n h
    have hd := digitChar_spec (n % 10) (Nat.mod_lt _ (by decide))
    by_cases h0 : n / 10 = 0
    · refine ⟨[Nat.digitChar (n % 10)], by simp, by simpa using hd.1, ?_, ?_⟩
      · have : digits_value [Nat.digitChar (n % 10)] =
            (Nat.digitChar (n % 10)).toNat - '0'.toNat := by simp [digits_value]
        rw [this, hd.2]
        omega
      · intro ds
        simp [Nat.toDigitsCore, h0]
    · obtain ⟨l, h1, h2, h3, h4⟩ := ih (n / 10) (by omega)
      refine ⟨l ++ [Nat.digitChar (n % 10)], by simp, ?_, ?_, ?_⟩
      · intro c hc
        rcases List.mem_append.1 hc with hc | hc
        · exact h2 c hc
        · simp only [List.mem_singleton] at hc
          rw [hc]; exact hd.1
      · rw [digits_value_append, h3, hd.2]
        omega
      · intro ds
        simp only [Nat.toDigitsCore, h0, if_false, h4, List.append_assoc, List.singleton_append]

theorem toDigits_spec (n : Nat) :
    Nat.toDigits 10 n ≠ [] ∧ (∀ c ∈ Nat.toDigits 10 n, isdigit c = true) ∧
      digits_value (Nat.toDigits 10 n) = n := by
  obtain ⟨l, h3, h4, h5, h6⟩ := toDigitsCore_spec (n + 1) n (by omega)
  have e : Nat.toDigits 10 n = l := by
    unfold Nat.toDigits
    rw [h6 []]
    simp
  rw [e]
  exact ⟨h3, h4, h5⟩

theorem sscanf_hu_decimal_tail (n : Nat) (tail : List Char)
    (ht : ∀ c, tail.head? = some c → isdigit c = false) :
    (Nat.toDigits 10 n ++ tail).head? ≠ some '-' ∧
      sscanf_hu (Nat.toDigits 10 n ++ tail) = some (min n (2 ^ 64 - 1) % 2 ^ 16) := by
  obtain ⟨h3, h4, h5⟩ := toDigits_spec n
  have h := sscanf_hu_digits h3 h4 ht
  rw [h5] at h
  exact h

theorem sscanf_hu_decimal (n : Nat) (h1 : 1 ≤ n) (h2 : n ≤ 65535) :
    (Nat.toDigits 10 n).head? ≠ some '-' ∧ sscanf_hu (Nat.toDigits 10 n) = some n ∧ 0 < n := by
  have h := sscanf_hu_decimal_tail n [] (fun c hc => by cases hc)
  rw [List.append_nil] at h
  refine ⟨h.1, ?_, h1⟩
  rw [h.2]
  congr 1
  omega

/-- C10 (as amended): when the flag scan processes an option `-p` or `-T`, the command line
is rejected (`usage()`, `exit(1)`, no call to the engine) if no argument follows, if the next
argument begins with `-`, if `sscanf` with `%hu` finds no number at its start, or if the
number stored is 0; otherwise the scan goes on after that argument with the number
stored by `sscanf` as the port (`rtspServerPortNum` for `-p`, `tunnelOverHTTPPortNum` for
`-T`).  For the decimal text of an integer `n` in the range 1..65535 that number is `n`.  For
an argument made of a run of decimal digits of value `n` followed by characters that do not
begin with a digit (in particular the decimal text of `n` followed by such characters), the
number stored is `n` modulo 65536 when `n` is below `2^64` and 65535 otherwise: the characters
that follow the digits are ignored, and the argument is rejected exactly when that number
is 0. -/
theorem C10_port_values (e : Engine) (args before after : List Str) (g : Globals)
    (opt : Str) (hp : Processes args before g opt after)
    (hl : option_letter opt = 'p' ∨ option_letter opt = 'T') :
    ((after = [] ∨ ∃ a rest, after = a :: rest ∧
          (a.head? = some '-' ∨ sscanf_hu a = none ∨ sscanf_hu a = some 0)) →
        main e args = { trace := [], outcome := .exited 1 .Usage }) ∧
      (∀ a rest v, after = a :: rest → a.head? ≠ some '-' → sscanf_hu a = some v → 0 < v →
        (option_letter opt = 'p' → scan_options Globals.default args =
          scan_options { g with rtspServerPortNum := v } rest) ∧
        (option_letter opt = 'T' → scan_options Globals.default args =
          scan_options { g with tunnelOverHTTPPortNum := v } rest)) ∧
      (∀ n rest, 1 ≤ n → n ≤ 65535 → after = Nat.toDigits 10 n :: rest →
        (option_letter opt = 'p' → scan_options Globals.default args =
          scan_options { g with rtspServerPortNum := n } rest) ∧
        (option_letter opt = 'T' → scan_options Globals.default args =
          scan_options { g with tunnelOverHTTPPortNum := n } rest)) ∧
      (∀ ds tail rest, ds ≠ [] → (∀ c ∈ ds, isdigit c = true) →
        (∀ c, tail.head? = some c → isdigit c = false) → after = (ds ++ tail) :: rest →
        (min (digits_value ds) (2 ^ 64 - 1) % 2 ^ 16 = 0 →
          main e args = { trace := [], outcome := .exited 1 .Usage }) ∧
        (0 < min (digits_value ds) (2 ^ 64 - 1) % 2 ^ 16 →
          (option_letter opt = 'p' → scan_options Globals.default args =
            scan_options
              { g with rtspServerPortNum := min (digits_value ds) (2 ^ 64 - 1) % 2 ^ 16 }
              rest) ∧
          (option_letter opt = 'T' → scan_options Globals.default args =
            scan_options
              { g with tunnelOverHTTPPortNum := min (digits_value ds) (2 ^ 64 - 1) % 2 ^ 16 }
              rest))) ∧
      (∀ n tail rest, (∀ c, tail.head? = some c → isdigit c = false) →
        after = (Nat.toDigits 10 n ++ tail) :: rest →
        (min n (2 ^ 64 - 1) % 2 ^ 16 = 0 →
          main e args = { trace := [], outcome := .exited 1 .Usage }) ∧
        (0 < min n (2 ^ 64 - 1) % 2 ^ 16 →
          (option_letter opt = 'p' → scan_options Globals.default args =
            scan_options { g with rtspServerPortNum := min n (2 ^ 64 - 1) % 2 ^ 16 } rest) ∧
          (option_letter opt = 'T' → scan_options Globals.default args =
            scan_options { g with tunnelOverHTTPPortNum := min n (2 ^ 64 - 1) % 2 ^ 16 }
              rest))) := by
  have hs := scan_step_of_letter g after hp.2.2
  have key : ∀ a rest v, after = a :: rest → a.head? ≠ some '-' → sscanf_hu a = some v →
      0 < v →
      (option_letter opt = 'p' → scan_options Globals.default args =
        scan_options { g with rtspServerPortNum := v } rest) ∧
      (option_letter opt = 'T' → scan_options Globals.default args =
        scan_options { g with tunnelOverHTTPPortNum := v } rest) := by
    intro a rest v ha h1 h2 h3
    constructor
    · intro h
      exact scan_processes_next hp (by rw [hs.2.2.1 h, ha]; exact case_p_cons g rest h1 h2 h3)
    · intro h
      exact scan_processes_next hp (by rw [hs.2.1 h, ha]; exact case_T_cons g rest h1 h2 h3)
  have bad : (after = [] ∨ ∃ a rest, after = a :: rest ∧
        (a.head? = some '-' ∨ sscanf_hu a = none ∨ sscanf_hu a = some 0)) →
      main e args = { trace := [], outcome := .exited 1 .Usage } := by
    intro h
    have hfail : case_p g after = .fail ∧ case_T g after = .fail := by
      rcases h with h | ⟨a, rest, h, hbad⟩
      · rw [h]; exact ⟨rfl, rfl⟩
      · rw [h]
        unfold case_p case_T
        simp only
        rcases hbad with hbad | hbad | hbad
        · rw [if_neg (not_not.2 hbad), if_neg (not_not.2 hbad)]
          exact ⟨rfl, rfl⟩
        · simp only [hbad]
          constructor <;> split_ifs <;> rfl
        · simp only [hbad]
          constructor <;> split_ifs <;> first | rfl | omega
    rcases hl with hl | hl
    · exact main_scan_fail hp (by rw [hs.2.2.1 hl]; exact hfail.1)
    · exact main_scan_fail hp (by rw [hs.2.1 hl]; exact hfail.2)
  have run : ∀ ds tail rest, ds ≠ [] → (∀ c ∈ ds, isdigit c = true) →
      (∀ c, tail.head? = some c → isdigit c = false) → after = (ds ++ tail) :: rest →
      (min (digits_value ds) (2 ^ 64 - 1) % 2 ^ 16 = 0 →
        main e args = { trace := [], outcome := .exited 1 .Usage }) ∧
      (0 < min (digits_value ds) (2 ^ 64 - 1) % 2 ^ 16 →
        (option_letter opt = 'p' → scan_options Globals.default args =
          scan_options
            { g with rtspServerPortNum := min (digits_value ds) (2 ^ 64 - 1) % 2 ^ 16 }
            rest) ∧
        (option_letter opt = 'T' → scan_options Globals.default args =
          scan_options
            { g with tunnelOverHTTPPortNum := min (digits_value ds) (2 ^ 64 - 1) % 2 ^ 16 }
            rest)) := by
    intro ds tail rest hne hd ht ha
    obtain ⟨h3, h4⟩ := sscanf_hu_digits hne hd ht
    constructor
    · intro h0
      rw [h0] at h4
      exact bad (Or.inr ⟨_, rest, ha, Or.inr (Or.inr h4)⟩)
    · intro hpos
      exact key _ rest _ ha h3 h4 hpos
  refine ⟨bad, key, ?_, run, ?_⟩
  · intro n rest h1 h2 ha
    obtain ⟨h3, h4, h5⟩ := sscanf_hu_decimal n h1 h2
    exact key _ rest n ha h3 h4 h5
  · intro n tail rest ht ha
    obtain ⟨h3, h4, h5⟩ := toDigits_spec n
    have h := run (Nat.toDigits 10 n) tail rest h3 h4 ht ha
    rw [h5] at h
    exact h

/-! ### Instances on concrete inputs -/

/-- C1, counterexample: with `-f missing rtsp://a/1`, where the file cannot be opened,
registry construction fails, yet a listener has been created and the URL of the command
line has been published before the process exits. -/
theorem C1_counterexample :
    load_streams_from_file (example_engine none).open_file "missing".toList =
        .error .FileNotFound ∧
      main (example_engine none) ["-f".toList, "missing".toList, "rtsp://a/1".toList] =
        { trace := [Event.CreateListener 554 false,
                    Event.PublishSession "rtsp://a/1".toList "proxyStream".toList none none 0 0]
          outcome := .exited 1 .FileNotFound } := by
  decide

/-- Witness for C1 (as amended), on `-f missing rtsp://a/1` with no file to open. -/
theorem C1_load_failure_after_listener_witness :
    check_arguments ["-f".toList, "missing".toList, "rtsp://a/1".toList] =
        .ok ({ Globals.default with streams_file_path := some "missing".toList },
          ["rtsp://a/1".toList]) ∧
      load_streams_from_file (example_engine none).open_file "missing".toList =
        .error .FileNotFound ∧
      (main (example_engine none) ["-f".toList, "missing".toList, "rtsp://a/1".toList] =
        (if (create_server (example_engine none)
            { Globals.default with streams_file_path := some "missing".toList }).rtspServer = true
          then
          { trace := (create_server (example_engine none)
                { Globals.default with streams_file_path := some "missing".toList }).trace ++
              proxy_urls { Globals.default with streams_file_path := some "missing".toList }
                (["rtsp://a/1".toList].length + 1) 1 ["rtsp://a/1".toList]
            outcome := .exited 1 .FileNotFound }
        else
          { trace := (create_server (example_engine none)
                { Globals.default with streams_file_path := some "missing".toList }).trace
            outcome := .exited 1 .ServerUnavailable }) ∧
        (create_server (example_engine none)
          { Globals.default with streams_file_path := some "missing".toList }).trace ≠ [] ∧
        ∀ ev ∈ (create_server (example_engine none)
            { Globals.default with streams_file_path := some "missing".toList }).trace,
          ∃ port, ev = .CreateListener port
            ({ Globals.default with
                streams_file_path := some "missing".toList } : Globals).proxyREGISTERRequests) :=
  ⟨by decide, by decide,
    C1_load_failure_after_listener (example_engine none)
      ["-f".toList, "missing".toList, "rtsp://a/1".toList] ["rtsp://a/1".toList]
      { Globals.default with streams_file_path := some "missing".toList } "missing".toList
      .FileNotFound (by decide) rfl (by decide)⟩

/-- C3, counterexample: the file with the lines `foo rtsp://x/y` and
`proxyStream-custom http://x` fails to load with `ReservedName`, not with
`InvalidSourceURL`. -/
theorem C3_counterexample :
    load_streams_from_file (example_engine (some example_bad_file)).open_file "defs".toList =
        .error .ReservedName ∧
      load_streams_from_file (example_engine (some example_bad_file)).open_file "defs".toList ≠
        .error .InvalidSourceURL := by
  decide

/-- Witness for C3 (as amended), on `-f defs` with the file of the counterexample. -/
theorem C3_reserved_name_checked_first_witness :
    check_arguments ["-f".toList, "defs".toList] =
        .ok ({ Globals.default with streams_file_path := some "defs".toList }, []) ∧
      file_lines example_bad_file =
        ["foo rtsp://x/y".toList] ++ "proxyStream-custom http://x".toList :: [] ∧
      tokenize "proxyStream-custom http://x".toList =
        "proxyStream-custom".toList :: "http://x".toList :: [] ∧
      (load_streams_from_file (example_engine (some example_bad_file)).open_file "defs".toList =
          .error .ReservedName ∧
        main (example_engine (some example_bad_file)) ["-f".toList, "defs".toList] =
          (if (create_server (example_engine (some example_bad_file))
              { Globals.default with streams_file_path := some "defs".toList }).rtspServer = true
            then
            { trace := (create_server (example_engine (some example_bad_file))
                  { Globals.default with streams_file_path := some "defs".toList }).trace ++
                proxy_urls { Globals.default with streams_file_path := some "defs".toList }
                  (([] : List Str).length + 1) 1 []
              outcome := .exited 1 .ReservedName }
          else
            { trace := (create_server (example_engine (some example_bad_file))
                  { Globals.default with streams_file_path := some "defs".toList }).trace
              outcome := .exited 1 .ServerUnavailable })) :=
  ⟨by decide, by decide, by decide,
    C3_reserved_name_checked_first (example_engine (some example_bad_file))
      ["-f".toList, "defs".toList] []
      { Globals.default with streams_file_path := some "defs".toList } "defs".toList
      example_bad_file ["foo rtsp://x/y".toList] [] "proxyStream-custom http://x".toList
      "http://x".toList [] [⟨"foo".toList, "rtsp://x/y".toList, [], []⟩]
      (by decide) rfl rfl (by decide) (List.Forall₂.cons (by decide) List.Forall₂.nil)
      (by decide) (by decide) (by decide)⟩

/-- Witness for C6, on the two URLs `rtsp://a/1 rtsp://a/2`. -/
theorem C6_cli_stream_names_witness :
    check_arguments ["rtsp://a/1".toList, "rtsp://a/2".toList] =
        .ok (Globals.default, ["rtsp://a/1".toList, "rtsp://a/2".toList]) ∧
      (create_server (example_engine none) Globals.default).rtspServer = true ∧
      ((create_server (example_engine none) Globals.default).trace ++
        (["rtsp://a/1".toList, "rtsp://a/2".toList].enumFrom 1).map
          (fun p => Event.PublishSession p.2
            (if ["rtsp://a/1".toList, "rtsp://a/2".toList].length = 1 then "proxyStream".toList
              else "proxyStream-".toList ++ Nat.toDigits 10 p.1)
            Globals.default.username Globals.default.password
            Globals.default.tunnelOverHTTPPortNum Globals.default.verbosityLevel)) <+:
        (main (example_engine none) ["rtsp://a/1".toList, "rtsp://a/2".toList]).trace :=
  ⟨by decide, by decide,
    C6_cli_stream_names (example_engine none) ["rtsp://a/1".toList, "rtsp://a/2".toList]
      ["rtsp://a/1".toList, "rtsp://a/2".toList] Globals.default (by decide) (by decide)⟩

/-- Witness for C7, on the example of the specification: `-u alice secret -f file` with
the lines `foo rtsp://x/y` and `bar rtsp://x/z carol caroLpass`. -/
theorem C7_effective_credentials_witness :
    check_arguments example_args = .ok (example_globals, []) ∧
      (create_server (example_engine (some example_file)) example_globals).rtspServer = true ∧
      (main (example_engine (some example_file)) example_args).trace =
        [Event.CreateListener 554 false,
         Event.PublishSession "rtsp://x/z".toList "bar".toList (some "carol".toList)
           (some "caroLpass".toList) 0 0,
         Event.PublishSession "rtsp://x/y".toList "foo".toList (some "alice".toList)
           (some "secret".toList) 0 0,
         Event.SetUpTunneling 80, Event.SetUpTunneling 8000, Event.SetUpTunneling 8080] ∧
      ((((create_server (example_engine (some example_file)) example_globals).trace ++
            proxy_urls example_globals (([] : List Str).length + 1) 1 []) <+:
          (main (example_engine (some example_file)) example_args).trace ∧
        ∀ ev ∈ proxy_urls example_globals (([] : List Str).length + 1) 1 [], ∃ url name,
          ev = Event.PublishSession url name example_globals.username example_globals.password
            example_globals.tunnelOverHTTPPortNum example_globals.verbosityLevel) ∧
      ∀ path content reg, example_globals.streams_file_path = some path →
        (example_engine (some example_file)).open_file path = some content →
        load_streams_from_file (example_engine (some example_file)).open_file path = .ok reg →
        (main (example_engine (some example_file)) example_args).trace =
            (create_server (example_engine (some example_file)) example_globals).trace ++
              proxy_urls example_globals (([] : List Str).length + 1) 1 [] ++
              reg.map (proxy_stream example_globals) ++
              set_up_tunneling (example_engine (some example_file)) ∧
          ∀ si ∈ reg, ∃ line ∈ file_lines content, stream_info.construct line = .ok si ∧
            proxy_stream example_globals si =
              Event.PublishSession (c_str si.url) (c_str si.name)
                (if 3 ≤ (tokenize line).length then some (c_str ((tokenize line).getD 2 []))
                  else example_globals.username)
                (if 4 ≤ (tokenize line).length then some (c_str ((tokenize line).getD 3 []))
                  else example_globals.password)
                example_globals.tunnelOverHTTPPortNum example_globals.verbosityLevel) :=
  ⟨by decide, by decide, by decide,
    C7_effective_credentials (example_engine (some example_file)) example_args []
      example_globals (by decide) (by decide)⟩

/-- Witness for C8, on `-t -T 8080 rtsp://a/1`. -/
theorem C8_tcp_and_http_exclusive_witness :
    Processes ["-t".toList, "-T".toList, "8080".toList, "rtsp://a/1".toList] []
        Globals.default "-t".toList ["-T".toList, "8080".toList, "rtsp://a/1".toList] ∧
      Processes ["-t".toList, "-T".toList, "8080".toList, "rtsp://a/1".toList] ["-t".toList]
        { Globals.default with streamRTPOverTCP := true } "-T".toList
        ["8080".toList, "rtsp://a/1".toList] ∧
      ∃ f, main (example_engine none)
            ["-t".toList, "-T".toList, "8080".toList, "rtsp://a/1".toList] =
          { trace := [], outcome := .exited 1 f } ∧
        (f = .Usage ∨ f = .RegisterAuthWithoutRegister ∨ f = .BothTcpAndHttp) :=
  ⟨⟨rfl, by decide, by decide⟩, ⟨rfl, by decide, by decide⟩,
    C8_tcp_and_http_exclusive (example_engine none)
      ["-t".toList, "-T".toList, "8080".toList, "rtsp://a/1".toList]
      [] ["-T".toList, "8080".toList, "rtsp://a/1".toList]
      ["-t".toList] ["8080".toList, "rtsp://a/1".toList]
      Globals.default { Globals.default with streamRTPOverTCP := true } "-t".toList "-T".toList
      ⟨rfl, by decide, by decide⟩ (by decide) ⟨rfl, by decide, by decide⟩ (by decide)⟩

/-- C9, counterexample: in `-u -x -y rtsp://a/1` the option `-u` is processed and the two
arguments that follow it begin with `-`, yet the command line is accepted, with username
`-x` and password `-y`. -/
theorem C9_counterexample :
    Processes ["-u".toList, "-x".toList, "-y".toList, "rtsp://a/1".toList] []
        Globals.default "-u".toList ["-x".toList, "-y".toList, "rtsp://a/1".toList] ∧
      check_arguments ["-u".toList, "-x".toList, "-y".toList, "rtsp://a/1".toList] =
        .ok ({ Globals.default with username := some "-x".toList, password := some "-y".toList },
          ["rtsp://a/1".toList]) ∧
      (main (example_engine none)
          ["-u".toList, "-x".toList, "-y".toList, "rtsp://a/1".toList]).outcome = .serving :=
  ⟨⟨rfl, by decide, by decide⟩, by decide, by decide⟩

/-- Witness for C9 (as amended), on `-v -u alice secret rtsp://a/1`. -/
theorem C9_credentials_arity_witness :
    Processes ["-v".toList, "-u".toList, "alice".toList, "secret".toList, "rtsp://a/1".toList]
        ["-v".toList] { Globals.default with verbosityLevel := 1 } "-u".toList
        ["alice".toList, "secret".toList, "rtsp://a/1".toList] ∧
      scan_options Globals.default
          ["-v".toList, "-u".toList, "alice".toList, "secret".toList, "rtsp://a/1".toList] =
        scan_options
          { Globals.default with
            verbosityLevel := 1
            username := some "alice".toList
            password := some "secret".toList } ["rtsp://a/1".toList] :=
  ⟨⟨rfl, by decide, by decide⟩,
    (C9_credentials_arity (example_engine none)
      ["-v".toList, "-u".toList, "alice".toList, "secret".toList, "rtsp://a/1".toList]
      ["-v".toList] ["alice".toList, "secret".toList, "rtsp://a/1".toList]
      { Globals.default with verbosityLevel := 1 } "-u".toList
      ⟨rfl, by decide, by decide⟩).2.1 (by decide) "alice".toList "secret".toList
      ["rtsp://a/1".toList] rfl⟩

/-- C10, counterexample: in `-p 80abc rtsp://a/1` the option `-p` is followed by `80abc`,
which is not the decimal text of any integer, yet the command line is accepted, with the
RTSP port 80; and in `-p 65537 rtsp://a/1` it is followed by the decimal text of 65537, a
value above 65535, yet the command line is accepted, with the RTSP port 1. -/
theorem C10_counterexample :
    Processes ["-p".toList, "80abc".toList, "rtsp://a/1".toList] []
        Globals.default "-p".toList ["80abc".toList, "rtsp://a/1".toList] ∧
      (∀ n : Nat, Nat.toDigits 10 n ≠ "80abc".toList) ∧
      check_arguments ["-p".toList, "80abc".toList, "rtsp://a/1".toList] =
        .ok ({ Globals.default with rtspServerPortNum := 80 }, ["rtsp://a/1".toList]) ∧
      Processes ["-p".toList, "65537".toList, "rtsp://a/1".toList] []
        Globals.default "-p".toList ["65537".toList, "rtsp://a/1".toList] ∧
      Nat.toDigits 10 65537 = "65537".toList ∧
      check_arguments ["-p".toList, "65537".toList, "rtsp://a/1".toList] =
        .ok ({ Globals.default with rtspServerPortNum := 1 }, ["rtsp://a/1".toList]) := by
  refine ⟨⟨rfl, by decide, by decide⟩, ?_, by decide, ⟨rfl, by decide, by decide⟩,
    by decide, by decide⟩
  intro n hn
  obtain ⟨_, h2, _⟩ := toDigits_spec n
  have := h2 'a' (by rw [hn]; decide)
  revert this
  decide

/-- Witness for C10 (as amended), on `-p 8554 rtsp://a/1` and on
`-T 18446744073709551616x rtsp://a/1`, whose number `2^64` does not fit in an
`unsigned long`. -/
theorem C10_port_values_witness :
    Processes ["-p".toList, "8554".toList, "rtsp://a/1".toList] []
        Globals.default "-p".toList ["8554".toList, "rtsp://a/1".toList] ∧
      scan_options Globals.default ["-p".toList, "8554".toList, "rtsp://a/1".toList] =
        scan_options { Globals.default with rtspServerPortNum := 8554 } ["rtsp://a/1".toList] ∧
      Processes ["-T".toList, "18446744073709551616x".toList, "rtsp://a/1".toList] []
        Globals.default "-T".toList ["18446744073709551616x".toList, "rtsp://a/1".toList] ∧
      scan_options Globals.default
          ["-T".toList, "18446744073709551616x".toList, "rtsp://a/1".toList] =
        scan_options { Globals.default with tunnelOverHTTPPortNum := 65535 }
          ["rtsp://a/1".toList] :=
  ⟨⟨rfl, by decide, by decide⟩,
    ((C10_port_values (example_engine none)
      ["-p".toList, "8554".toList, "rtsp://a/1".toList] []
      ["8554".toList, "rtsp://a/1".toList] Globals.default "-p".toList
      ⟨rfl, by decide, by decide⟩ (Or.inl (by decide))).2.2.1 8554 ["rtsp://a/1".toList]
      (by decide) (by decide) (by decide)).1 (by decide),
    ⟨rfl, by decide, by decide⟩,
    (((C10_port_values (example_engine none)
      ["-T".toList, "18446744073709551616x".toList, "rtsp://a/1".toList] []
      ["18446744073709551616x".toList, "rtsp://a/1".toList] Globals.default "-T".toList
      ⟨rfl, by decide, by decide⟩ (Or.inr (by decide))).2.2.2.2
      18446744073709551616 "x".toList ["rtsp://a/1".toList]
      (by decide) (by decide)).2 (by decide)).2 (by decide)⟩

/-! ### Flag groups and the scan -/

theorem case_T_port (g : Globals) (a : Str) (rest : List Str) :
    case_T g ([a] ++ rest) =
      match (port_value a).map Setting.tunnel with
      | some s => .next (s.apply g) rest
      | none => .fail := by
  unfold case_T port_value
  simp only [List.singleton_append]
  by_cases h1 : a.head? ≠ some '-'
  · rw [if_pos h1, if_pos h1]
    cases sscanf_hu a with
    | none => rfl
    | some v =>
      simp only
      by_cases h2 : v > 0
      · rw [if_pos h2, if_pos h2]; rfl
      · rw [if_neg h2, if_neg h2]; rfl
  · rw [if_neg h1, if_neg h1]; rfl

theorem case_p_port (g : Globals) (a : Str) (rest : List Str) :
    case_p g ([a] ++ rest) =
      match (port_value a).map Setting.rtspPort with
      | some s => .next (s.apply g) rest
      | none => .fail := by
  unfold case_p port_value
  simp only [List.singleton_append]
  by_cases h1 : a.head? ≠ some '-'
  · rw [if_pos h1, if_pos h1]
    cases sscanf_hu a with
    | none => rfl
    | some v =>
      simp only
      by_cases h2 : v > 0
      · rw [if_pos h2, if_pos h2]; rfl
      · rw [if_neg h2, if_neg h2]; rfl
  · rw [if_neg h1, if_neg h1]; rfl

theorem scan_step_flag_setting (g : Globals) (opt : Str) (vals rest : List Str)
    (hd : opt.head? = some '-') (hlen : vals.length = flag_arity opt) :
    scan_step g opt (vals ++ rest) =
      match flag_setting opt vals with
      | some s => .next (s.apply g) rest
      | none => .fail := by
  unfold scan_step flag_setting
  rw [if_neg (not_not.2 hd)]
  by_cases h1 : option_letter opt = 'v'
  · have ha : flag_arity opt = 0 := by
      rw [flag_arity, h1]; decide
    rw [ha] at hlen
    rw [if_pos h1, if_pos h1]
    rw [List.length_eq_zero.1 hlen]
    rfl
  rw [if_neg h1, if_neg h1]
  by_cases h2 : option_letter opt = 'V'
  · have ha : flag_arity opt = 0 := by
      rw [flag_arity, h2]; decide
    rw [ha] at hlen
    rw [if_pos h2, if_pos h2]
    rw [List.length_eq_zero.1 hlen]
    rfl
  rw [if_neg h2, if_neg h2]
  by_cases h3 : option_letter opt = 't'
  · have ha : flag_arity opt = 0 := by
      rw [flag_arity, h3]; decide
    rw [ha] at hlen
    rw [if_pos h3, if_pos h3]
    rw [List.length_eq_zero.1 hlen]
    rfl
  rw [if_neg h3, if_neg h3]
  by_cases h4 : option_letter opt = 'T'
  · have ha : flag_arity opt = 1 := by
      rw [flag_arity, h4]; decide
    rw [ha] at hlen
    rw [if_pos h4, if_pos h4]
    obtain ⟨a, rfl⟩ := List.length_eq_one.1 hlen
    exact case_T_port g a rest
  rw [if_neg h4, if_neg h4]
  by_cases h5 : option_letter opt = 'p'
  · have ha : flag_arity opt = 1 := by
      rw [flag_arity, h5]; decide
    rw [ha] at hlen
    rw [if_pos h5, if_pos h5]
    obtain ⟨a, rfl⟩ := List.length_eq_one.1 hlen
    exact case_p_port g a rest
  rw [if_neg h5, if_neg h5]
  by_cases h6 : option_letter opt = 'u'
  · have ha : flag_arity opt = 2 := by
      rw [flag_arity, h6]; decide
    rw [ha] at hlen
    rw [if_pos h6, if_pos h6]
    obtain ⟨a, b, rfl⟩ := List.length_eq_two.1 hlen
    rfl
  rw [if_neg h6, if_neg h6]
  by_cases h7 : option_letter opt = 'U'
  · have ha : flag_arity opt = 2 := by
      rw [flag_arity, h7]; decide
    rw [ha] at hlen
    rw [if_pos h7, if_pos h7]
    obtain ⟨a, b, rfl⟩ := List.length_eq_two.1 hlen
    rfl
  rw [if_neg h7, if_neg h7]
  by_cases h8 : option_letter opt = 'R'
  · have ha : flag_arity opt = 0 := by
      rw [flag_arity, h8]; decide
    rw [ha] at hlen
    rw [if_pos h8, if_pos h8]
    rw [List.length_eq_zero.1 hlen]
    rfl
  rw [if_neg h8, if_neg h8]
  by_cases h9 : option_letter opt = 'f'
  · have ha : flag_arity opt = 1 := by
      rw [flag_arity, h9]; decide
    rw [ha] at hlen
    rw [if_pos h9, if_pos h9]
    obtain ⟨a, rfl⟩ := List.length_eq_one.1 hlen
    rfl
  rw [if_neg h9, if_neg h9]

theorem scan_step_consumed {g g1 : Globals} {opt : Str} {rest rest1 : List Str}
    (h : scan_step g opt rest = .next g1 rest1) :
    ∃ vals, rest = vals ++ rest1 ∧ vals.length = flag_arity opt := by
  have hl : ∀ c : Char, option_letter opt = c → flag_arity opt =
      (if c = 'T' ∨ c = 'p' ∨ c = 'f' then 1 else if c = 'u' ∨ c = 'U' then 2 else 0) := by
    intro c hc; rw [flag_arity, hc]
  rcases (scan_step_next h).2 with c | c | c | c | c | c | c | c | c
  · exact ⟨[], by rw [c.2.2]; rfl, by rw [hl _ c.1]; decide⟩
  · exact ⟨[], by rw [c.2.2]; rfl, by rw [hl _ c.1]; decide⟩
  · exact ⟨[], by rw [c.2.2]; rfl, by rw [hl _ c.1]; decide⟩
  · obtain ⟨a, v, h1, _⟩ := case_T_next c.2
    exact ⟨[a], by rw [h1]; rfl, by rw [hl _ c.1]; rfl⟩
  · obtain ⟨a, v, h1, _⟩ := case_p_next c.2
    exact ⟨[a], by rw [h1]; rfl, by rw [hl _ c.1]; rfl⟩
  · obtain ⟨a, b, h1, _⟩ := case_u_next c.2
    exact ⟨[a, b], by rw [h1]; rfl, by rw [hl _ c.1]; rfl⟩
  · obtain ⟨a, b, h1, _⟩ := case_U_next c.2
    exact ⟨[a, b], by rw [h1]; rfl, by rw [hl _ c.1]; rfl⟩
  · exact ⟨[], by rw [c.2.2]; rfl, by rw [hl _ c.1]; decide⟩
  · obtain ⟨a, h1, _⟩ := case_f_next c.2
    exact ⟨[a], by rw [h1]; rfl, by rw [hl _ c.1]; rfl⟩

theorem scan_step_setting {g g1 : Globals} {opt : Str} {rest rest1 : List Str}
    (h : scan_step g opt rest = .next g1 rest1) :
    ∃ vals s, rest = vals ++ rest1 ∧ vals.length = flag_arity opt ∧ opt.head? = some '-' ∧
      flag_setting opt vals = some s ∧ g1 = s.apply g := by
  obtain ⟨vals, h1, h2⟩ := scan_step_consumed h
  have hd := (scan_step_next h).1
  have h3 := scan_step_flag_setting g opt vals rest1 hd h2
  rw [← h1, h] at h3
  cases hs : flag_setting opt vals with
  | none => rw [hs] at h3; cases h3
  | some s =>
    rw [hs] at h3
    simp only [Step.next.injEq] at h3
    exact ⟨vals, s, h1, h2, hd, hs, h3.1⟩

theorem scan_step_stop {g : Globals} {opt : Str} {rest : List Str} :
    scan_step g opt rest = .stop ↔ opt.head? ≠ some '-' := by
  constructor
  · intro h hd
    refine absurd h ?_
    unfold scan_step
    rw [if_neg (not_not.2 hd)]
    by_cases h1 : option_letter opt = 'v'
    · rw [if_pos h1]; intro x; cases x
    rw [if_neg h1]
    by_cases h2 : option_letter opt = 'V'
    · rw [if_pos h2]; intro x; cases x
    rw [if_neg h2]
    by_cases h3 : option_letter opt = 't'
    · rw [if_pos h3]; intro x; cases x
    rw [if_neg h3]
    by_cases h4 : option_letter opt = 'T'
    · rw [if_pos h4]; exact case_T_ne_stop g rest
    rw [if_neg h4]
    by_cases h5 : option_letter opt = 'p'
    · rw [if_pos h5]
      unfold case_p
      rcases rest with _ | ⟨a, r⟩
      · intro x; cases x
      · simp only
        by_cases h1 : a.head? ≠ some '-'
        · rw [if_pos h1]
          cases hv : sscanf_hu a with
          | none => intro x; cases x
          | some v =>
            simp only
            by_cases h2 : v > 0
            · rw [if_pos h2]; intro x; cases x
            · rw [if_neg h2]; intro x; cases x
        · rw [if_neg h1]; intro x; cases x
    rw [if_neg h5]
    by_cases h6 : option_letter opt = 'u'
    · rw [if_pos h6]
      rcases rest with _ | ⟨a, _ | ⟨b, r⟩⟩ <;> (intro x; cases x)
    rw [if_neg h6]
    by_cases h7 : option_letter opt = 'U'
    · rw [if_pos h7]
      rcases rest with _ | ⟨a, _ | ⟨b, r⟩⟩ <;> (intro x; cases x)
    rw [if_neg h7]
    by_cases h8 : option_letter opt = 'R'
    · rw [if_pos h8]; intro x; cases x
    rw [if_neg h8]
    by_cases h9 : option_letter opt = 'f'
    · rw [if_pos h9]
      rcases rest with _ | ⟨a, r⟩ <;> (intro x; cases x)
    rw [if_neg h9]
    intro x; cases x
  · intro hd
    unfold scan_step
    rw [if_pos hd]

theorem check_arguments_eq (args : List Str) :
    check_arguments args = check_scanned (scan_options Globals.default args) := by
  unfold check_arguments check_scanned
  by_cases h : args = []
  · subst h
    rfl
  · rw [if_neg h]

theorem scan_options_groups : ∀ (groups : List (List Str)),
    (∀ grp ∈ groups, IsFlagGroup grp) → ∀ (g : Globals) (urls : List Str), StopsScan urls →
    scan_options g (groups.flatten ++ urls) =
      match apply_groups groups g with
      | none => .error .Usage
      | some gf => .ok (gf, urls)
  | [], _, g, urls, hu => by
    simp only [List.flatten, List.nil_append, apply_groups]
    rcases urls with _ | ⟨u, r⟩
    · rfl
    · rw [scan_options_cons, scan_step_stop.2 (hu u rfl)]
  | grp :: more, hg, g, urls, hu => by
    obtain ⟨opt, vals, h1, h2, h3⟩ := hg grp (by simp)
    subst h1
    have ih := fun g1 => scan_options_groups more (fun x hx => hg x (by simp [hx])) g1 urls hu
    simp only [List.flatten, List.cons_append, List.append_assoc, apply_groups, group_setting]
    rw [scan_options_cons, scan_step_flag_setting g opt vals _ h2 h3]
    cases flag_setting opt vals with
    | none => rfl
    | some s => exact ih (s.apply g)

theorem flag_setting_key {opt : Str} {vals : List Str} {s : Setting}
    (h : flag_setting opt vals = some s) : s.key = group_key (opt :: vals) := by
  unfold flag_setting at h
  show s.key = (if option_letter opt = 'V' then 'v' else option_letter opt)
  by_cases h1 : option_letter opt = 'v'
  · rw [if_pos h1] at h; cases h; rw [h1]; rfl
  rw [if_neg h1] at h
  by_cases h2 : option_letter opt = 'V'
  · rw [if_pos h2] at h; cases h; rw [h2]; rfl
  rw [if_neg h2] at h
  rw [if_neg h2]
  by_cases h3 : option_letter opt = 't'
  · rw [if_pos h3] at h; cases h; rw [h3]; rfl
  rw [if_neg h3] at h
  by_cases h4 : option_letter opt = 'T'
  · rw [if_pos h4] at h
    rcases vals with _ | ⟨a, r⟩
    · cases h
    · simp only [Option.map_eq_some'] at h
      obtain ⟨v, _, hv⟩ := h
      rw [← hv, h4]; rfl
  rw [if_neg h4] at h
  by_cases h5 : option_letter opt = 'p'
  · rw [if_pos h5] at h
    rcases vals with _ | ⟨a, r⟩
    · cases h
    · simp only [Option.map_eq_some'] at h
      obtain ⟨v, _, hv⟩ := h
      rw [← hv, h5]; rfl
  rw [if_neg h5] at h
  by_cases h6 : option_letter opt = 'u'
  · rw [if_pos h6] at h
    rcases vals with _ | ⟨a, _ | ⟨b, r⟩⟩
    · cases h
    · cases h
    · cases h; rw [h6]; rfl
  rw [if_neg h6] at h
  by_cases h7 : option_letter opt = 'U'
  · rw [if_pos h7] at h
    rcases vals with _ | ⟨a, _ | ⟨b, r⟩⟩
    · cases h
    · cases h
    · cases h; rw [h7]; rfl
  rw [if_neg h7] at h
  by_cases h8 : option_letter opt = 'R'
  · rw [if_pos h8] at h; cases h; rw [h8]; rfl
  rw [if_neg h8] at h
  by_cases h9 : option_letter opt = 'f'
  · rw [if_pos h9] at h
    rcases vals with _ | ⟨a, r⟩
    · cases h
    · cases h; rw [h9]; rfl
  rw [if_neg h9] at h
  cases h

theorem group_setting_key {grp : List Str} {s : Setting} (h : group_setting grp = some s) :
    s.key = group_key grp := by
  rcases grp with _ | ⟨opt, vals⟩
  · cases h
  · exact flag_setting_key h

theorem setting_apply_comm {s t : Setting} (h : s.key ≠ t.key) (g : Globals) :
    t.apply (s.apply g) = s.apply (t.apply g) := by
  cases s <;> cases t <;> first | rfl | exact absurd rfl h

theorem apply_groups_foldl : ∀ (groups : List (List Str)) (g : Option Globals),
    groups.foldl (fun acc grp => acc.bind (fun g1 => (group_setting grp).map
      (fun s => s.apply g1))) g = g.bind (apply_groups groups)
  | [], g => by cases g <;> rfl
  | grp :: more, g => by
    rw [List.foldl_cons, apply_groups_foldl more]
    cases g with
    | none => rfl
    | some g1 =>
      simp only [Option.some_bind, apply_groups]
      cases group_setting grp <;> rfl

theorem apply_groups_compatible {groups1 groups2 : List (List Str)} (hp : groups1.Perm groups2)
    (hk : groups1.Pairwise Compatible) (g : Globals) :
    apply_groups groups1 g = apply_groups groups2 g := by
  have hall : ∀ x ∈ groups1, ∀ y ∈ groups1, Compatible x y := by
    apply List.Pairwise.forall_of_forall
    · intro x y hxy
      rcases hxy with hxy | hxy
      · exact Or.inl (Ne.symm hxy)
      · exact Or.inr hxy.symm
    · intro x _; exact Or.inr rfl
    · exact hk
  have h := List.Perm.foldl_eq' (f := fun (acc : Option Globals) (grp : List Str) =>
      acc.bind (fun g1 => (group_setting grp).map (fun s => s.apply g1))) hp
    (by
      intro x hx y hy z
      cases z with
      | none => rfl
      | some g1 =>
        rcases hall x hx y hy with hxy | hxy
        · simp only [Option.some_bind]
          cases hsx : group_setting x with
          | none => cases group_setting y <;> rfl
          | some s =>
            cases hsy : group_setting y with
            | none => rfl
            | some t =>
              simp only [Option.map_some', Option.some_bind, Option.some.injEq]
              exact setting_apply_comm
                (by rw [group_setting_key hsx, group_setting_key hsy]; exact hxy) g1
        · simp only [Option.some_bind, hxy])
    (some g)
  rw [apply_groups_foldl, apply_groups_foldl] at h
  exact h

theorem apply_groups_rejected : ∀ (groups : List (List Str)) (g : Globals),
    (∃ grp ∈ groups, group_setting grp = none) → apply_groups groups g = none
  | [], _, h => by
    obtain ⟨grp, hmem, _⟩ := h
    cases hmem
  | x :: more, g, h => by
    simp only [apply_groups]
    cases hx : group_setting x with
    | none => rfl
    | some s =>
      obtain ⟨grp, hmem, hn⟩ := h
      rcases List.mem_cons.1 hmem with hmem | hmem
      · rw [hmem, hx] at hn; cases hn
      · exact apply_groups_rejected more _ ⟨grp, hmem, hn⟩

theorem apply_groups_accepted : ∀ (groups : List (List Str)) (g : Globals),
    (∀ grp ∈ groups, group_setting grp ≠ none) → ∃ gf, apply_groups groups g = some gf
  | [], g, _ => ⟨g, rfl⟩
  | x :: more, g, h => by
    simp only [apply_groups]
    cases hx : group_setting x with
    | none => exact absurd hx (h x (by simp))
    | some s => exact apply_groups_accepted more _ (fun grp hgrp => h grp (by simp [hgrp]))

theorem apply_groups_append : ∀ (a b : List (List Str)) (g : Globals),
    apply_groups (a ++ b) g = (apply_groups a g).bind (apply_groups b)
  | [], _, _ => rfl
  | x :: more, b, g => by
    simp only [List.cons_append, apply_groups]
    cases group_setting x with
    | none => rfl
    | some s => exact apply_groups_append more b _

theorem setting_apply_ne {s t : Setting} (hk : s.key = t.key) (hne : s ≠ t) (g1 g2 : Globals) :
    s.apply g1 ≠ t.apply g2 := by
  intro h
  apply hne
  cases s <;> cases t <;> first
    | rfl
    | (exfalso
       revert hk
       simp only [Setting.key]
       decide)
    | (have h1 := congrArg Globals.verbosityLevel h
       simp only [Setting.apply] at h1
       rw [h1])
    | (have h1 := congrArg Globals.tunnelOverHTTPPortNum h
       simp only [Setting.apply] at h1
       rw [h1])
    | (have h1 := congrArg Globals.rtspServerPortNum h
       simp only [Setting.apply] at h1
       rw [h1])
    | (have h1 := congrArg Globals.username h
       have h2 := congrArg Globals.password h
       simp only [Setting.apply, Option.some.injEq] at h1 h2
       rw [h1, h2])
    | (have h1 := congrArg Globals.usernameForREGISTER h
       have h2 := congrArg Globals.passwordForREGISTER h
       simp only [Setting.apply, Option.some.injEq] at h1 h2
       rw [h1, h2])
    | (have h1 := congrArg Globals.streams_file_path h
       simp only [Setting.apply, Option.some.injEq] at h1
       rw [h1])

theorem apply_groups_last {groups : List (List Str)} {x : List Str} {s : Setting}
    (hv : ∀ grp ∈ groups, group_setting grp ≠ none) (hx : x ∈ groups)
    (hs : group_setting x = some s) (g : Globals) :
    ∃ groups2 g1, groups.Perm groups2 ∧ apply_groups groups2 g = some (s.apply g1) := by
  obtain ⟨l, r, hlr⟩ := List.append_of_mem hx
  subst hlr
  obtain ⟨g1, h1⟩ := apply_groups_accepted (l ++ r) g
    (fun grp hgrp => hv grp (by
      rcases List.mem_append.1 hgrp with h | h
      · exact List.mem_append_left _ h
      · exact List.mem_append_right _ (List.mem_cons_of_mem _ h)))
  refine ⟨l ++ r ++ [x], g1, ?_, ?_⟩
  · exact List.perm_middle.trans (List.perm_append_singleton x _).symm
  · rw [apply_groups_append, h1]
    simp only [Option.some_bind, apply_groups, hs]

theorem apply_groups_conflict {groups : List (List Str)}
    (hv : ∀ grp ∈ groups, group_setting grp ≠ none) (hk : ¬ groups.Pairwise Compatible)
    (g : Globals) :
    ∃ groups2, groups.Perm groups2 ∧ apply_groups groups g ≠ apply_groups groups2 g := by
  rw [List.pairwise_iff_forall_sublist] at hk
  push_neg at hk
  obtain ⟨x, y, hsub, hxy⟩ := hk
  have hx : x ∈ groups := hsub.subset (by simp)
  have hy : y ∈ groups := hsub.subset (by simp)
  unfold Compatible at hxy
  push_neg at hxy
  obtain ⟨hkey, hset⟩ := hxy
  cases hsx : group_setting x with
  | none => exact absurd hsx (hv x hx)
  | some s =>
    cases hsy : group_setting y with
    | none => exact absurd hsy (hv y hy)
    | some t =>
      obtain ⟨gx, g1, hpx, hax⟩ := apply_groups_last hv hx hsx g
      obtain ⟨gy, g2, hpy, hay⟩ := apply_groups_last hv hy hsy g
      have hne : s.apply g1 ≠ t.apply g2 :=
        setting_apply_ne
          (by rw [group_setting_key hsx, group_setting_key hsy]; exact hkey)
          (by
            intro hst
            apply hset
            rw [hsx, hsy, hst]) g1 g2
      by_cases h : apply_groups groups g = apply_groups gx g
      · refine ⟨gy, hpy, ?_⟩
        rw [h, hax, hay]
        intro h2
        exact hne (Option.some.inj h2)
      · exact ⟨gx, hpx, h⟩

/-- C11 (as amended): for every list of flag groups followed by positional URLs: if one of
the groups is rejected, or if every two of the groups either write different parts of the
configuration or write the same setting, then the checking of the command line gives the same
outcome (the same failure, or the same globals and URLs) for every permutation of the groups;
otherwise (every group is accepted and two of them write different settings to the same part
of the configuration, `-v` and `-V` writing the same part) there is a permutation of the
groups for which the flag scan gives a different result. -/
theorem C11_flag_order_independent (groups1 : List (List Str)) (urls : List Str)
    (hg : ∀ grp ∈ groups1, IsFlagGroup grp) (hu : StopsScan urls) :
    (((∃ grp ∈ groups1, group_setting grp = none) ∨ groups1.Pairwise Compatible) →
        ∀ groups2, groups1.Perm groups2 →
          check_arguments (groups1.flatten ++ urls) =
            check_arguments (groups2.flatten ++ urls)) ∧
      (¬ ((∃ grp ∈ groups1, group_setting grp = none) ∨ groups1.Pairwise Compatible) →
        ∃ groups2, groups1.Perm groups2 ∧
          scan_options Globals.default (groups1.flatten ++ urls) ≠
            scan_options Globals.default (groups2.flatten ++ urls)) := by
  constructor
  · intro h groups2 hp
    rw [check_arguments_eq, check_arguments_eq,
      scan_options_groups groups1 hg _ urls hu,
      scan_options_groups groups2 (fun x hx => hg x (hp.mem_iff.2 hx)) _ urls hu]
    rcases h with ⟨grp, hmem, hn⟩ | hk
    · rw [apply_groups_rejected groups1 _ ⟨grp, hmem, hn⟩,
        apply_groups_rejected groups2 _ ⟨grp, hp.mem_iff.1 hmem, hn⟩]
    · rw [apply_groups_compatible hp hk]
  · intro h
    push_neg at h
    obtain ⟨hv, hk⟩ := h
    obtain ⟨groups2, hp, hne⟩ := apply_groups_conflict hv hk Globals.default
    refine ⟨groups2, hp, ?_⟩
    rw [scan_options_groups groups1 hg _ urls hu,
      scan_options_groups groups2 (fun x hx => hg x (hp.mem_iff.2 hx)) _ urls hu]
    obtain ⟨ga, ha⟩ := apply_groups_accepted groups1 Globals.default hv
    obtain ⟨gb, hb⟩ := apply_groups_accepted groups2 Globals.default
      (fun grp hgrp => hv grp (hp.mem_iff.2 hgrp))
    rw [ha, hb] at hne ⊢
    simp only [ne_eq, Except.ok.injEq, Prod.mk.injEq, and_true]
    intro hab
    exact hne (by rw [hab])

theorem scan_step_letter (g : Globals) {opt opt2 : Str} (rest : List Str)
    (hd : opt.head? = some '-') (hd2 : opt2.head? = some '-')
    (hl : option_letter opt2 = option_letter opt) :
    scan_step g opt2 rest = scan_step g opt rest := by
  unfold scan_step
  rw [if_neg (not_not.2 hd), if_neg (not_not.2 hd2), hl]

theorem scan_step_unknown (g : Globals) {opt : Str} (rest : List Str)
    (hd : opt.head? = some '-') (hl : option_letter opt ∉ "vVtTpuRUf".toList) :
    scan_step g opt rest = .fail := by
  have hne : ∀ c : Char, c ∈ "vVtTpuRUf".toList → option_letter opt ≠ c :=
    fun c hc h => hl (by rw [h]; exact hc)
  unfold scan_step
  rw [if_neg (not_not.2 hd), if_neg (hne 'v' (by decide)), if_neg (hne 'V' (by decide)),
    if_neg (hne 't' (by decide)), if_neg (hne 'T' (by decide)), if_neg (hne 'p' (by decide)),
    if_neg (hne 'u' (by decide)), if_neg (hne 'U' (by decide)), if_neg (hne 'R' (by decide)),
    if_neg (hne 'f' (by decide))]

/-- C12 (as amended): when the flag scan reaches a token that begins with `-` and whose
second character is not one of the letters `v V t T p u R U f` (this includes the token `-`
alone), the command line is rejected with `usage()` and `exit(1)`, no call to the engine
being made; a token that begins with `-` is treated according to its second character
only, whatever follows that character. -/
theorem C12_unknown_letter_rejected (e : Engine) (args before after : List Str) (g : Globals)
    (opt : Str) (hp : Processes args before g opt after) :
    (option_letter opt ∉ "vVtTpuRUf".toList →
        main e args = { trace := [], outcome := .exited 1 .Usage }) ∧
      ∀ opt2 : Str, opt2.head? = some '-' → option_letter opt2 = option_letter opt →
        scan_step g opt2 after = scan_step g opt after :=
  ⟨fun hl => main_scan_fail hp (scan_step_unknown g after hp.2.2 hl),
    fun _ hd2 hl => scan_step_letter g after hp.2.2 hd2 hl⟩

/-! ### Which options the scan processes -/

theorem processesFrom_here (g0 : Globals) {opt : Str} (rest : List Str)
    (hd : opt.head? = some '-') : ProcessesFrom g0 (opt :: rest) [] g0 opt rest :=
  ⟨rfl, rfl, hd⟩

theorem processesFrom_cons {g0 g1 g : Globals} {opt0 opt : Str}
    {rest0 rest1 before after : List Str} (hs : scan_step g0 opt0 rest0 = .next g1 rest1)
    (hp : ProcessesFrom g1 rest1 before g opt after) :
    ∃ vals, rest0 = vals ++ rest1 ∧
      ProcessesFrom g0 (opt0 :: rest0) (opt0 :: (vals ++ before)) g opt after := by
  obtain ⟨vals, s, h1, h2, h3, h4, h5⟩ := scan_step_setting hs
  refine ⟨vals, h1, ?_, ?_, hp.2.2⟩
  · rw [h1, hp.1]
    simp
  · rw [scan_options_cons, scan_step_flag_setting g0 opt0 vals before h3 h2, h4]
    simp only
    rw [← h5]
    exact hp.2.1

theorem scan_origin (P : Globals → Prop) (c : Char)
    (hstep : ∀ g opt rest g1 rest1, scan_step g opt rest = .next g1 rest1 → P g1 →
      P g ∨ option_letter opt = c) :
    ∀ (n : Nat) (args : List Str), args.length ≤ n → ∀ (g0 gf : Globals) (left : List Str),
      scan_options g0 args = .ok (gf, left) → P gf →
      P g0 ∨ ∃ before g opt after, ProcessesFrom g0 args before g opt after ∧
        option_letter opt = c := by
  intro n
  induction n with
  | zero =>
    intro args hlen g0 gf left h hP
    have : args = [] := by simpa using hlen
    subst this
    rw [scan_options_nil] at h
    simp only [Except.ok.injEq, Prod.mk.injEq] at h
    rw [h.1]; exact Or.inl hP
  | succ n ih =>
    intro args hlen g0 gf left h hP
    rcases args with _ | ⟨opt, rest⟩
    · rw [scan_options_nil] at h
      simp only [Except.ok.injEq, Prod.mk.injEq] at h
      rw [h.1]; exact Or.inl hP
    · rw [scan_options_cons] at h
      cases hs : scan_step g0 opt rest with
      | stop =>
        simp only [hs, Except.ok.injEq, Prod.mk.injEq] at h
        rw [h.1]; exact Or.inl hP
      | fail => simp only [hs] at h; cases h
      | next g1 rest1 =>
        simp only [hs] at h
        have hl := scan_step_length hs
        simp only [List.length_cons] at hlen
        rcases ih rest1 (by omega) g1 gf left h hP with h1 | ⟨before, g, o, after, hp, hc⟩
        · rcases hstep _ _ _ _ _ hs h1 with h2 | h2
          · exact Or.inl h2
          · exact Or.inr ⟨[], g0, opt, rest, processesFrom_here g0 rest (scan_step_next hs).1, h2⟩
        · obtain ⟨vals, _, hp2⟩ := processesFrom_cons hs hp
          exact Or.inr ⟨_, g, o, after, hp2, hc⟩

theorem scan_preserve (P : Globals → Prop)
    (hstep : ∀ g opt rest g1 rest1, scan_step g opt rest = .next g1 rest1 → P g → P g1) :
    ∀ (n : Nat) (args : List Str), args.length ≤ n → ∀ (g0 gf : Globals) (left : List Str),
      scan_options g0 args = .ok (gf, left) → P g0 → P gf := by
  intro n
  induction n with
  | zero =>
    intro args hlen g0 gf left h hP
    have : args = [] := by simpa using hlen
    subst this
    rw [scan_options_nil] at h
    simp only [Except.ok.injEq, Prod.mk.injEq] at h
    rw [← h.1]; exact hP
  | succ n ih =>
    intro args hlen g0 gf left h hP
    rcases args with _ | ⟨opt, rest⟩
    · rw [scan_options_nil] at h
      simp only [Except.ok.injEq, Prod.mk.injEq] at h
      rw [← h.1]; exact hP
    · rw [scan_options_cons] at h
      cases hs : scan_step g0 opt rest with
      | stop =>
        simp only [hs, Except.ok.injEq, Prod.mk.injEq] at h
        rw [← h.1]; exact hP
      | fail => simp only [hs] at h; cases h
      | next g1 rest1 =>
        simp only [hs] at h
        have hl := scan_step_length hs
        simp only [List.length_cons] at hlen
        exact ih rest1 (by omega) g1 gf left h (hstep _ _ _ _ _ hs hP)

theorem flag_setting_letter {opt : Str} {vals : List Str} {s : Setting}
    (h : flag_setting opt vals = some s) (c : Char) (hc : c ≠ 'v') (hk : s.key = c) :
    option_letter opt = c := by
  have h1 := flag_setting_key h
  rw [hk] at h1
  change c = (if option_letter opt = 'V' then 'v' else option_letter opt) at h1
  by_cases h2 : option_letter opt = 'V'
  · rw [if_pos h2] at h1; exact absurd h1 hc
  · rw [if_neg h2] at h1; exact h1.symm

theorem scan_keep (P : Globals → Prop) (c : Char)
    (hstep : ∀ g opt rest g1 rest1, scan_step g opt rest = .next g1 rest1 → P g →
      P g1 ∨ option_letter opt = c)
    (args : List Str) (g0 gf : Globals) (left : List Str)
    (h : scan_options g0 args = .ok (gf, left)) (hP : P g0) :
    P gf ∨ ∃ before g opt after, ProcessesFrom g0 args before g opt after ∧
      option_letter opt = c := by
  by_contra hcon
  rw [not_or] at hcon
  have := scan_origin (fun g => ¬ P g) c
    (by
      intro g opt rest g1 rest1 hs hn
      by_cases hg : P g
      · rcases hstep g opt rest g1 rest1 hs hg with h1 | h1
        · exact absurd h1 hn
        · exact Or.inr h1
      · exact Or.inl hg)
    args.length args (le_refl _) g0 gf left h hcon.1
  rcases this with h1 | h1
  · exact h1 hP
  · exact hcon.2 h1

theorem processesFrom_append {g0 g g3 : Globals} {before args before3 after3 : List Str}
    {opt3 : Str} (hb : scan_options g0 before = .ok (g, []))
    (hp : ProcessesFrom g args before3 g3 opt3 after3) :
    ProcessesFrom g0 (before ++ args) (before ++ before3) g3 opt3 after3 := by
  refine ⟨?_, ?_, hp.2.2⟩
  · rw [hp.1]; simp
  · rw [scan_options_append _ before (le_refl _) g0 g before3 hb]
    exact hp.2.1

theorem processes_iff (args before : List Str) (g : Globals) (opt : Str) (after : List Str) :
    Processes args before g opt after ↔
      ProcessesFrom Globals.default args before g opt after := Iff.rfl

theorem processes_later {args before after rest1 before3 after3 : List Str}
    {g g1 g3 : Globals} {opt opt3 : Str} (hp : Processes args before g opt after)
    (hs : scan_step g opt after = .next g1 rest1)
    (hp3 : ProcessesFrom g1 rest1 before3 g3 opt3 after3) :
    ∃ before2, Processes args before2 g3 opt3 after3 ∧ before.length < before2.length := by
  obtain ⟨vals, _, h2⟩ := processesFrom_cons hs hp3
  have h3 := processesFrom_append hp.2.1 h2
  rw [← hp.1] at h3
  exact ⟨_, h3, by simp⟩

theorem check_arguments_ok {args urls : List Str} {gf : Globals}
    (h : check_arguments args = .ok (gf, urls)) :
    ∃ g, scan_options Globals.default args = .ok (g, urls) ∧
      (gf = g ∨ gf = { g with tunnelOverHTTPPortNum := 2 ^ 16 - 1 }) ∧
      ¬ (urls = [] ∧ g.proxyREGISTERRequests = false ∧ g.streams_file_path = none) ∧
      urls.all (fun u => "rtsp://".toList.isPrefixOf u) = true ∧
      ¬ (g.authDBForREGISTER ≠ none ∧ g.proxyREGISTERRequests = false) := by
  rw [check_arguments_eq] at h
  unfold check_scanned at h
  cases hs : scan_options Globals.default args with
  | error f => rw [hs] at h; cases h
  | ok p =>
    obtain ⟨g, left⟩ := p
    rw [hs] at h
    simp only at h
    by_cases h1 : left = [] ∧ g.proxyREGISTERRequests = false ∧ g.streams_file_path = none
    · rw [if_pos h1] at h; cases h
    rw [if_neg h1] at h
    by_cases h2 : left.all (fun u => "rtsp://".toList.isPrefixOf u) = false
    · rw [if_pos h2] at h; cases h
    rw [if_neg h2] at h
    by_cases h3 : g.authDBForREGISTER ≠ none ∧ g.proxyREGISTERRequests = false
    · rw [if_pos h3] at h; cases h
    rw [if_neg h3] at h
    have h2b : left.all (fun u => "rtsp://".toList.isPrefixOf u) = true := by
      cases hb : left.all (fun u => "rtsp://".toList.isPrefixOf u) with
      | false => exact absurd hb h2
      | true => rfl
    by_cases h4 : g.streamRTPOverTCP = true
    · rw [if_pos h4] at h
      by_cases h5 : g.tunnelOverHTTPPortNum > 0
      · rw [if_pos h5] at h; cases h
      · rw [if_neg h5] at h
        simp only [Except.ok.injEq, Prod.mk.injEq] at h
        rw [← h.2]
        exact ⟨g, rfl, Or.inr h.1.symm, h1, h2b, h3⟩
    · rw [if_neg h4] at h
      simp only [Except.ok.injEq, Prod.mk.injEq] at h
      rw [← h.2]
      exact ⟨g, rfl, Or.inl h.1.symm, h1, h2b, h3⟩

theorem check_arguments_register {args : List Str}
    (h : check_arguments args = .error .RegisterAuthWithoutRegister) :
    ∃ g urls, scan_options Globals.default args = .ok (g, urls) ∧
      g.proxyREGISTERRequests = false := by
  rw [check_arguments_eq] at h
  unfold check_scanned at h
  cases hs : scan_options Globals.default args with
  | error f =>
    have := scan_options_error _ args (le_refl _) _ f hs
    rw [hs, this] at h; cases h
  | ok p =>
    obtain ⟨g, left⟩ := p
    rw [hs] at h
    simp only at h
    by_cases h1 : left = [] ∧ g.proxyREGISTERRequests = false ∧ g.streams_file_path = none
    · rw [if_pos h1] at h; cases h
    rw [if_neg h1] at h
    by_cases h2 : left.all (fun u => "rtsp://".toList.isPrefixOf u) = false
    · rw [if_pos h2] at h; cases h
    rw [if_neg h2] at h
    by_cases h3 : g.authDBForREGISTER ≠ none ∧ g.proxyREGISTERRequests = false
    · exact ⟨g, left, rfl, h3.2⟩
    rw [if_neg h3] at h
    by_cases h4 : g.streamRTPOverTCP = true
    · rw [if_pos h4] at h
      by_cases h5 : g.tunnelOverHTTPPortNum > 0
      · rw [if_pos h5] at h; cases h
      · rw [if_neg h5] at h; cases h
    · rw [if_neg h4] at h; cases h

theorem check_scanned_register (g : Globals) (left : List Str)
    (h1 : g.authDBForREGISTER ≠ none) (h2 : g.proxyREGISTERRequests = false) :
    check_scanned (.ok (g, left)) = .error .Usage ∨
      check_scanned (.ok (g, left)) = .error .RegisterAuthWithoutRegister := by
  unfold check_scanned
  simp only
  by_cases h3 : left = [] ∧ g.proxyREGISTERRequests = false ∧ g.streams_file_path = none
  · rw [if_pos h3]; exact Or.inl rfl
  rw [if_neg h3]
  by_cases h4 : left.all (fun u => "rtsp://".toList.isPrefixOf u) = false
  · rw [if_pos h4]; exact Or.inl rfl
  rw [if_neg h4, if_pos ⟨h1, h2⟩]
  exact Or.inr rfl

theorem step_register {g g1 : Globals} {opt : Str} {rest rest1 : List Str}
    (hs : scan_step g opt rest = .next g1 rest1) :
    (g1.proxyREGISTERRequests = true → g.proxyREGISTERRequests = true ∨ option_letter opt = 'R') ∧
      (g.proxyREGISTERRequests = true → g1.proxyREGISTERRequests = true) ∧
      (g1.streams_file_path ≠ none → g.streams_file_path ≠ none ∨ option_letter opt = 'f') ∧
      (g.streams_file_path ≠ none → g1.streams_file_path ≠ none) ∧
      (g.authDBForREGISTER ≠ none → g1.authDBForREGISTER ≠ none) ∧
      (∀ r, r ∈ g.authDBForREGISTER.getD [] → r ∈ g1.authDBForREGISTER.getD []) ∧
      (∀ a b, (g.usernameForREGISTER = some a ∧ g.passwordForREGISTER = some b ∧
          (g.authDBForREGISTER.getD []).getLast? = some (a, b)) →
        (g1.usernameForREGISTER = some a ∧ g1.passwordForREGISTER = some b ∧
          (g1.authDBForREGISTER.getD []).getLast? = some (a, b)) ∨ option_letter opt = 'U') := by
  obtain ⟨vals, s, _, _, _, h4, h5⟩ := scan_step_setting hs
  have hl := flag_setting_letter h4
  subst h5
  cases s with
  | registerProxying =>
    exact ⟨fun _ => Or.inr (hl 'R' (by decide) rfl), fun _ => rfl, fun h => Or.inl h,
      fun h => h, fun h => h, fun _ h => h, fun _ _ h => Or.inl h⟩
  | definitionsFile path =>
    exact ⟨fun h => Or.inl h, fun h => h, fun _ => Or.inr (hl 'f' (by decide) rfl),
      fun _ => by simp [Setting.apply], fun h => h, fun _ h => h, fun _ _ h => Or.inl h⟩
  | registerCredentials user pass =>
    exact ⟨fun h => Or.inl h, fun h => h, fun h => Or.inl h, fun h => h,
      fun _ => by simp [Setting.apply], fun r h => by simp [Setting.apply, h],
      fun _ _ _ => Or.inr (hl 'U' (by decide) rfl)⟩
  | verbosity level =>
    exact ⟨fun h => Or.inl h, fun h => h, fun h => Or.inl h, fun h => h, fun h => h,
      fun _ h => h, fun _ _ h => Or.inl h⟩
  | forceTCP =>
    exact ⟨fun h => Or.inl h, fun h => h, fun h => Or.inl h, fun h => h, fun h => h,
      fun _ h => h, fun _ _ h => Or.inl h⟩
  | tunnel port =>
    exact ⟨fun h => Or.inl h, fun h => h, fun h => Or.inl h, fun h => h, fun h => h,
      fun _ h => h, fun _ _ h => Or.inl h⟩
  | rtspPort port =>
    exact ⟨fun h => Or.inl h, fun h => h, fun h => Or.inl h, fun h => h, fun h => h,
      fun _ h => h, fun _ _ h => Or.inl h⟩
  | credentials user pass =>
    exact ⟨fun h => Or.inl h, fun h => h, fun h => Or.inl h, fun h => h, fun h => h,
      fun _ h => h, fun _ _ h => Or.inl h⟩

theorem scan_step_R (g : Globals) {opt : Str} (rest : List Str)
    (hd : opt.head? = some '-') :
    (option_letter opt = 'R' →
        scan_step g opt rest = .next { g with proxyREGISTERRequests := true } rest) ∧
      (option_letter opt = 'f' → scan_step g opt rest = case_f g rest) ∧
      (option_letter opt = 'v' → scan_step g opt rest = .next { g with verbosityLevel := 1 } rest) ∧
      (option_letter opt = 'V' → scan_step g opt rest = .next { g with verbosityLevel := 2 } rest) := by
  unfold scan_step
  rw [if_neg (not_not.2 hd)]
  refine ⟨?_, ?_, ?_, ?_⟩ <;> intro hl <;> rw [hl] <;> rfl

theorem scan_register_false {args left : List Str} {gf : Globals}
    (h : scan_options Globals.default args = .ok (gf, left))
    (hn : ∀ before2 g2 opt2 after2, Processes args before2 g2 opt2 after2 →
      option_letter opt2 ≠ 'R') : gf.proxyREGISTERRequests = false := by
  cases hR : gf.proxyREGISTERRequests with
  | false => rfl
  | true =>
    rcases scan_origin (fun g => g.proxyREGISTERRequests = true) 'R'
      (fun g opt rest g1 rest1 hs => (step_register hs).1) _ args (le_refl _) _ gf left h hR
      with h1 | ⟨before, g, opt, after, hp, hc⟩
    · cases h1
    · exact absurd hc (hn before g opt after hp)

theorem scan_register_true {args before after left : List Str} {g gf : Globals} {opt : Str}
    (hp : Processes args before g opt after) (hl : option_letter opt = 'R')
    (h : scan_options Globals.default args = .ok (gf, left)) :
    gf.proxyREGISTERRequests = true := by
  have hs := (scan_step_R g after hp.2.2).1 hl
  rw [scan_processes_next hp hs] at h
  exact scan_preserve (fun g => g.proxyREGISTERRequests = true)
    (fun g opt rest g1 rest1 hs => (step_register hs).2.1) _ after (le_refl _) _ gf left h rfl

/-- C13: when the flag scan processes an option `-U <user> <pass>` and never processes an
option `-R`, the command line is rejected (no call to the engine is made); when an option
`-R` is processed too, before or after it, the rule on `-U` does not reject the command
line, and if the command line is accepted REGISTER proxying is enabled, the pair is a record
of the REGISTER authentication database and, when no `-U` is processed after this one,
the REGISTER username and password are this pair, the last record added. -/
theorem C13_register_credentials_need_register (e : Engine) (args before after rest : List Str)
    (g : Globals) (opt a b : Str) (hp : Processes args before g opt after)
    (hl : option_letter opt = 'U') (ha : after = a :: b :: rest) :
    ((∀ before2 g2 opt2 after2, Processes args before2 g2 opt2 after2 →
          option_letter opt2 ≠ 'R') →
        ∃ f, main e args = { trace := [], outcome := .exited 1 f } ∧
          (f = .Usage ∨ f = .RegisterAuthWithoutRegister)) ∧
      ((∃ before2 g2 opt2 after2, Processes args before2 g2 opt2 after2 ∧
          option_letter opt2 = 'R') →
        check_arguments args ≠ .error .RegisterAuthWithoutRegister ∧
        ∀ gf urls, check_arguments args = .ok (gf, urls) →
          gf.proxyREGISTERRequests = true ∧ (a, b) ∈ gf.authDBForREGISTER.getD [] ∧
          ((∀ before2 g2 opt2 after2, Processes args before2 g2 opt2 after2 →
              option_letter opt2 = 'U' → before2.length ≤ before.length) →
            gf.usernameForREGISTER = some a ∧ gf.passwordForREGISTER = some b ∧
              (gf.authDBForREGISTER.getD []).getLast? = some (a, b))) := by
  have hs : scan_step g opt after = .next
      { g with
        usernameForREGISTER := some a
        passwordForREGISTER := some b
        authDBForREGISTER := some ((g.authDBForREGISTER.getD []) ++ [(a, b)]) } rest := by
    rw [(scan_step_of_letter g after hp.2.2).2.2.2.2 hl, ha]
    rfl
  have hscan := scan_processes_next hp hs
  constructor
  · intro hn
    cases hsc : scan_options Globals.default args with
    | error f => exact ⟨.Usage, main_rejected (check_arguments_scan_error hsc), Or.inl rfl⟩
    | ok p =>
      obtain ⟨gf, left⟩ := p
      have h1 : gf.authDBForREGISTER ≠ none := by
        rw [hscan] at hsc
        exact scan_preserve (fun g => g.authDBForREGISTER ≠ none)
          (fun g opt rest g1 rest1 hs => (step_register hs).2.2.2.2.1) _ rest (le_refl _) _ gf
          left hsc (by simp)
      have h2 := scan_register_false hsc hn
      have h3 := check_scanned_register gf left h1 h2
      rw [← hsc, ← check_arguments_eq] at h3
      rcases h3 with h3 | h3
      · exact ⟨_, main_rejected h3, Or.inl rfl⟩
      · exact ⟨_, main_rejected h3, Or.inr rfl⟩
  · rintro ⟨before2, g2, opt2, after2, hp2, hl2⟩
    constructor
    · intro hc
      obtain ⟨g3, urls, h3, h4⟩ := check_arguments_register hc
      rw [scan_register_true hp2 hl2 h3] at h4
      cases h4
    · intro gf urls hc
      obtain ⟨g3, h3, h4, _⟩ := check_arguments_ok hc
      have h5 := scan_register_true hp2 hl2 h3
      have h6 : (a, b) ∈ g3.authDBForREGISTER.getD [] := by
        rw [hscan] at h3
        exact scan_preserve (fun g => (a, b) ∈ g.authDBForREGISTER.getD [])
          (fun g opt rest g1 rest1 hs => (step_register hs).2.2.2.2.2.1 (a, b)) _ rest
          (le_refl _) _ g3 urls h3 (by simp)
      have h7 : (∀ before2 g2 opt2 after2, Processes args before2 g2 opt2 after2 →
            option_letter opt2 = 'U' → before2.length ≤ before.length) →
          g3.usernameForREGISTER = some a ∧ g3.passwordForREGISTER = some b ∧
            (g3.authDBForREGISTER.getD []).getLast? = some (a, b) := by
        intro hlast
        have h8 := h3
        rw [hscan] at h8
        rcases scan_keep (fun g => g.usernameForREGISTER = some a ∧
            g.passwordForREGISTER = some b ∧
            (g.authDBForREGISTER.getD []).getLast? = some (a, b)) 'U'
          (fun g opt rest g1 rest1 hs => (step_register hs).2.2.2.2.2.2 a b) rest _ g3 urls h8
          (by simp) with h9 | ⟨before3, g4, opt4, after4, hp4, hl4⟩
        · exact h9
        · obtain ⟨before5, hp5, hlen⟩ := processes_later hp hs hp4
          have := hlast before5 g4 opt4 after4 hp5 hl4
          omega
      rcases h4 with h4 | h4 <;> subst h4 <;> exact ⟨h5, h6, h7⟩

theorem scan_file_none {args left : List Str} {gf : Globals}
    (h : scan_options Globals.default args = .ok (gf, left))
    (hn : ∀ before2 g2 opt2 after2, Processes args before2 g2 opt2 after2 →
      option_letter opt2 ≠ 'f') : gf.streams_file_path = none := by
  by_contra hf
  rcases scan_origin (fun g => g.streams_file_path ≠ none) 'f'
    (fun g opt rest g1 rest1 hs => (step_register hs).2.2.1) _ args (le_refl _) _ gf left h hf
    with h1 | ⟨before, g, opt, after, hp, hc⟩
  · exact h1 rfl
  · exact absurd hc (hn before g opt after hp)

theorem scan_file_some {args before after left : List Str} {g gf : Globals} {opt : Str}
    (hp : Processes args before g opt after) (hl : option_letter opt = 'f')
    (h : scan_options Globals.default args = .ok (gf, left)) :
    gf.streams_file_path ≠ none := by
  rw [scan_processes hp, scan_options_cons] at h
  cases hs : scan_step g opt after with
  | stop => exact absurd hp.2.2 (scan_step_stop.1 hs)
  | fail => rw [hs] at h; cases h
  | next g1 rest1 =>
    rw [hs] at h
    simp only at h
    rw [(scan_step_R g after hp.2.2).2.1 hl] at hs
    obtain ⟨a, _, hg⟩ := case_f_next hs
    exact scan_preserve (fun g => g.streams_file_path ≠ none)
      (fun g opt rest g1 rest1 hs => (step_register hs).2.2.2.1) _ rest1 (le_refl _) _ gf left h
      (by rw [hg]; simp)

/-- C14: when the flag scan of an argument list completes, the command line is rejected
(`usage()`, `exit(1)`, no call to the engine) if there is no positional argument, no option
`-R` was processed and no option `-f` was processed; and when there is a positional argument,
or an option `-R` was processed, or an option `-f` was processed, this rule does not reject:
the outcome is that of the checks that follow it. -/
theorem C14_nothing_to_serve (e : Engine) (args left : List Str) (g : Globals)
    (hs : scan_options Globals.default args = .ok (g, left)) :
    (left = [] →
        (∀ before2 g2 opt2 after2, Processes args before2 g2 opt2 after2 →
          option_letter opt2 ≠ 'R') →
        (∀ before2 g2 opt2 after2, Processes args before2 g2 opt2 after2 →
          option_letter opt2 ≠ 'f') →
        main e args = { trace := [], outcome := .exited 1 .Usage }) ∧
      (left ≠ [] ∨
          (∃ before2 g2 opt2 after2, Processes args before2 g2 opt2 after2 ∧
            option_letter opt2 = 'R') ∨
          (∃ before2 g2 opt2 after2, Processes args before2 g2 opt2 after2 ∧
            option_letter opt2 = 'f') →
        check_arguments args =
          if left.all (fun u => "rtsp://".toList.isPrefixOf u) = false then .error .Usage
          else if g.authDBForREGISTER ≠ none ∧ g.proxyREGISTERRequests = false then
            .error .RegisterAuthWithoutRegister
          else if g.streamRTPOverTCP then
            if g.tunnelOverHTTPPortNum > 0 then .error .BothTcpAndHttp
            else .ok ({ g with tunnelOverHTTPPortNum := 2 ^ 16 - 1 }, left)
          else .ok (g, left)) := by
  constructor
  · intro h1 h2 h3
    apply main_rejected
    rw [check_arguments_eq, hs]
    unfold check_scanned
    simp only
    rw [if_pos ⟨h1, scan_register_false hs h2, scan_file_none hs h3⟩]
  · intro h
    have hrule : ¬ (left = [] ∧ g.proxyREGISTERRequests = false ∧ g.streams_file_path = none) := by
      rintro ⟨h1, h2, h3⟩
      rcases h with h | ⟨b2, g2, o2, a2, hp, hl⟩ | ⟨b2, g2, o2, a2, hp, hl⟩
      · exact h h1
      · rw [scan_register_true hp hl hs] at h2; cases h2
      · exact scan_file_some hp hl hs h3
    rw [check_arguments_eq, hs]
    unfold check_scanned
    simp only
    rw [if_neg hrule]

theorem scan_options_split : ∀ (n : Nat) (args : List Str), args.length ≤ n →
    ∀ (g0 gf : Globals) (left : List Str), scan_options g0 args = .ok (gf, left) →
    StopsScan left ∧ ∃ before, args = before ++ left ∧ scan_options g0 before = .ok (gf, []) := by
  intro n
  induction n with
  | zero =>
    intro args hlen g0 gf left h
    have : args = [] := by simpa using hlen
    subst this
    rw [scan_options_nil] at h
    simp only [Except.ok.injEq, Prod.mk.injEq] at h
    rw [← h.1, ← h.2]
    exact ⟨fun u hu => (by cases hu), [], rfl, rfl⟩
  | succ n ih =>
    intro args hlen g0 gf left h
    rcases args with _ | ⟨opt, rest⟩
    · rw [scan_options_nil] at h
      simp only [Except.ok.injEq, Prod.mk.injEq] at h
      rw [← h.1, ← h.2]
      exact ⟨fun u hu => (by cases hu), [], rfl, rfl⟩
    · rw [scan_options_cons] at h
      cases hs : scan_step g0 opt rest with
      | stop =>
        simp only [hs, Except.ok.injEq, Prod.mk.injEq] at h
        rw [← h.1, ← h.2]
        refine ⟨?_, [], rfl, rfl⟩
        intro u hu
        simp only [List.head?_cons, Option.some.injEq] at hu
        rw [← hu]
        exact scan_step_stop.1 hs
      | fail => simp only [hs] at h; cases h
      | next g1 rest1 =>
        simp only [hs] at h
        have hl := scan_step_length hs
        simp only [List.length_cons] at hlen
        obtain ⟨h1, before, h2, h3⟩ := ih rest1 (by omega) g1 gf left h
        obtain ⟨vals, s, h4, h5, h6, h7, h8⟩ := scan_step_setting hs
        refine ⟨h1, opt :: (vals ++ before), ?_, ?_⟩
        · rw [h4, h2]; simp
        · rw [scan_options_cons, scan_step_flag_setting g0 opt vals before h6 h5, h7]
          simp only
          rw [← h8]
          exact h3

/-- C15: when the flag scan of an argument list completes, it has stopped at the end of the
list or at the first token that does not begin with `-`, and that token and all the tokens
after it are left as positional arguments; the command line is rejected (`usage()`,
`exit(1)`, no call to the engine) if one of them does not begin with `rtsp://`; and when the
command line is accepted they all begin with `rtsp://` and are the proxied source URLs, each
published in argument order once the listener is created. -/
theorem C15_positional_urls (e : Engine) (args left : List Str) (g : Globals)
    (hs : scan_options Globals.default args = .ok (g, left)) :
    StopsScan left ∧
      (∃ before, args = before ++ left ∧ scan_options Globals.default before = .ok (g, [])) ∧
      ((∃ u ∈ left, "rtsp://".toList.isPrefixOf u = false) →
        main e args = { trace := [], outcome := .exited 1 .Usage }) ∧
      ∀ gf urls, check_arguments args = .ok (gf, urls) →
        urls = left ∧ (∀ u ∈ left, "rtsp://".toList.isPrefixOf u = true) ∧
        ((create_server e gf).rtspServer = true →
          ((create_server e gf).trace ++
            (left.enumFrom 1).map (fun p => Event.PublishSession p.2
              (if left.length = 1 then "proxyStream".toList
                else "proxyStream-".toList ++ Nat.toDigits 10 p.1)
              gf.username gf.password gf.tunnelOverHTTPPortNum gf.verbosityLevel)) <+:
            (main e args).trace) := by
  obtain ⟨h1, h2⟩ := scan_options_split _ args (le_refl _) _ g left hs
  refine ⟨h1, h2, ?_, ?_⟩
  · rintro ⟨u, hu, hp⟩
    apply main_rejected
    rw [check_arguments_eq, hs]
    unfold check_scanned
    simp only
    have hne : ¬ (left = [] ∧ g.proxyREGISTERRequests = false ∧ g.streams_file_path = none) := by
      rintro ⟨h3, _⟩
      rw [h3] at hu
      cases hu
    have hall : left.all (fun u => "rtsp://".toList.isPrefixOf u) = false := by
      rw [List.all_eq_false]
      exact ⟨u, hu, by rw [hp]; simp⟩
    rw [if_neg hne, if_pos hall]
  · intro gf urls hc
    obtain ⟨g3, h3, _, _, h5, _⟩ := check_arguments_ok hc
    rw [hs] at h3
    simp only [Except.ok.injEq, Prod.mk.injEq] at h3
    have hu : urls = left := h3.2.symm
    subst hu
    refine ⟨rfl, ?_, ?_⟩
    · intro u hu
      exact List.all_eq_true.1 h5 u hu
    · intro h0
      have h := main_trace_accepted hc h0
      rw [proxy_urls_eq] at h
      simpa using h

theorem construct_error_ne {line : Str} {f : Failure}
    (h : stream_info.construct line = .error f) : f ≠ .ServerUnavailable := by
  rw [construct_eq] at h
  split at h
  · split_ifs at h <;> cases h <;> decide
  · cases h; decide

theorem load_error_ne {open_file : Str → Option (List Char)} {path : Str} {f : Failure}
    (h : load_streams_from_file open_file path = .error f) : f ≠ .ServerUnavailable := by
  have key : ∀ (lines : List Str) (reg : List stream_info),
      insert_lines reg lines = .error f → f ≠ .ServerUnavailable := by
    intro lines
    induction lines with
    | nil => intro reg h; simp only [insert_lines] at h; cases h
    | cons line rest ih =>
      intro reg h
      simp only [insert_lines] at h
      cases hc : stream_info.construct line with
      | error f2 =>
        rw [hc] at h
        simp only [Except.error.injEq] at h
        rw [← h]
        exact construct_error_ne hc
      | ok si =>
        rw [hc] at h
        simp only at h
        split_ifs at h
        · exact ih _ h
        · cases h; decide
  unfold load_streams_from_file at h
  cases ho : open_file path with
  | none => rw [ho] at h; simp only at h; cases h; decide
  | some content => rw [ho] at h; exact key _ _ h

/-! ### The creation of the RTSP server -/

theorem create_server_probe (e : Engine) (g : Globals) :
    (create_server e g).trace =
        (probe e.listen 0 (probe_list g.rtspServerPortNum)).1.map
          (fun port => Event.CreateListener port g.proxyREGISTERRequests) ∧
      (create_server e g).rtspServer =
        (probe e.listen 0 (probe_list g.rtspServerPortNum)).2.isSome ∧
      ∀ port, (probe e.listen 0 (probe_list g.rtspServerPortNum)).2 = some port →
        (create_server e g).rtspServerPortNum = port := by
  unfold create_server createRTSPServer probe_list
  by_cases hp : g.rtspServerPortNum = 554
  · rw [hp]
    cases h0 : e.listen 0 554 <;> cases h1 : e.listen 1 8554 <;>
      simp [probe, h0, h1]
  · cases h0 : e.listen 0 g.rtspServerPortNum <;> cases h1 : e.listen 1 554 <;>
      cases h2 : e.listen 2 8554 <;> simp [probe, h0, h1, h2, hp]

theorem probe_none (listen : Nat → Nat → Bool) : ∀ (ports : List Nat) (n : Nat),
    (probe listen n ports).2 = none ↔
      ∀ i (h : i < ports.length), listen (n + i) (ports.get ⟨i, h⟩) = false
  | [], n => by simp [probe]
  | port :: more, n => by
    have ih := probe_none listen more (n + 1)
    simp only [probe]
    cases h0 : listen n port
    · simp only [Bool.false_eq_true, if_false, ih]
      constructor
      · intro h i hi
        rcases i with _ | i
        · exact h0
        · have := h i (by simpa using hi)
          rw [show n + (i + 1) = n + 1 + i by omega]
          exact this
      · intro h i hi
        have := h (i + 1) (by simpa using hi)
        rw [show n + (i + 1) = n + 1 + i by omega] at this
        exact this
    · simp only [if_true]
      constructor
      · intro h; cases h
      · intro h
        have := h 0 (by simp)
        simp only [Nat.add_zero, List.get_eq_getElem, List.getElem_cons_zero] at this
        rw [h0] at this; cases this

theorem main_server_unavailable {e : Engine} {args urls : List Str} {g : Globals}
    (h1 : check_arguments args = .ok (g, urls)) :
    ((main e args).outcome = .exited 1 .ServerUnavailable ↔
        (create_server e g).rtspServer = false) ∧
      ((create_server e g).rtspServer = false →
        (main e args).trace = (create_server e g).trace) := by
  cases h0 : (create_server e g).rtspServer with
  | false =>
    have : main e args =
        { trace := (create_server e g).trace, outcome := .exited 1 .ServerUnavailable } := by
      unfold main
      simp only [h1, h0, if_true]
    rw [this]
    exact ⟨⟨fun _ => rfl, fun _ => rfl⟩, fun _ => rfl⟩
  | true =>
    refine ⟨⟨?_, fun h => by cases h⟩, fun h => by cases h⟩
    intro h
    exfalso
    cases h2 : g.streams_file_path with
    | none =>
      rw [main_no_file h1 h0 h2] at h
      cases h
    | some path =>
      cases h3 : load_streams_from_file e.open_file path with
      | error f =>
        rw [main_load_error h1 h2 h3, if_pos h0] at h
        simp only [Outcome.exited.injEq, true_and] at h
        exact load_error_ne h3 h
      | ok reg =>
        rw [main_load_ok h1 h0 h2 h3] at h
        cases h

/-- C16: for every requested port and every outcome of the attempts, the ports on which
the creation of the listener is attempted are, in order, those of the list `[p, 554, 8554]`
(`[554, 8554]` when `p` is 554) up to and including the first success; the listener is on
the first port that succeeded; for an accepted command line `main` ends with the fatal
failure `ServerUnavailable` (`exit(1)`, only listener attempts in its trace) if and only if
every attempt of the list failed; and with 554 requested and unavailable and 8554 available,
554 is attempted once and the listener is on 8554. -/
theorem C16_port_acquisition (e : Engine) (g : Globals) :
    ((create_server e g).trace =
        (probe e.listen 0 (probe_list g.rtspServerPortNum)).1.map
          (fun port => Event.CreateListener port g.proxyREGISTERRequests) ∧
      (create_server e g).rtspServer =
        (probe e.listen 0 (probe_list g.rtspServerPortNum)).2.isSome ∧
      ∀ port, (probe e.listen 0 (probe_list g.rtspServerPortNum)).2 = some port →
        (create_server e g).rtspServerPortNum = port) ∧
    ((probe e.listen 0 (probe_list g.rtspServerPortNum)).2 = none ↔
      ∀ i (h : i < (probe_list g.rtspServerPortNum).length),
        e.listen i ((probe_list g.rtspServerPortNum).get ⟨i, h⟩) = false) ∧
    (∀ args urls, check_arguments args = .ok (g, urls) →
      ((main e args).outcome = .exited 1 .ServerUnavailable ↔
        (probe e.listen 0 (probe_list g.rtspServerPortNum)).2 = none) ∧
      ((probe e.listen 0 (probe_list g.rtspServerPortNum)).2 = none →
        (main e args).trace = (create_server e g).trace)) ∧
    (g.rtspServerPortNum = 554 → e.listen 0 554 = false → e.listen 1 8554 = true →
      (create_server e g).trace =
          [Event.CreateListener 554 g.proxyREGISTERRequests,
           Event.CreateListener 8554 g.proxyREGISTERRequests] ∧
        (create_server e g).rtspServer = true ∧
        (create_server e g).rtspServerPortNum = 8554) := by
  have hc := create_server_probe e g
  have hn := probe_none e.listen (probe_list g.rtspServerPortNum) 0
  simp only [Nat.zero_add] at hn
  have hfalse : (create_server e g).rtspServer = false ↔
      (probe e.listen 0 (probe_list g.rtspServerPortNum)).2 = none := by
    rw [hc.2.1]
    cases (probe e.listen 0 (probe_list g.rtspServerPortNum)).2 <;> simp
  refine ⟨hc, hn, ?_, ?_⟩
  · intro args urls h1
    obtain ⟨h2, h3⟩ := main_server_unavailable (e := e) h1
    exact ⟨h2.trans hfalse, fun h => h3 (hfalse.2 h)⟩
  · intro hp h0 h1
    have hpr : probe e.listen 0 (probe_list g.rtspServerPortNum) = ([554, 8554], some 8554) := by
      rw [hp]
      simp [probe_list, probe, h0, h1]
    rw [hc.1, hc.2.1, hc.2.2 8554 (by rw [hpr]), hpr]
    simp

/-! ### The names of the published streams -/

theorem published_names_append (a b : List Event) :
    published_names (a ++ b) = published_names a ++ published_names b := by
  simp [published_names, List.filterMap_append]

theorem published_names_create_server (e : Engine) (g : Globals) :
    published_names (create_server e g).trace = [] := by
  have h := (create_server_trace e g).2
  unfold published_names
  rw [List.filterMap_eq_nil_iff]
  intro ev hev
  obtain ⟨port, hp⟩ := h ev hev
  rw [hp]; rfl

theorem published_names_tunneling (e : Engine) : published_names (set_up_tunneling e) = [] := by
  unfold set_up_tunneling
  split_ifs <;> rfl

theorem published_names_streams (g : Globals) (reg : List stream_info) :
    published_names (reg.map (proxy_stream g)) = reg.map (fun si => c_str si.name) := by
  induction reg with
  | nil => rfl
  | cons si more ih =>
    simp only [List.map_cons, published_names] at ih ⊢
    rw [List.filterMap_cons]
    simp only [proxy_stream, Event.published_name]
    rw [ih]

theorem published_names_urls (g : Globals) (argc : Nat) : ∀ (i : Nat) (urls : List Str),
    published_names (proxy_urls g argc i urls) =
      (List.range' i urls.length).map (fun i =>
        if argc = 2 then "proxyStream".toList else "proxyStream-".toList ++ Nat.toDigits 10 i)
  | _, [] => rfl
  | i, u :: us => by
    have ih := published_names_urls g argc (i + 1) us
    simp only [proxy_urls, published_names, List.length_cons, List.range'_succ,
      List.map_cons] at ih ⊢
    rw [List.filterMap_cons]
    simp only [Event.published_name, sprintf_d]
    rw [ih]

theorem published_names_cli (g : Globals) (urls : List Str) :
    published_names (proxy_urls g (urls.length + 1) 1 urls) = cli_names urls.length := by
  rw [published_names_urls]
  unfold cli_names
  apply List.map_congr_left
  intro i _
  by_cases h : urls.length = 1
  · rw [if_pos h, if_pos (by omega)]
  · rw [if_neg h, if_neg (by omega)]

theorem load_ascending {open_file : Str → Option (List Char)} {path : Str}
    {reg : List stream_info} (h : load_streams_from_file open_file path = .ok reg) :
    Ascending reg := by
  cases ho : open_file path with
  | none =>
    unfold load_streams_from_file at h
    rw [ho] at h
    cases h
  | some content =>
    unfold load_streams_from_file at h
    simp only [ho] at h
    obtain ⟨sis, hs⟩ := insert_lines_parsed _ _ _ h
    have hn : (sis.map stream_info.name).Nodup := by
      by_contra hn
      have := (insert_lines_spec _ sis [] hs List.Pairwise.nil).2 (by simpa using hn)
      rw [h] at this
      cases this
    obtain ⟨out, h2, h3, _⟩ :=
      (insert_lines_spec _ sis [] hs List.Pairwise.nil).1 (by simpa using hn)
    rw [h] at h2
    cases h2
    exact h3

theorem c_str_eq_self {s : Str} (h : Char.ofNat 0 ∉ s) : c_str s = s := by
  unfold c_str
  rw [List.takeWhile_eq_self_iff]
  intro c hc
  simp only [bne_iff_ne, ne_eq]
  intro hz
  exact h (hz ▸ hc)

theorem ascending_eq_of_perm {a b : List stream_info} (hp : a.Perm b) (ha : Ascending a)
    (hb : Ascending b) : a = b := by
  haveI : IsAntisymm stream_info (fun x y => x.lt y = true) :=
    ⟨fun x y hxy hyx => by
      have := str_lt_trans _ _ _ hxy hyx
      rw [str_lt_irrefl] at this
      cases this⟩
  exact List.eq_of_perm_of_sorted hp ha hb

theorem insert_lines_perm {lines1 lines2 : List Str} {reg : List stream_info}
    (hp : lines2.Perm lines1) (h : insert_lines [] lines1 = .ok reg) :
    insert_lines [] lines2 = .ok reg := by
  obtain ⟨sis1, hs1⟩ := insert_lines_parsed _ _ _ h
  have hn1 : (sis1.map stream_info.name).Nodup := by
    by_contra hn
    have := (insert_lines_spec _ sis1 [] hs1 List.Pairwise.nil).2 (by simpa using hn)
    rw [h] at this
    cases this
  obtain ⟨out1, h2, h3, h4⟩ :=
    (insert_lines_spec _ sis1 [] hs1 List.Pairwise.nil).1 (by simpa using hn1)
  rw [h] at h2
  cases h2
  obtain ⟨sis2, hs2, hp2⟩ := List.perm_comp_forall₂ hp hs1
  have hn2 : (sis2.map stream_info.name).Nodup := ((hp2.map _).nodup_iff).2 hn1
  obtain ⟨out2, h5, h6, h7⟩ :=
    (insert_lines_spec _ sis2 [] hs2 List.Pairwise.nil).1 (by simpa using hn2)
  rw [h5]
  have hperm : out2.Perm reg := by
    have a1 : out2.Perm sis2 := by simpa using h7
    have a2 : reg.Perm sis1 := by simpa using h4
    exact (a1.trans hp2).trans a2.symm
  rw [ascending_eq_of_perm hperm h6 h3]

/-- C17 (as amended): in every successful bootstrap the stream names passed to the calls
that publish a session are, in order, the names synthesized for the URLs of the command
line in position order (`proxyStream`, or `proxyStream-1` to `proxyStream-n`), followed by
the names of the registry loaded from the definitions file, taken in strictly ascending
order and each passed as a C string (the name itself when it holds no NUL character); this
sequence does not depend on the order of the URLs on the command line nor on the order of the
lines in the file. -/
theorem C17_publishing_order (e : Engine) (args urls : List Str) (g : Globals)
    (h1 : check_arguments args = .ok (g, urls))
    (h0 : (create_server e g).rtspServer = true) :
    (g.streams_file_path = none →
        published_names (main e args).trace = cli_names urls.length) ∧
      (∀ path reg, g.streams_file_path = some path →
        load_streams_from_file e.open_file path = .ok reg →
        published_names (main e args).trace =
            cli_names urls.length ++ reg.map (fun si => c_str si.name) ∧
          Ascending reg ∧
          ((∀ si ∈ reg, Char.ofNat 0 ∉ si.name) →
            published_names (main e args).trace =
              cli_names urls.length ++ reg.map stream_info.name)) ∧
      (∀ urls2 : List Str, urls2.Perm urls → cli_names urls2.length = cli_names urls.length) ∧
      ∀ path content reg (open_file2 : Str → Option (List Char)) path2 content2,
        e.open_file path = some content → load_streams_from_file e.open_file path = .ok reg →
        open_file2 path2 = some content2 → (file_lines content2).Perm (file_lines content) →
        load_streams_from_file open_file2 path2 = .ok reg := by
  refine ⟨?_, ?_, ?_, ?_⟩
  · intro h2
    rw [main_no_file h1 h0 h2]
    simp [published_names_append, published_names_create_server,
      published_names_tunneling, published_names_cli]
  · intro path reg h2 h3
    have hn : published_names (main e args).trace =
        cli_names urls.length ++ reg.map (fun si => c_str si.name) := by
      rw [main_load_ok h1 h0 h2 h3]
      simp [published_names_append, published_names_create_server,
        published_names_tunneling, published_names_cli, published_names_streams]
    refine ⟨hn, load_ascending h3, ?_⟩
    intro hnul
    rw [hn]
    congr 1
    exact List.map_congr_left (fun si hsi => c_str_eq_self (hnul si hsi))
  · intro urls2 hp
    rw [hp.length_eq]
  · intro path content reg open_file2 path2 content2 ho h3 ho2 hp
    unfold load_streams_from_file at h3 ⊢
    simp only [ho] at h3
    simp only [ho2]
    exact insert_lines_perm hp h3

/-! ### Further instances on concrete inputs -/

/-- C11, counterexample: `-v -V rtsp://a/1` and `-V -v rtsp://a/1` differ only by the order
of two flag groups, and are both accepted, the first with verbosity level 2 and the second
with verbosity level 1. -/
theorem C11_counterexample :
    [["-v".toList], ["-V".toList]].Perm [["-V".toList], ["-v".toList]] ∧
      check_arguments ([["-v".toList], ["-V".toList]].flatten ++ ["rtsp://a/1".toList]) =
        .ok ({ Globals.default with verbosityLevel := 2 }, ["rtsp://a/1".toList]) ∧
      check_arguments ([["-V".toList], ["-v".toList]].flatten ++ ["rtsp://a/1".toList]) =
        .ok ({ Globals.default with verbosityLevel := 1 }, ["rtsp://a/1".toList]) :=
  ⟨List.Perm.swap _ _ _, by decide, by decide⟩

/-- Witness for C11 (as amended), on `-t -v -t rtsp://a/1` and `-v -t -t rtsp://a/1`, in which
the flag `-t` is given twice, and on `-v -V rtsp://a/1`, in which two groups write different
verbosity levels. -/
theorem C11_flag_order_independent_witness :
    [["-t".toList], ["-v".toList], ["-t".toList]].Perm
        [["-v".toList], ["-t".toList], ["-t".toList]] ∧
      check_arguments ([["-t".toList], ["-v".toList], ["-t".toList]].flatten ++
          ["rtsp://a/1".toList]) =
        check_arguments ([["-v".toList], ["-t".toList], ["-t".toList]].flatten ++
          ["rtsp://a/1".toList]) ∧
      ∃ groups2, [["-v".toList], ["-V".toList]].Perm groups2 ∧
        scan_options Globals.default
            ([["-v".toList], ["-V".toList]].flatten ++ ["rtsp://a/1".toList]) ≠
          scan_options Globals.default (groups2.flatten ++ ["rtsp://a/1".toList]) :=
  ⟨List.Perm.swap _ _ _,
    (C11_flag_order_independent [["-t".toList], ["-v".toList], ["-t".toList]] ["rtsp://a/1".toList]
      (by
        intro grp hg
        simp only [List.mem_cons, List.mem_singleton, List.not_mem_nil, or_false] at hg
        rcases hg with hg | hg | hg
        · exact ⟨"-t".toList, [], hg, by decide, by decide⟩
        · exact ⟨"-v".toList, [], hg, by decide, by decide⟩
        · exact ⟨"-t".toList, [], hg, by decide, by decide⟩)
      (by
        intro u hu
        simp only [List.head?_cons, Option.some.injEq] at hu
        rw [← hu]
        decide)).1 (Or.inr (by decide)) _ (List.Perm.swap _ _ _),
    (C11_flag_order_independent [["-v".toList], ["-V".toList]] ["rtsp://a/1".toList]
      (by
        intro grp hg
        simp only [List.mem_cons, List.mem_singleton, List.not_mem_nil, or_false] at hg
        rcases hg with hg | hg
        · exact ⟨"-v".toList, [], hg, by decide, by decide⟩
        · exact ⟨"-V".toList, [], hg, by decide, by decide⟩)
      (by
        intro u hu
        simp only [List.head?_cons, Option.some.injEq] at hu
        rw [← hu]
        decide)).2 (by decide)⟩

/-- C12, counterexample: in `-verbose rtsp://a/1` the scan reaches the token `-verbose`,
which is not one of the flags of the interface table, yet the command line is accepted,
with verbosity level 1. -/
theorem C12_counterexample :
    Processes ["-verbose".toList, "rtsp://a/1".toList] [] Globals.default "-verbose".toList
        ["rtsp://a/1".toList] ∧
      "-verbose".toList ∉ ["-v".toList, "-V".toList, "-t".toList, "-T".toList, "-p".toList,
        "-u".toList, "-R".toList, "-U".toList, "-f".toList] ∧
      check_arguments ["-verbose".toList, "rtsp://a/1".toList] =
        .ok ({ Globals.default with verbosityLevel := 1 }, ["rtsp://a/1".toList]) :=
  ⟨⟨rfl, by decide, by decide⟩, by decide, by decide⟩

/-- Witness for C12 (as amended), on `-x rtsp://a/1`. -/
theorem C12_unknown_letter_rejected_witness :
    Processes ["-x".toList, "rtsp://a/1".toList] [] Globals.default "-x".toList
        ["rtsp://a/1".toList] ∧
      option_letter "-x".toList ∉ "vVtTpuRUf".toList ∧
      main (example_engine none) ["-x".toList, "rtsp://a/1".toList] =
        { trace := [], outcome := .exited 1 .Usage } :=
  ⟨⟨rfl, by decide, by decide⟩, by decide,
    (C12_unknown_letter_rejected (example_engine none) ["-x".toList, "rtsp://a/1".toList] []
      ["rtsp://a/1".toList] Globals.default "-x".toList ⟨rfl, by decide, by decide⟩).1
      (by decide)⟩

/-- Witness for C13, on `-R -U bob pw rtsp://a/1`. -/
theorem C13_register_credentials_need_register_witness :
    Processes ["-R".toList, "-U".toList, "bob".toList, "pw".toList, "rtsp://a/1".toList]
        ["-R".toList] { Globals.default with proxyREGISTERRequests := true } "-U".toList
        ["bob".toList, "pw".toList, "rtsp://a/1".toList] ∧
      Processes ["-R".toList, "-U".toList, "bob".toList, "pw".toList, "rtsp://a/1".toList]
        [] Globals.default "-R".toList
        ["-U".toList, "bob".toList, "pw".toList, "rtsp://a/1".toList] ∧
      check_arguments ["-R".toList, "-U".toList, "bob".toList, "pw".toList,
          "rtsp://a/1".toList] ≠ .error .RegisterAuthWithoutRegister :=
  ⟨⟨rfl, by decide, by decide⟩, ⟨rfl, by decide, by decide⟩,
    ((C13_register_credentials_need_register (example_engine none)
      ["-R".toList, "-U".toList, "bob".toList, "pw".toList, "rtsp://a/1".toList]
      ["-R".toList] ["bob".toList, "pw".toList, "rtsp://a/1".toList] ["rtsp://a/1".toList]
      { Globals.default with proxyREGISTERRequests := true } "-U".toList "bob".toList
      "pw".toList ⟨rfl, by decide, by decide⟩ (by decide) rfl).2
      ⟨[], Globals.default, "-R".toList,
        ["-U".toList, "bob".toList, "pw".toList, "rtsp://a/1".toList],
        ⟨rfl, by decide, by decide⟩, by decide⟩).1⟩

/-- Witness for C14, on the single argument `-R`. -/
theorem C14_nothing_to_serve_witness :
    scan_options Globals.default ["-R".toList] =
        .ok ({ Globals.default with proxyREGISTERRequests := true }, []) ∧
      check_arguments ["-R".toList] =
        .ok ({ Globals.default with proxyREGISTERRequests := true }, []) :=
  ⟨by decide,
    ((C14_nothing_to_serve (example_engine none) ["-R".toList] []
      { Globals.default with proxyREGISTERRequests := true } (by decide)).2
      (Or.inr (Or.inl ⟨[], Globals.default, "-R".toList, [],
        ⟨rfl, by decide, by decide⟩, by decide⟩))).trans (by decide)⟩

/-- Witness for C15, on `-v rtsp://a/1 -t`: the flag placed after the URL is rejected. -/
theorem C15_positional_urls_witness :
    scan_options Globals.default ["-v".toList, "rtsp://a/1".toList, "-t".toList] =
        .ok ({ Globals.default with verbosityLevel := 1 },
          ["rtsp://a/1".toList, "-t".toList]) ∧
      main (example_engine none) ["-v".toList, "rtsp://a/1".toList, "-t".toList] =
        { trace := [], outcome := .exited 1 .Usage } :=
  ⟨by decide,
    (C15_positional_urls (example_engine none)
      ["-v".toList, "rtsp://a/1".toList, "-t".toList] ["rtsp://a/1".toList, "-t".toList]
      { Globals.default with verbosityLevel := 1 } (by decide)).2.2.1
      ⟨"-t".toList, by decide, by decide⟩⟩

/-- Witness for C16: port 554 requested and unavailable, port 8554 available. -/
theorem C16_port_acquisition_witness :
    (create_server example_engine_8554 Globals.default).trace =
        [Event.CreateListener 554 Globals.default.proxyREGISTERRequests,
         Event.CreateListener 8554 Globals.default.proxyREGISTERRequests] ∧
      (create_server example_engine_8554 Globals.default).rtspServer = true ∧
      (create_server example_engine_8554 Globals.default).rtspServerPortNum = 8554 :=
  (C16_port_acquisition example_engine_8554 Globals.default).2.2.2 rfl (by decide) (by decide)

/-- C17, counterexample: with `-f file rtsp://a/1` and the single file line `bar rtsp://x/z`
the bootstrap succeeds and the names are published in the order `proxyStream`, `bar`, which
is not ascending. -/
theorem C17_counterexample :
    (main (example_engine (some example_small_file))
        ["-f".toList, "file".toList, "rtsp://a/1".toList]).outcome = .serving ∧
      published_names (main (example_engine (some example_small_file))
        ["-f".toList, "file".toList, "rtsp://a/1".toList]).trace =
        ["proxyStream".toList, "bar".toList] ∧
      str_lt "proxyStream".toList "bar".toList = false := by
  decide

/-- Witness for C17 (as amended), on the input of the counterexample. -/
theorem C17_publishing_order_witness :
    check_arguments ["-f".toList, "file".toList, "rtsp://a/1".toList] =
        .ok ({ Globals.default with streams_file_path := some "file".toList },
          ["rtsp://a/1".toList]) ∧
      load_streams_from_file (example_engine (some example_small_file)).open_file
          "file".toList = .ok [⟨"bar".toList, "rtsp://x/z".toList, [], []⟩] ∧
      (published_names (main (example_engine (some example_small_file))
          ["-f".toList, "file".toList, "rtsp://a/1".toList]).trace =
          cli_names ["rtsp://a/1".toList].length ++
            [(⟨"bar".toList, "rtsp://x/z".toList, [], []⟩ : stream_info)].map
              (fun si => c_str si.name) ∧
        Ascending [(⟨"bar".toList, "rtsp://x/z".toList, [], []⟩ : stream_info)] ∧
        ((∀ si ∈ [(⟨"bar".toList, "rtsp://x/z".toList, [], []⟩ : stream_info)],
            Char.ofNat 0 ∉ si.name) →
          published_names (main (example_engine (some example_small_file))
            ["-f".toList, "file".toList, "rtsp://a/1".toList]).trace =
            cli_names ["rtsp://a/1".toList].length ++
              [(⟨"bar".toList, "rtsp://x/z".toList, [], []⟩ : stream_info)].map
                stream_info.name)) :=
  ⟨by decide, by decide,
    (C17_publishing_order (example_engine (some example_small_file))
      ["-f".toList, "file".toList, "rtsp://a/1".toList] ["rtsp://a/1".toList]
      { Globals.default with streams_file_path := some "file".toList }
      (by decide) (by decide)).2.1 "file".toList
      [⟨"bar".toList, "rtsp://x/z".toList, [], []⟩] rfl (by decide)⟩

/-- C19, evaluation: `-T 65535 rtsp://a/1` is accepted and its stream is published with the
tunnel-port value 65535, the same value as for `-t rtsp://a/1`. -/
theorem C19_tunnel_port_collision :
    main (example_engine none) ["-T".toList, "65535".toList, "rtsp://a/1".toList] =
        { trace := [Event.CreateListener 554 false,
                    Event.PublishSession "rtsp://a/1".toList "proxyStream".toList none none
                      65535 0,
                    Event.SetUpTunneling 80, Event.SetUpTunneling 8000,
                    Event.SetUpTunneling 8080]
          outcome := .serving } ∧
      main (example_engine none) ["-t".toList, "rtsp://a/1".toList] =
        { trace := [Event.CreateListener 554 false,
                    Event.PublishSession "rtsp://a/1".toList "proxyStream".toList none none
                      65535 0,
                    Event.SetUpTunneling 80, Event.SetUpTunneling 8000,
                    Event.SetUpTunneling 8080]
          outcome := .serving } := by
  decide

/-- C4, counterexample: in the file with the lines `foo rtsp://x/y`, a blank line and
`foo rtsp://x/z`, the first and the third line share the name `foo`, yet the load fails with
`MalformedDefinition`, the failure of the blank line, and not with
`DuplicateStreamName`. -/
theorem C4_counterexample :
    file_lines example_blank_file =
        ["foo rtsp://x/y".toList, [], "foo rtsp://x/z".toList] ∧
      (stream_info.construct "foo rtsp://x/y".toList).map stream_info.name =
        .ok "foo".toList ∧
      (stream_info.construct "foo rtsp://x/z".toList).map stream_info.name =
        .ok "foo".toList ∧
      load_streams_from_file (fun _ => some example_blank_file) "file".toList =
        .error .MalformedDefinition := by
  decide

/-- Witness for C4 (as amended), on the file of the counterexample: the first line parses and
the blank line that follows it does not, so the load fails with the failure of the blank
line. -/
theorem C4_load_no_skip_no_overwrite_witness :
    file_lines example_blank_file =
        ["foo rtsp://x/y".toList] ++ [] :: ["foo rtsp://x/z".toList] ∧
      ParsedAs ["foo rtsp://x/y".toList] [⟨"foo".toList, "rtsp://x/y".toList, [], []⟩] ∧
      load_streams_from_file (fun _ => some example_blank_file) "file".toList =
        .error .MalformedDefinition :=
  ⟨by decide, List.Forall₂.cons (by decide) List.Forall₂.nil,
    (C4_load_no_skip_no_overwrite example_blank_file "file".toList).2.2.2.1
      ["foo rtsp://x/y".toList] [] ["foo rtsp://x/z".toList]
      [⟨"foo".toList, "rtsp://x/y".toList, [], []⟩] .MalformedDefinition (by decide)
      (List.Forall₂.cons (by decide) List.Forall₂.nil) (by decide) (by decide)⟩

theorem attempted_ports_map (ports : List Nat) (r : Bool) :
    attempted_ports (ports.map (fun port => Event.CreateListener port r)) = ports := by
  induction ports with
  | nil => rfl
  | cons p ps ih =>
    simp only [attempted_ports, List.map_cons, List.filterMap_cons, Event.listener_port] at ih ⊢
    rw [ih]

theorem attempted_ports_create_server (e : Engine) (g : Globals) :
    attempted_ports (create_server e g).trace =
      (probe e.listen 0 (probe_list g.rtspServerPortNum)).1 := by
  rw [(create_server_probe e g).1, attempted_ports_map]

theorem attempted_ports_append (a b : List Event) :
    attempted_ports (a ++ b) = attempted_ports a ++ attempted_ports b := by
  simp [attempted_ports, List.filterMap_append]

theorem attempted_ports_urls (g : Globals) (argc : Nat) : ∀ (i : Nat) (urls : List Str),
    attempted_ports (proxy_urls g argc i urls) = []
  | _, [] => rfl
  | i, u :: us => by
    have ih := attempted_ports_urls g argc (i + 1) us
    simp only [proxy_urls, attempted_ports] at ih ⊢
    rw [List.filterMap_cons]
    simp only [Event.listener_port]
    exact ih

theorem attempted_ports_streams (g : Globals) (reg : List stream_info) :
    attempted_ports (reg.map (proxy_stream g)) = [] := by
  induction reg with
  | nil => rfl
  | cons si more ih =>
    simp only [List.map_cons, attempted_ports] at ih ⊢
    rw [List.filterMap_cons]
    simp only [proxy_stream, Event.listener_port]
    exact ih

theorem attempted_ports_tunneling (e : Engine) : attempted_ports (set_up_tunneling e) = [] := by
  unfold set_up_tunneling
  split_ifs <;> rfl

theorem attempted_ports_main {e : Engine} {args urls : List Str} {g : Globals}
    (h1 : check_arguments args = .ok (g, urls)) :
    attempted_ports (main e args).trace = attempted_ports (create_server e g).trace := by
  cases h0 : (create_server e g).rtspServer with
  | false => rw [(main_server_unavailable h1).2 h0]
  | true =>
    cases h2 : g.streams_file_path with
    | none =>
      rw [main_no_file h1 h0 h2]
      simp [attempted_ports_append, attempted_ports_urls, attempted_ports_tunneling]
    | some path =>
      cases h3 : load_streams_from_file e.open_file path with
      | error f =>
        rw [main_load_error h1 h2 h3, if_pos h0]
        simp [attempted_ports_append, attempted_ports_urls]
      | ok reg =>
        rw [main_load_ok h1 h0 h2 h3]
        simp [attempted_ports_append, attempted_ports_urls, attempted_ports_tunneling,
          attempted_ports_streams]

/-- C20 (as amended): for every requested port and every outcome of the attempts, the
sequence of the ports on which the creation of the listener is attempted holds a port more
than once if and only if the requested port is 8554 and the attempts on 8554 and on 554 both
fail; the sequence is then 8554, 554, 8554 (the retry on 8554 is not conditional); and the
listener attempts of a run of `main` on an accepted command line are those of the creation of
the server. -/
theorem C20_ports_attempted (e : Engine) (g : Globals) :
    ((attempted_ports (create_server e g).trace).Nodup ↔
        ¬ (g.rtspServerPortNum = 8554 ∧ e.listen 0 8554 = false ∧ e.listen 1 554 = false)) ∧
      (g.rtspServerPortNum = 8554 → e.listen 0 8554 = false → e.listen 1 554 = false →
        attempted_ports (create_server e g).trace = [8554, 554, 8554]) ∧
      ∀ args urls, check_arguments args = .ok (g, urls) →
        attempted_ports (main e args).trace = attempted_ports (create_server e g).trace := by
  refine ⟨?_, ?_, fun args urls h1 => attempted_ports_main h1⟩
  · rw [attempted_ports_create_server]
    unfold probe_list
    by_cases hp : g.rtspServerPortNum = 554
    · rw [hp]
      cases h0 : e.listen 0 554 <;> cases h1 : e.listen 1 8554 <;>
        simp [probe, h0, h1]
    · by_cases hq : g.rtspServerPortNum = 8554
      · rw [hq]
        cases h0 : e.listen 0 8554 <;> cases h1 : e.listen 1 554 <;>
          cases h2 : e.listen 2 8554 <;> simp [probe, h0, h1, h2]
      · cases h0 : e.listen 0 g.rtspServerPortNum <;> cases h1 : e.listen 1 554 <;>
          cases h2 : e.listen 2 8554 <;> simp [probe, h0, h1, h2, hp, hq]
  · intro hq h0 h1
    rw [attempted_ports_create_server, hq]
    cases h2 : e.listen 2 8554 <;> simp [probe_list, probe, h0, h1, h2]

/-- C20, counterexample: with `-p 8554 rtsp://a/1` and no port available, the creation of the
listener is attempted on 8554, on 554 and on 8554 again. -/
theorem C20_counterexample :
    main example_engine_closed ["-p".toList, "8554".toList, "rtsp://a/1".toList] =
        { trace := [Event.CreateListener 8554 false, Event.CreateListener 554 false,
                    Event.CreateListener 8554 false]
          outcome := .exited 1 .ServerUnavailable } ∧
      attempted_ports
          (main example_engine_closed ["-p".toList, "8554".toList, "rtsp://a/1".toList]).trace =
        [8554, 554, 8554] ∧
      ¬ (attempted_ports
          (main example_engine_closed
            ["-p".toList, "8554".toList, "rtsp://a/1".toList]).trace).Nodup := by
  decide

/-- Witness for C20 (as amended): with the default port 554 requested and no port available,
554 and 8554 are attempted once each; with 8554 requested, 8554 is attempted twice. -/
theorem C20_ports_attempted_witness :
    (attempted_ports (create_server example_engine_closed Globals.default).trace).Nodup ∧
      attempted_ports (create_server example_engine_closed
        { Globals.default with rtspServerPortNum := 8554 }).trace = [8554, 554, 8554] :=
  ⟨(C20_ports_attempted example_engine_closed Globals.default).1.2 (by decide),
    (C20_ports_attempted example_engine_closed
      { Globals.default with rtspServerPortNum := 8554 }).2.1 rfl rfl rfl⟩

end ProxyServer
